import Mathlib

/-!
# SecureMonitor: detection and enforcement loop

A shallow embedding of the Go packages `internal/storage` and
`internal/monitor` of SecureMonitor, with theorems about the store, the
strategies, the auto-unblock policy and the tailer.

Conventions of the embedding.

* A Go `string` is a `List Char`.  The tailer only counts elements and
  compares them with the newline; the parsers classify elements with
  `unicode.IsSpace`.  On ASCII text an element is a byte.
* A Go `map[string]V` is an association list `GoMap V`; the order of the list
  is the order in which `range` visits the map, which Go leaves unspecified,
  so theorems about loops over a map quantify over every list.
* A Go `int` is a 64-bit integer (the daemon runs on 64-bit Linux), written
  as an `Int`; every sum and product the program computes on strikes,
  counters, running totals and staged counts is reduced with `wrap64`, as is
  every product of `time.Duration`.  The increments of the parsers and the
  offsets of the tailer are bounded by the length of one read and are left
  as they are.
* An instant (`time.Time`) is an `Int` of nanoseconds on the daemon's clock;
  `time.Now()` is an explicit argument.
* The package-level variables become fields of explicit state records; every
  operation is one atomic state transformer.  The mutexes do not appear in
  these transformers; which mutex an operation takes, and what it does while
  holding it, is recorded separately as its sequence of effects (`Op.effects`).
* The functions of the Go standard library that the program calls
  (`strings`, `unicode`, `net`, `time`, `fmt`) are written out after their
  documented behaviour, in the namespaces `strings` and `net` or under their
  Go names.  The outside world (file contents, the geolocation service, the
  clock) enters as explicit arguments; the firewall is a trace of commands.
-/

namespace SecureMonitor

/-- A Go string. -/
abbrev Str := List Char

/-- A Go `map[string]V`, in the order `range` visits it. -/
abbrev GoMap (V : Type) := List (Str × V)

/-! ## Map primitives -/

/-- The comma-ok lookup `v, ok := m[k]`. -/
def mapGet {V : Type} : GoMap V → Str → Option V
  | [], _ => none
  | (k', v) :: m, k => if k' = k then some v else mapGet m k

/-- The plain lookup `m[k]` of an `int` map: the zero value when `k` is absent. -/
def mapGetD (m : GoMap Int) (k : Str) : Int := (mapGet m k).getD 0

/-- The assignment `m[k] = v`. -/
def mapSet {V : Type} : GoMap V → Str → V → GoMap V
  | [], k, v => [(k, v)]
  | (k', v') :: m, k, v => if k' = k then (k, v) :: m else (k', v') :: mapSet m k v

/-- The builtin `delete(m, k)`. -/
def mapDel {V : Type} : GoMap V → Str → GoMap V
  | [], _ => []
  | (k', v') :: m, k => if k' = k then mapDel m k else (k', v') :: mapDel m k

/-- The keys of a map, in iteration order. -/
def mapKeys {V : Type} (m : GoMap V) : List Str := m.map Prod.fst

/-! ## Machine integers -/

/-- Two's-complement wrap-around of a 64-bit signed integer. -/
def wrap64 (x : Int) : Int :=
  (x + 9223372036854775808) % 18446744073709551616 - 9223372036854775808

/-- The largest Go `int`, `math.MaxInt`. -/
def maxInt : Int := 9223372036854775807

/-- The smallest Go `int`, `math.MinInt`. -/
def minInt : Int := -9223372036854775808

/-! ## Package `strings` and `unicode` -/

/-- Go `unicode.IsSpace`: the Unicode White_Space property. -/
def isSpace (c : Char) : Bool :=
  let n := c.toNat
  (9 ≤ n && n ≤ 13) || n = 32 || n = 0x85 || n = 0xA0 || n = 0x1680 ||
  (0x2000 ≤ n && n ≤ 0x200A) || n = 0x2028 || n = 0x2029 || n = 0x202F ||
  n = 0x205F || n = 0x3000

namespace strings

/-- Go `strings.TrimSpace`: removes leading and trailing white space. -/
def TrimSpace (s : Str) : Str :=
  ((s.dropWhile isSpace).reverse.dropWhile isSpace).reverse

/-- Go `strings.Cut`: the text before and after the first occurrence of `sep`
in `s`, or `none` when `sep` does not occur. -/
def Cut (sep : Str) : Str → Option (Str × Str)
  | [] => if sep = [] then some ([], []) else none
  | c :: rest =>
    if sep.isPrefixOf (c :: rest) then some ([], (c :: rest).drop sep.length)
    else match Cut sep rest with
      | some (a, b) => some (c :: a, b)
      | none => none

/-- Go `strings.Contains`. -/
def Contains (s sub : Str) : Bool := (Cut sub s).isSome

/-- The loop of `strings.Split`, bounded by the number of cuts still possible. -/
def splitFuel (sep : Str) : Nat → Str → List Str
  | 0, s => [s]
  | fuel + 1, s =>
    match Cut sep s with
    | some (a, b) => a :: splitFuel sep fuel b
    | none => [s]

/-- Go `strings.Split(s, sep)` for a non-empty `sep` (every separator in this
program is a non-empty constant): `s` cut at each occurrence of `sep`, found
from left to right without overlap. -/
def Split (s sep : Str) : List Str := splitFuel sep s.length s

/-- Go `strings.SplitN(s, sep, n)` for `n > 0` and a non-empty `sep`: at most
`n` pieces, the last one the unsplit remainder. -/
def SplitN (s sep : Str) (n : Nat) : List Str := splitFuel sep (n - 1) s

/-- Go `strings.Join`. -/
def Join : List Str → Str → Str
  | [], _ => []
  | [a], _ => a
  | a :: b :: rest, sep => a ++ sep ++ Join (b :: rest) sep

/-- The loop of `strings.Fields`: `cur` is the field being read, reversed. -/
def fieldsAux : Str → Str → List Str
  | [], cur => if cur = [] then [] else [cur.reverse]
  | c :: rest, cur =>
    if isSpace c then
      (if cur = [] then fieldsAux rest [] else cur.reverse :: fieldsAux rest [])
    else fieldsAux rest (c :: cur)

/-- Go `strings.Fields`: the maximal runs of non-space characters. -/
def Fields (s : Str) : List Str := fieldsAux s []

/-- Go `strings.ToUpper` on ASCII letters (it is applied to the service names
`ssh` and `ftp` only). -/
def ToUpper (s : Str) : Str :=
  s.map (fun c => if 97 ≤ c.toNat ∧ c.toNat ≤ 122 then Char.ofNat (c.toNat - 32) else c)

end strings

/-! ## Package `storage` -/

/-- Go `storage.BlockedEntry`. -/
structure BlockedEntry where
  IP : Str
  BlockedAt : Int
  Strikes : Int
  deriving DecidableEq, Repr

/-- Go `storage.Alert`. -/
structure Alert where
  Timestamp : Str
  Service : Str
  IP : Str
  Country : Str
  Severity : Str
  Message : Str
  deriving DecidableEq, Repr

/-- The package-level variables of `storage`. -/
structure Store where
  blockedIPs : GoMap BlockedEntry
  strikeCounts : GoMap Int
  alerts : List Alert
  recentLogs : List Str
  deriving DecidableEq, Repr

/-- The store at process start. -/
def Store.empty : Store := ⟨[], [], [], []⟩

/-- Package variable `maxAlertsSize`. -/
def maxAlertsSize : Nat := 100

/-- Package variable `maxLogsSize`. -/
def maxLogsSize : Nat := 200

/-- The slice update of `AddLog` and `AddAlert`: append, then keep the last
`cap` elements when the length exceeds `cap`. -/
def ringPush {α : Type} (cap : Nat) (buf : List α) (x : α) : List α :=
  let buf1 := buf ++ [x]
  if buf1.length > cap then buf1.drop (buf1.length - cap) else buf1

/-- Go `storage.AddLog`. -/
def AddLog (st : Store) (line : Str) : Store :=
  { st with recentLogs := ringPush maxLogsSize st.recentLogs line }

/-- Go `storage.AddAlert`. -/
def AddAlert (st : Store) (a : Alert) : Store :=
  { st with alerts := ringPush maxAlertsSize st.alerts a }

/-- Go `storage.AddBlocked`; `tnow` is the reading of `time.Now()`. -/
def AddBlocked (st : Store) (ip0 : Str) (tnow : Int) : Store :=
  let ip := strings.TrimSpace ip0
  if ip = [] then st
  else
    match mapGet st.blockedIPs ip with
    | some entry =>
      if entry.Strikes ≤ 0 then
        let curr0 := mapGetD st.strikeCounts ip
        let curr := if curr0 < 1 then 1 else curr0
        { st with blockedIPs := mapSet st.blockedIPs ip { entry with Strikes := curr } }
      else st
    | none =>
      let prev0 := mapGetD st.strikeCounts ip
      let prevStrikes := if prev0 < 0 then 0 else prev0
      let new0 := wrap64 (prevStrikes + 1)
      let newStrikes := if new0 ≤ 0 then 1 else new0
      { st with
        strikeCounts := mapSet st.strikeCounts ip newStrikes
        blockedIPs := mapSet st.blockedIPs ip ⟨ip, tnow, newStrikes⟩ }

/-- Go `storage.RemoveBlocked`. -/
def RemoveBlocked (st : Store) (ip : Str) : Store :=
  { st with blockedIPs := mapDel st.blockedIPs (strings.TrimSpace ip) }

/-- The loop body of `LoadBlockedFromFile` for one line of the file. -/
def loadLine (tnow : Int) (st : Store) (raw : Str) : Store :=
  let ip := strings.TrimSpace raw
  if ip = [] then st
  else
    let current0 := mapGetD st.strikeCounts ip
    let current := if current0 < 1 then 1 else current0
    { st with
      strikeCounts := mapSet st.strikeCounts ip current
      blockedIPs := mapSet st.blockedIPs ip ⟨ip, tnow, current⟩ }

/-- Go `storage.LoadBlockedFromFile`; `file` is what `os.ReadFile` yields
(`none` for an error) and `tnow` the reading of `time.Now()`. -/
def LoadBlockedFromFile (st : Store) (file : Option Str) (tnow : Int) : Store :=
  match file with
  | none => st
  | some data => (strings.Split data ['\n']).foldl (loadLine tnow) st

/-- Go `storage.SaveBlockedToFile`: the bytes handed to `os.WriteFile`. -/
def SaveBlockedToFile (st : Store) : Str :=
  st.blockedIPs.foldl (fun b p => b ++ p.1 ++ ['\n']) []

/-- Go `storage.ListBlocked`. -/
def ListBlocked (st : Store) : List Str := st.blockedIPs.map Prod.fst

/-- Go `storage.ListBlockedEntries`. -/
def ListBlockedEntries (st : Store) : List BlockedEntry := st.blockedIPs.map Prod.snd

/-! ## Standard library `net` -/

namespace net

/-- A decimal octet of a dotted-quad: digits only, no leading zero, at most 255. -/
def parseOctet (f : Str) : Option Nat :=
  if f = [] then none
  else if !f.all Char.isDigit then none
  else if f.length > 1 && f.head? = some '0' then none
  else
    let v := f.foldl (fun a c => a * 10 + (c.toNat - 48)) 0
    if v > 255 then none else some v

/-- The dotted-quad syntax accepted by the standard library: exactly four
decimal octets separated by single dots. -/
def parseIPv4Fields (s : Str) : Option (List Nat) :=
  match (strings.Split s ['.']).map parseOctet with
  | [some a, some b, some c, some d] => some [a, b, c, d]
  | _ => none

/-- The value of a hexadecimal digit. -/
def hexVal (c : Char) : Option Nat :=
  let n := c.toNat
  if 48 ≤ n ∧ n ≤ 57 then some (n - 48)
  else if 97 ≤ n ∧ n ≤ 102 then some (n - 97 + 10)
  else if 65 ≤ n ∧ n ≤ 70 then some (n - 65 + 10)
  else none

/-- The inner loop of the IPv6 reader: reads hexadecimal digits, returning
the value, the number of digits and the rest; `none` on a fifth digit. -/
def hexRun : Str → Nat → Nat → Option (Nat × Nat × Str)
  | [], acc, off => some (acc, off, [])
  | c :: rest, acc, off =>
    match hexVal c with
    | none => some (acc, off, c :: rest)
    | some v =>
      if off > 3 then none
      else if acc * 16 + v > 65535 then none
      else hexRun rest (acc * 16 + v) (off + 1)

/-- The outer loop of the IPv6 reader.  The state is the unread text, the
bytes written so far and the position of the `::` if one was seen; the result
adds nothing when the loop ends and is `none` on a syntax error. -/
def v6Loop : Nat → Str → List Nat → Option Nat → Option (Str × List Nat × Option Nat)
  | 0, s, ip, ell => some (s, ip, ell)
  | fuel + 1, s, ip, ell =>
    if ip.length ≥ 16 then some (s, ip, ell)
    else
      match hexRun s 0 0 with
      | none => none
      | some (acc, off, rest) =>
        if off = 0 then none
        else if rest.head? = some '.' then
          if ell = none ∧ ip.length ≠ 12 then none
          else if ip.length + 4 > 16 then none
          else match parseIPv4Fields s with
            | none => none
            | some q => some ([], ip ++ q, ell)
        else
          let ip1 := ip ++ [acc / 256, acc % 256]
          match rest with
          | [] => some ([], ip1, ell)
          | c :: rest1 =>
            if c ≠ ':' then none
            else match rest1 with
              | [] => none
              | c1 :: rest2 =>
                if c1 = ':' then
                  (if ell ≠ none then none
                   else if rest2 = [] then some ([], ip1, some ip1.length)
                   else v6Loop fuel rest2 ip1 (some ip1.length))
                else v6Loop fuel rest1 ip1 ell

/-- The colon-hexadecimal syntax accepted by the standard library (without a
zone), as the 16 bytes of the address. -/
def parseIPv6 (s0 : Str) : Option (List Nat) :=
  let lead := s0.take 2 = [':', ':']
  let s := if lead then s0.drop 2 else s0
  if lead ∧ s = [] then some (List.replicate 16 0)
  else
    match v6Loop 9 s [] (if lead then some 0 else none) with
    | none => none
    | some (rest, ip, ell) =>
      if rest ≠ [] then none
      else if ip.length < 16 then
        match ell with
        | none => none
        | some e => some (ip.take e ++ List.replicate (16 - ip.length) 0 ++ ip.drop e)
      else if ell ≠ none then none
      else some ip

/-- The dispatch of the address reader on the first `.`, `:` or `%`. -/
def parseAddr (whole : Str) : Str → Option (List Nat)
  | [] => none
  | c :: rest =>
    if c = '.' then
      (parseIPv4Fields whole).map (fun q => List.replicate 10 0 ++ [255, 255] ++ q)
    else if c = ':' then parseIPv6 whole
    else if c = '%' then none
    else parseAddr whole rest

/-- Go `net.ParseIP`: the 16-byte form of a textual IPv4 or IPv6 address
(IPv4 as an IPv4-mapped address), or `none` for `nil`.  An address with a
zone is rejected. -/
def ParseIP (s : Str) : Option (List Nat) :=
  if s.contains '%' then none else parseAddr s s

/-- Go `IP.To4`: the four bytes of an IPv4-mapped address. -/
def To4 (ip : List Nat) : Option (List Nat) :=
  if ip.length = 16 ∧ ip.take 10 = List.replicate 10 0 ∧ (ip.drop 10).take 2 = [255, 255]
  then some (ip.drop 12) else none

/-- Go `IP.IsLoopback`: 127.0.0.0/8 or `::1`. -/
def IsLoopback (ip : List Nat) : Bool :=
  match To4 ip with
  | some ip4 => ip4.head? = some 127
  | none => ip = List.replicate 15 0 ++ [1]

/-- Go `IP.IsPrivate`: 10.0.0.0/8, 172.16.0.0/12, 192.168.0.0/16 or fc00::/7. -/
def IsPrivate (ip : List Nat) : Bool :=
  match To4 ip with
  | some ip4 =>
    ip4.head? = some 10 ||
    (ip4.head? = some 172 && (ip4.getD 1 0) / 16 = 1) ||
    (ip4.head? = some 192 && ip4.getD 1 0 = 168)
  | none => ip.length = 16 && (ip.getD 0 0) / 2 = 126

end net

/-! ## Packages `time` and `fmt` -/

/-- Go `time.Minute`, in nanoseconds. -/
def Minute : Int := 60000000000

/-- Go `time.Second`, in nanoseconds. -/
def Second : Int := 1000000000

/-- The largest `time.Duration`. -/
def maxDuration : Int := 9223372036854775807

/-- The smallest `time.Duration`. -/
def minDuration : Int := -9223372036854775808

/-- Go `Time.Sub`: the difference of two instants, saturated to the range of
`time.Duration`. -/
def timeSub (t u : Int) : Int :=
  if t - u > maxDuration then maxDuration
  else if t - u < minDuration then minDuration
  else t - u

/-- Go `Duration.Truncate(time.Second)`: rounding toward zero. -/
def truncateSecond (d : Int) : Int := d - Int.tmod d Second

/-- The verb `%d` of `fmt.Sprintf` for a non-negative integer. -/
def fmtNat (n : Nat) : Str := Nat.toDigits 10 n

/-- The verb `%d` of `fmt.Sprintf`. -/
def fmtInt (n : Int) : Str := if n < 0 then '-' :: fmtNat n.natAbs else fmtNat n.natAbs

/-- Go `Duration.String` for a whole number of seconds (it is only applied to
truncated durations): hours, minutes and seconds, leading zero units omitted. -/
def durationString (d : Int) : Str :=
  let u := d.natAbs / 1000000000
  let body : Str :=
    if u = 0 then ['0', 's']
    else
      (if u / 3600 > 0 then fmtNat (u / 3600) ++ ['h'] else []) ++
      (if u / 60 > 0 then fmtNat (u / 60 % 60) ++ ['m'] else []) ++
      fmtNat (u % 60) ++ ['s']
  if d < 0 ∧ u ≠ 0 then '-' :: body else body

/-! ## Packages `config` and `firewall` -/

/-- Go `config.Config`. -/
structure Config where
  ServicesToWatch : List Str
  SSHLogPath : Str
  ApacheAccessLogPath : Str
  ApacheErrorLogPath : Str
  FTPLogPath : Str
  MaxFailures : Int
  SSHMaxFailures : Int
  FTPMaxFailures : Int
  ApacheErrorThreshold : Int
  CheckIntervalSeconds : Int
  BlockedIPsFile : Str
  WhitelistFile : Str
  AutoUnblockMinutes : Int
  ApacheBlockOnThreshold : Bool
  deriving DecidableEq, Repr

/-- The zero value of `config.Config`. -/
def Config.zero : Config := ⟨[], [], [], [], [], 0, 0, 0, 0, 0, [], [], 0, false⟩

/-- A command handed to the host firewall utility `ufw`. -/
inductive FwCmd where
  | deny (ip : Str)
  | deleteDeny (ip : Str)
  deriving DecidableEq, Repr

/-! ## Package `monitor`: state -/

/-- The package-level variables of `monitor`, the store, and the trace of
firewall commands issued so far (oldest first). -/
structure World where
  store : Store
  sshCount : Int
  ftpCount : Int
  apacheCount : Int
  geoCache : GoMap Str
  lastOffsets : GoMap Int
  simSSHFails : GoMap Int
  simFTPFails : GoMap Int
  simApacheErr : GoMap Int
  fw : List FwCmd
  deriving DecidableEq, Repr

/-- The state at process start. -/
def World.init : World := ⟨Store.empty, 0, 0, 0, [], [], [], [], [], []⟩

/-- Go `firewall.BlockIP`: the command is issued for a non-empty address;
its outcome is only logged. -/
def BlockIP (w : World) (ip0 : Str) : World :=
  let ip := strings.TrimSpace ip0
  if ip = [] then w else { w with fw := w.fw ++ [FwCmd.deny ip] }

/-- Go `firewall.UnblockIP`. -/
def UnblockIP (w : World) (ip0 : Str) : World :=
  let ip := strings.TrimSpace ip0
  if ip = [] then w else { w with fw := w.fw ++ [FwCmd.deleteDeny ip] }

/-- Go `monitor.IncSSHBy`. -/
def IncSSHBy (n : Int) (w : World) : World :=
  if n ≤ 0 then w else { w with sshCount := wrap64 (w.sshCount + n) }

/-- Go `monitor.IncFTPBy`. -/
def IncFTPBy (n : Int) (w : World) : World :=
  if n ≤ 0 then w else { w with ftpCount := wrap64 (w.ftpCount + n) }

/-- Go `monitor.IncApacheBy`. -/
def IncApacheBy (n : Int) (w : World) : World :=
  if n ≤ 0 then w else { w with apacheCount := wrap64 (w.apacheCount + n) }

/-- Go `monitor.GetSSHCount`. -/
def GetSSHCount (w : World) : Int := w.sshCount

/-- Go `monitor.GetFTPCount`. -/
def GetFTPCount (w : World) : Int := w.ftpCount

/-- Go `monitor.GetApacheCount`. -/
def GetApacheCount (w : World) : Int := w.apacheCount

/-! ## Package `monitor`: whitelist -/

/-- Go `monitor.isLoopback`: loopback or private, `false` when the text is
not an address. -/
def isLoopback (ip : Str) : Bool :=
  match net.ParseIP (strings.TrimSpace ip) with
  | none => false
  | some p => net.IsLoopback p || net.IsPrivate p

/-- The loop body of `loadWhitelist` for one line. -/
def whitelistLine (m : GoMap Unit) (raw : Str) : GoMap Unit :=
  let s := (strings.Split raw ['#']).headD []
  let ip := strings.TrimSpace s
  if ip = [] then m else mapSet m ip ()

/-- Go `monitor.loadWhitelist`; `file` is what `os.ReadFile` yields. -/
def loadWhitelist (path : Str) (file : Option Str) : GoMap Unit :=
  if path = [] then []
  else match file with
    | none => []
    | some data => (strings.Split data ['\n']).foldl whitelistLine []

/-- Go `monitor.isWhitelisted`. -/
def isWhitelisted (ip : Str) (wl : GoMap Unit) : Bool :=
  (mapGet wl (strings.TrimSpace ip)).isSome

/-! ## Package `monitor`: classification -/

/-- Go `monitor.effectiveThreshold`. -/
def effectiveThreshold (specific global fallback : Int) : Int :=
  if specific > 0 then specific
  else if global > 0 then global
  else fallback

/-- Go `monitor.classifySeverity`. -/
def classifySeverity (_service : Str) (newEvents total threshold0 : Int) : Str :=
  let threshold := if threshold0 ≤ 0 then 1 else threshold0
  if newEvents ≥ threshold ∨ total ≥ threshold then "HIGH".toList
  else if wrap64 (total * 2) ≥ threshold then "MEDIUM".toList
  else "LOW".toList

/-- Go `monitor.lookupCountry`; `geoAPI` is the label the geolocation service
yields for an address (empty on any failure). -/
def lookupCountry (geoAPI : Str → Str) (w : World) (ip0 : Str) : Str × World :=
  let ip := strings.TrimSpace ip0
  if ip = [] then ([], w)
  else
    let isLocal := match net.ParseIP ip with
      | some p => net.IsLoopback p || net.IsPrivate p
      | none => false
    if isLocal then ("Local".toList, w)
    else match mapGet w.geoCache ip with
      | some c => (c, w)
      | none => (geoAPI ip, { w with geoCache := mapSet w.geoCache ip (geoAPI ip) })

/-- Go `monitor.extractIP`.  `none` is the run-time panic of indexing the
empty result of `strings.Fields`. -/
def extractIP (line : Str) : Option Str :=
  let viaFields (sep : Str) : Option (Option Str) :=
    if strings.Contains line sep then
      match strings.Split line sep with
      | _ :: p1 :: _ =>
        match strings.Fields p1 with
        | ip :: _ => some (some (strings.TrimSpace ip))
        | [] => some none
      | _ => none
    else none
  let viaClient : Option Str :=
    if strings.Contains line "Client \"".toList then
      match strings.Split line "Client \"".toList with
      | _ :: rest :: _ => some (strings.TrimSpace ((strings.SplitN rest ['"'] 2).headD []))
      | _ => none
    else none
  match viaClient with
  | some ip => some ip
  | none =>
    match viaFields "rhost=".toList with
    | some r => r
    | none =>
      match viaFields " from ".toList with
      | some r => r
      | none => some []

/-! ## Package `monitor`: parsers -/

/-- The loop body of `parseSSHFailuresFromLines` for one line. -/
def sshLine (failures : GoMap Int) (raw : Str) : Option (GoMap Int) :=
  let line := strings.TrimSpace raw
  if line = [] then some failures
  else if !strings.Contains line "sshd".toList then some failures
  else if strings.Contains line "Failed password".toList then
    match extractIP line with
    | none => none
    | some ip =>
      if ip ≠ [] then some (mapSet failures ip (mapGetD failures ip + 1)) else some failures
  else some failures

/-- Go `monitor.parseSSHFailuresFromLines`; `none` is a panic of `extractIP`. -/
def parseSSHFailuresFromLines (lines : List Str) : Option (GoMap Int) :=
  lines.foldlM sshLine []

/-- The loop body of `parseFTPFailuresFromLines` for one line. -/
def ftpLine (failures : GoMap Int) (raw : Str) : Option (GoMap Int) :=
  let line := strings.TrimSpace raw
  if line = [] then some failures
  else if !strings.Contains line "vsftpd".toList then some failures
  else if strings.Contains line "authentication failure".toList then
    match extractIP line with
    | none => none
    | some ip =>
      if ip ≠ [] then some (mapSet failures ip (mapGetD failures ip + 1)) else some failures
  else some failures

/-- Go `monitor.parseFTPFailuresFromLines`; `none` is a panic of `extractIP`. -/
def parseFTPFailuresFromLines (lines : List Str) : Option (GoMap Int) :=
  lines.foldlM ftpLine []

/-! ## Package `monitor`: strategies -/

/-- Go `monitor.logPrefix`. -/
def logPrefix (service : Str) : Str := ['['] ++ strings.ToUpper service ++ [']']

/-- Go `monitor.loginServiceConfig`. -/
structure loginServiceConfig where
  name : Str
  defaultThresh : Int
  getSpecific : Config → Int
  incCounter : Int → World → World

/-- Go `monitor.LoginServiceStrategy`. -/
structure LoginServiceStrategy where
  cfg : loginServiceConfig
  totals : GoMap Int

/-- Go `monitor.NewSSHStrategy`. -/
def NewSSHStrategy : LoginServiceStrategy :=
  { cfg := { name := "ssh".toList, defaultThresh := 3,
             getSpecific := fun cfg => cfg.SSHMaxFailures, incCounter := IncSSHBy },
    totals := [] }

/-- Go `monitor.NewFTPStrategy`. -/
def NewFTPStrategy : LoginServiceStrategy :=
  { cfg := { name := "ftp".toList, defaultThresh := 3,
             getSpecific := fun cfg => cfg.FTPMaxFailures, incCounter := IncFTPBy },
    totals := [] }

/-- The body of the `range events` loop of `LoginServiceStrategy.ProcessEvents`
for one entry of the map. -/
def loginEvent (geoAPI : Str → Str) (sc : loginServiceConfig) (threshold : Int)
    (nowStamp : Str) (whitelist : GoMap Unit) (tnow : Int)
    (acc : GoMap Int × World) (ev : Str × Int) : GoMap Int × World :=
  let ip := ev.1
  let newFails := ev.2
  if newFails ≤ 0 then acc
  else
    let pfx := logPrefix sc.name
    let w1 := sc.incCounter newFails acc.2
    let total := wrap64 (mapGetD acc.1 ip + newFails)
    let totals1 := mapSet acc.1 ip total
    let line1 := pfx ++ " ".toList ++ fmtInt newFails ++ " new failed logins from ".toList ++
      ip ++ " (total=".toList ++ fmtInt total ++ ")".toList
    let w2 := { w1 with store := AddLog w1.store line1 }
    let severity := classifySeverity sc.name newFails total threshold
    let lc := lookupCountry geoAPI w2 ip
    let w3 := lc.2
    let alert : Alert :=
      { Timestamp := nowStamp, Service := sc.name, IP := ip, Country := lc.1,
        Severity := severity,
        Message := fmtInt newFails ++ " new ".toList ++ strings.ToUpper sc.name ++
          " failed logins from ".toList ++ ip ++ " (total=".toList ++ fmtInt total ++
          ")".toList }
    let w4 := { w3 with store := AddAlert w3.store alert }
    if isLoopback ip || isWhitelisted ip whitelist then (totals1, w4)
    else if total ≥ threshold then
      let line2 := pfx ++ " Blocking ".toList ++ ip ++ " (total fails=".toList ++
        fmtInt total ++ ", threshold=".toList ++ fmtInt threshold ++ ")".toList
      let w5 := { w4 with store := AddLog w4.store line2 }
      let w6 := BlockIP w5 ip
      (totals1, { w6 with store := AddBlocked w6.store ip tnow })
    else (totals1, w4)

/-- Go `LoginServiceStrategy.ProcessEvents`.  `nowStamp` is
`now.Format(time.RFC3339)`, the only use made of `now`; `tnow` is the reading
of `time.Now()` inside `AddBlocked`. -/
def LoginServiceStrategy.ProcessEvents (geoAPI : Str → Str) (s : LoginServiceStrategy)
    (w : World) (events : GoMap Int) (cfg : Config) (nowStamp : Str)
    (whitelist : GoMap Unit) (tnow : Int) : LoginServiceStrategy × World :=
  if events.length = 0 then (s, w)
  else
    let threshold := effectiveThreshold (s.cfg.getSpecific cfg) cfg.MaxFailures s.cfg.defaultThresh
    let r := events.foldl (loginEvent geoAPI s.cfg threshold nowStamp whitelist tnow) (s.totals, w)
    ({ s with totals := r.1 }, r.2)

/-- The body of the alert loop of `ApacheStrategy.ProcessEvents` for one
entry of the map. -/
def apacheEvent (geoAPI : Str → Str) (cfg : Config) (threshold : Int) (nowStamp : Str)
    (whitelist : GoMap Unit) (tnow : Int) (w : World) (ev : Str × Int) : World :=
  let ip := ev.1
  let count := ev.2
  let severity := classifySeverity "apache".toList count count threshold
  let lc := lookupCountry geoAPI w ip
  let w1 := lc.2
  let alert : Alert :=
    { Timestamp := nowStamp, Service := "apache".toList, IP := ip, Country := lc.1,
      Severity := severity,
      Message := fmtInt count ++ " Apache 4xx/5xx errors from ".toList ++ ip ++
        " this cycle".toList }
  let w2 := { w1 with store := AddAlert w1.store alert }
  if cfg.ApacheBlockOnThreshold && !isLoopback ip && !isWhitelisted ip whitelist &&
      decide (count ≥ threshold) then
    let line := "[APACHE] Blocking ".toList ++ ip ++ " (errors this cycle=".toList ++
      fmtInt count ++ ", threshold=".toList ++ fmtInt threshold ++ ")".toList
    let w3 := { w2 with store := AddLog w2.store line }
    let w4 := BlockIP w3 ip
    { w4 with store := AddBlocked w4.store ip tnow }
  else w2

/-- Go `ApacheStrategy.ProcessEvents`. -/
def ApacheStrategy.ProcessEvents (geoAPI : Str → Str) (w : World) (apacheErrors : GoMap Int)
    (cfg : Config) (nowStamp : Str) (whitelist : GoMap Unit) (tnow : Int) : World :=
  if apacheErrors.length = 0 then w
  else
    let threshold := effectiveThreshold cfg.ApacheErrorThreshold cfg.MaxFailures 10
    let totalApacheErrors := apacheErrors.foldl (fun a p => wrap64 (a + p.2)) 0
    if totalApacheErrors = 0 then w
    else
      let w1 := IncApacheBy totalApacheErrors w
      let line := "[APACHE] Errors detected this cycle: ".toList ++
        fmtInt totalApacheErrors ++ " (ips=".toList ++ fmtNat apacheErrors.length ++
        ")".toList
      let w2 := { w1 with store := AddLog w1.store line }
      apacheErrors.foldl (apacheEvent geoAPI cfg threshold nowStamp whitelist tnow) w2

/-! ## Package `monitor`: auto-unblock -/

/-- The body of the loop of `autoUnblockExpired` for one entry of the
snapshot; `base` is the configured hold time as a `time.Duration`. -/
def autoUnblockEntry (base now : Int) (w : World) (e : BlockedEntry) : World :=
  let strikes := if e.Strikes ≤ 0 then 1 else e.Strikes
  let factor := 1 + (strikes - 1) * 2
  let maxAge := wrap64 (base * wrap64 factor)
  let age := timeSub now e.BlockedAt
  if age ≥ maxAge then
    let line := "[FW] Auto-unblock ".toList ++ e.IP ++ " (age=".toList ++
      durationString (truncateSecond age) ++ ", strikes=".toList ++ fmtInt strikes ++
      ", maxAge≈".toList ++ durationString (truncateSecond maxAge) ++ ")".toList
    let w1 := { w with store := AddLog w.store line }
    let w2 := UnblockIP w1 e.IP
    { w2 with store := RemoveBlocked w2.store e.IP }
  else w

/-- Go `monitor.autoUnblockExpired`. -/
def autoUnblockExpired (w : World) (cfg : Config) (now : Int) : World :=
  if cfg.AutoUnblockMinutes ≤ 0 then w
  else
    let base := wrap64 (wrap64 cfg.AutoUnblockMinutes * Minute)
    (ListBlockedEntries w.store).foldl (autoUnblockEntry base now) w

/-! ## Package `monitor`: tailer -/

/-- The failures `ReadNewLines` reports. -/
inductive TailErr where
  | openFailed
  | statFailed
  | seekFailed
  deriving DecidableEq, Repr

/-- What the operating system answers for one path during one call of
`ReadNewLines`: whether `os.Open`, `Stat` and `Seek` fail, the bytes of the
file, and how many bytes the single `Read` delivers at most (`none`: as many
as were asked for). -/
structure FileView where
  openErr : Bool
  statErr : Bool
  seekErr : Bool
  content : Str
  readCap : Option Nat
  deriving DecidableEq, Repr

/-- A readable file with the given bytes. -/
def FileView.ok (content : Str) : FileView := ⟨false, false, false, content, none⟩

/-- Go `monitor.ReadNewLines`: the result and the updated offset table. -/
def ReadNewLines (w : World) (path : Str) (f : FileView) :
    Except TailErr (List Str) × World :=
  if f.openErr then (.error .openFailed, w)
  else if f.statErr then (.error .statFailed, w)
  else
    let size : Int := f.content.length
    match mapGet w.lastOffsets path with
    | none => (.ok [], { w with lastOffsets := mapSet w.lastOffsets path size })
    | some offset0 =>
      let offset := if size < offset0 then 0 else offset0
      if size = offset then (.ok [], w)
      else
        let toRead := size - offset
        if f.seekErr ∨ offset < 0 then (.error .seekFailed, w)
        else
          let avail := (f.content.drop offset.toNat).take toRead.toNat
          let buf := match f.readCap with
            | none => avail
            | some k => avail.take k
          let n : Int := buf.length
          if n ≤ 0 then (.ok [], { w with lastOffsets := mapSet w.lastOffsets path size })
          else (.ok (strings.Split buf ['\n']),
                { w with lastOffsets := mapSet w.lastOffsets path (offset + n) })

/-! ## Package `monitor`: reading the logs of one cycle -/

/-- Go `monitor.parseSSHFailures`; `none` is a panic of `extractIP`. -/
def parseSSHFailures (w : World) (path : Str) (f : FileView) : Option (GoMap Int) × World :=
  match ReadNewLines w path f with
  | (.error _, w1) => (some [], w1)
  | (.ok lines, w1) =>
    if lines.length = 0 then (some [], w1) else (parseSSHFailuresFromLines lines, w1)

/-- Go `monitor.parseFTPFailures`; `none` is a panic of `extractIP`. -/
def parseFTPFailures (w : World) (path : Str) (f : FileView) : Option (GoMap Int) × World :=
  match ReadNewLines w path f with
  | (.error _, w1) => (some [], w1)
  | (.ok lines, w1) =>
    if lines.length = 0 then (some [], w1) else (parseFTPFailuresFromLines lines, w1)

/-- Go `monitor.isApacheErrorLine`. -/
def isApacheErrorLine (line : Str) : Bool :=
  strings.Contains line " 404 ".toList || strings.Contains line " 500 ".toList

/-- Go `monitor.extractApacheAccessIP`. -/
def extractApacheAccessIP (line : Str) : Str :=
  match strings.Fields line with
  | [] => []
  | f :: _ =>
    let ip := strings.TrimSpace f
    if ip = "-".toList then [] else ip

/-- The loop body of `parseApacheErrors` for one line. -/
def apacheLine (errorsByIP : GoMap Int) (raw : Str) : Option (GoMap Int) :=
  let line := strings.TrimSpace raw
  if line = [] then some errorsByIP
  else if !isApacheErrorLine line then some errorsByIP
  else
    let ip0 := extractApacheAccessIP line
    match (if ip0 = [] then extractIP line else some ip0) with
    | none => none
    | some ip1 =>
      let ip := if ip1 = [] then "unknown".toList else ip1
      some (mapSet errorsByIP ip (mapGetD errorsByIP ip + 1))

/-- Go `monitor.parseApacheErrors`; `none` is a panic of `extractIP`. -/
def parseApacheErrors (w : World) (path : Str) (f : FileView) : Option (GoMap Int) × World :=
  match ReadNewLines w path f with
  | (.error _, w1) => (some [], w1)
  | (.ok lines, w1) =>
    if lines.length = 0 then (some [], w1) else (lines.foldlM apacheLine [], w1)

/-- Go `monitor.AddSimulatedSSH`. -/
def AddSimulatedSSH (w : World) (ip : Str) (n : Int) : World :=
  if n ≤ 0 ∨ ip = [] then w
  else { w with simSSHFails := mapSet w.simSSHFails ip (wrap64 (mapGetD w.simSSHFails ip + n)) }

/-- Go `monitor.AddSimulatedFTP`. -/
def AddSimulatedFTP (w : World) (ip : Str) (n : Int) : World :=
  if n ≤ 0 ∨ ip = [] then w
  else { w with simFTPFails := mapSet w.simFTPFails ip (wrap64 (mapGetD w.simFTPFails ip + n)) }

/-- Go `monitor.AddSimulatedApache`. -/
def AddSimulatedApache (w : World) (ip : Str) (n : Int) : World :=
  if n ≤ 0 ∨ ip = [] then w
  else
    { w with simApacheErr := mapSet w.simApacheErr ip (wrap64 (mapGetD w.simApacheErr ip + n)) }

/-- Go `monitor.drainSimulatedSSH`. -/
def drainSimulatedSSH (w : World) : GoMap Int × World :=
  (w.simSSHFails, { w with simSSHFails := [] })

/-- Go `monitor.drainSimulatedFTP`. -/
def drainSimulatedFTP (w : World) : GoMap Int × World :=
  (w.simFTPFails, { w with simFTPFails := [] })

/-- Go `monitor.drainSimulatedApache`. -/
def drainSimulatedApache (w : World) : GoMap Int × World :=
  (w.simApacheErr, { w with simApacheErr := [] })

/-- The loop `for ip, c := range drained { m[ip] += c }`. -/
def mergeCounts (m drained : GoMap Int) : GoMap Int :=
  drained.foldl (fun acc p => mapSet acc p.1 (wrap64 (mapGetD acc p.1 + p.2))) m

/-- Go `monitor.readSSHAndFTP`; `fSSH` and `fFTP` are the views of the two
log files (only `fSSH` is read when the two paths are equal). -/
def readSSHAndFTP (w : World) (cfg : Config) (fSSH fFTP : FileView) :
    Option (GoMap Int × GoMap Int) × World :=
  let parsed : Option (GoMap Int) × Option (GoMap Int) × World :=
    if cfg.SSHLogPath = cfg.FTPLogPath then
      let r := ReadNewLines w cfg.SSHLogPath fSSH
      let lines := match r.1 with
        | .error _ => []
        | .ok ls => ls
      (parseSSHFailuresFromLines lines, parseFTPFailuresFromLines lines, r.2)
    else
      let r1 := parseSSHFailures w cfg.SSHLogPath fSSH
      let r2 := parseFTPFailures r1.2 cfg.FTPLogPath fFTP
      (r1.1, r2.1, r2.2)
  match parsed with
  | (some sshFails, some ftpFails, w1) =>
    let d1 := drainSimulatedSSH w1
    let d2 := drainSimulatedFTP d1.2
    (some (mergeCounts sshFails d1.1, mergeCounts ftpFails d2.1), d2.2)
  | (_, _, w1) => (none, w1)

/-- Go `monitor.readApache`. -/
def readApache (w : World) (cfg : Config) (f : FileView) : Option (GoMap Int) × World :=
  match parseApacheErrors w cfg.ApacheAccessLogPath f with
  | (some apacheErrors, w1) =>
    let d := drainSimulatedApache w1
    (some (mergeCounts apacheErrors d.1), d.2)
  | (none, w1) => (none, w1)

/-! ## Reachable stores and the data-model invariant -/

/-- The stores the daemon can be in: built from the empty store by the
operations of `storage` that write to it. -/
inductive Reachable : Store → Prop where
  | empty : Reachable Store.empty
  | addBlocked (st : Store) (ip : Str) (tnow : Int) :
      Reachable st → Reachable (AddBlocked st ip tnow)
  | removeBlocked (st : Store) (ip : Str) :
      Reachable st → Reachable (RemoveBlocked st ip)
  | loadBlocked (st : Store) (file : Option Str) (tnow : Int) :
      Reachable st → Reachable (LoadBlockedFromFile st file tnow)
  | addLog (st : Store) (line : Str) : Reachable st → Reachable (AddLog st line)
  | addAlert (st : Store) (a : Alert) : Reachable st → Reachable (AddAlert st a)

/-- The stores the daemon builds: as `Reachable`, with `AddBlocked` called as
the program calls it, on an address that holds no newline.  The program calls
`AddBlocked` in the two block branches of `ProcessEvents` only, on a key of an
event map: an address cut from a log line (the tailer splits the log at
newlines) or the client address of an HTTP request staged by the simulator. -/
inductive Built : Store → Prop where
  | empty : Built Store.empty
  | addBlocked (st : Store) (ip : Str) (tnow : Int) :
      '\n' ∉ ip → Built st → Built (AddBlocked st ip tnow)
  | removeBlocked (st : Store) (ip : Str) :
      Built st → Built (RemoveBlocked st ip)
  | loadBlocked (st : Store) (file : Option Str) (tnow : Int) :
      Built st → Built (LoadBlockedFromFile st file tnow)
  | addLog (st : Store) (line : Str) : Built st → Built (AddLog st line)
  | addAlert (st : Store) (a : Alert) : Built st → Built (AddAlert st a)

/-- The data model of the blocked map: one entry per key, each entry stored
under its own address, and every address trimmed. -/
def BlockedWF (m : GoMap BlockedEntry) : Prop :=
  (mapKeys m).Nodup ∧ ∀ p ∈ m, p.2.IP = p.1 ∧ strings.TrimSpace p.1 = p.1

instance (m : GoMap BlockedEntry) : Decidable (BlockedWF m) := by
  unfold BlockedWF; infer_instance

/-- The strike invariant of a store: every blocked entry has a non-empty key
and carries the strike-history value of its key, which is at least one. -/
def StrikesInv (st : Store) : Prop :=
  ∀ k e, mapGet st.blockedIPs k = some e →
    k ≠ [] ∧ e.Strikes = mapGetD st.strikeCounts k ∧ 1 ≤ e.Strikes

/-- The release test of `autoUnblockEntry`: the age of the entry has reached
its maximal age, both computed as in the loop body. -/
def holdExpired (base now : Int) (e : BlockedEntry) : Bool :=
  decide (timeSub now e.BlockedAt
    ≥ wrap64 (base * wrap64 (1 + ((if e.Strikes ≤ 0 then 1 else e.Strikes) - 1) * 2)))

/-- The strike-escalation scenario on the blocked state: block `a` at `t0`,
run auto-unblock at `now1`, block `a` again at `t2`, run auto-unblock at
`now3`.  The result is the state after the last step. -/
def escalationRun (w : World) (cfg : Config) (a : Str) (t0 now1 t2 now3 : Int) : World :=
  let w1 : World := { w with store := AddBlocked w.store a t0 }
  let w2 : World := autoUnblockExpired w1 cfg now1
  let w3 : World := { w2 with store := AddBlocked w2.store a t2 }
  autoUnblockExpired w3 cfg now3

/-- The sum of the counts of an event map. -/
def sumCounts (events : GoMap Int) : Int := (events.map Prod.snd).sum

/-- A line of scenario S1: after trimming it contains `sshd` and
`Failed password`, and the address `extractIP` finds in it is `10.0.0.5`. -/
def isS1Line (raw : Str) : Prop :=
  strings.Contains (strings.TrimSpace raw) "sshd".toList = true
    ∧ strings.Contains (strings.TrimSpace raw) "Failed password".toList = true
    ∧ extractIP (strings.TrimSpace raw) = some "10.0.0.5".toList

instance (raw : Str) : Decidable (isS1Line raw) := by
  unfold isS1Line; infer_instance

/-- The line sequence of a result of `ReadNewLines`; an error carries none. -/
def linesOf : Except TailErr (List Str) → List Str
  | .ok ls => ls
  | .error _ => []

/-- A run of the tailer on a file that only grows and is always readable: the
file holds `content`, and before each further call of `ReadNewLines` the next
chunk of `chunks` (possibly empty) is appended.  The results of the calls, in
order. -/
def tailRun (path : Str) : World → Str → List Str → List (Except TailErr (List Str))
  | _, _, [] => []
  | w, content, c :: cs =>
    (ReadNewLines w path (FileView.ok (content ++ c))).1 ::
      tailRun path (ReadNewLines w path (FileView.ok (content ++ c))).2 (content ++ c) cs

/-- A run of the tailer on a file that only grows: before each call the chunk
of the step is appended to the file, and the `FileView` of the step says which
system calls fail and how much the read delivers (its `content` is replaced by
the bytes of the file).  The results of the calls, in order. -/
def tailRunViews (path : Str) :
    World → Str → List (Str × FileView) → List (Except TailErr (List Str))
  | _, _, [] => []
  | w, content, (d, fv) :: rest =>
    (ReadNewLines w path { fv with content := content ++ d }).1 ::
      tailRunViews path (ReadNewLines w path { fv with content := content ++ d }).2
        (content ++ d) rest

/-! ## The extraction rules in the words of the specification -/

/-- The text of `line` after the first occurrence of `sep`, when `sep` occurs. -/
def afterFirst (sep line : Str) : Option Str := (strings.Cut sep line).map Prod.snd

/-- The text of `s` up to the first occurrence of `sep`; all of `s` when `sep`
does not occur. -/
def upTo (sep s : Str) : Str :=
  match strings.Cut sep s with
  | some (a, _) => a
  | none => s

/-- The first whitespace-delimited token of `s`, when there is one. -/
def firstToken (s : Str) : Option Str := (strings.Fields s).head?

/-- The second and third block of `extractIP` (`rhost=` and ` from `), by
themselves: `none` when the block does not return, `some none` when it aborts. -/
def fieldsRule (sep line : Str) : Option (Option Str) :=
  if strings.Contains line sep then
    match strings.Split line sep with
    | _ :: p1 :: _ =>
      match strings.Fields p1 with
      | ip :: _ => some (some (strings.TrimSpace ip))
      | [] => some none
    | _ => none
  else none

/-- The first block of `extractIP` (`Client "`), by itself: `none` when the
block does not return. -/
def clientRule (line : Str) : Option Str :=
  if strings.Contains line "Client \"".toList then
    match strings.Split line "Client \"".toList with
    | _ :: rest :: _ => some (strings.TrimSpace ((strings.SplitN rest ['"'] 2).headD []))
    | _ => none
  else none

/-- The address-extraction heuristic as the specification words it: the first
rule that matches, `Client "` up to the next `"`, `rhost=` or ` from ` followed
by the first token after the first occurrence; the empty string otherwise (and
when no token follows).  The result is trimmed. -/
def extractIPClaimed (line : Str) : Str :=
  match afterFirst "Client \"".toList line with
  | some rest => strings.TrimSpace (upTo ['"'] rest)
  | none =>
    match afterFirst "rhost=".toList line with
    | some rest => strings.TrimSpace ((firstToken rest).getD [])
    | none =>
      match afterFirst " from ".toList line with
      | some rest => strings.TrimSpace ((firstToken rest).getD [])
      | none => []

/-- The address-extraction heuristic with the reach of each rule as the code
has it: the text examined after the first occurrence of a pattern ends at the
next occurrence of the same pattern.  `none` when `rhost=` or ` from ` is
followed by no token in that text. -/
def extractIPSpec (line : Str) : Option Str :=
  match afterFirst "Client \"".toList line with
  | some rest => some (strings.TrimSpace (upTo ['"'] (upTo "Client \"".toList rest)))
  | none =>
    match afterFirst "rhost=".toList line with
    | some rest => (firstToken (upTo "rhost=".toList rest)).map strings.TrimSpace
    | none =>
      match afterFirst " from ".toList line with
      | some rest => (firstToken (upTo " from ".toList rest)).map strings.TrimSpace
      | none => some []

/-! ## The parsers in the words of the specification -/

/-- What a parser does with one line: skip it, count it under an address, or
abort (the abort of address extraction). -/
inductive Verdict where
  | skip
  | count (ip : Str)
  | abort
  deriving DecidableEq, Repr

/-- Whether the verdict counts the line. -/
def Verdict.isCount : Verdict → Bool
  | .count _ => true
  | _ => false

/-- The statement `m[ip]++`. -/
def bump (m : GoMap Int) (ip : Str) : GoMap Int := mapSet m ip (mapGetD m ip + 1)

/-- The effect of a verdict on the map under construction. -/
def applyVerdict (m : GoMap Int) : Verdict → Option (GoMap Int)
  | .skip => some m
  | .count ip => some (bump m ip)
  | .abort => none

/-- The SSH rule: a line is counted iff (trimmed) it contains both `sshd` and
`Failed password`, under the address extracted from it; a line whose extracted
address is empty is skipped. -/
def sshVerdict (raw : Str) : Verdict :=
  let line := strings.TrimSpace raw
  if strings.Contains line "sshd".toList && strings.Contains line "Failed password".toList then
    match extractIP line with
    | none => .abort
    | some ip => if ip = [] then .skip else .count ip
  else .skip

/-- The FTP rule: as the SSH rule, with `vsftpd` and `authentication failure`. -/
def ftpVerdict (raw : Str) : Verdict :=
  let line := strings.TrimSpace raw
  if strings.Contains line "vsftpd".toList &&
      strings.Contains line "authentication failure".toList then
    match extractIP line with
    | none => .abort
    | some ip => if ip = [] then .skip else .count ip
  else .skip

/-- The Apache rule: a line is counted iff (trimmed) it contains ` 404 ` or
` 500 `, under its first whitespace-delimited field, or, when that field is
the literal `-`, under the address found by the generic extraction, or under
`unknown` when that is empty. -/
def apacheVerdict (raw : Str) : Verdict :=
  let line := strings.TrimSpace raw
  if strings.Contains line " 404 ".toList || strings.Contains line " 500 ".toList then
    match firstToken line with
    | some f =>
      if f = "-".toList then
        match extractIP line with
        | none => .abort
        | some ip => if ip = [] then .count "unknown".toList else .count ip
      else .count f
    | none => .skip
  else .skip

/-- The condition the login loop applies to one entry of the event map before
it blocks: a positive new count, an address that is neither loopback/private
nor whitelisted, and a prior total plus new count (a Go `int` sum) at or above
the threshold. -/
def blockDue (totals : GoMap Int) (threshold : Int) (wl : GoMap Unit) (ev : Str × Int) : Bool :=
  decide (0 < ev.2) && !(isLoopback ev.1 || isWhitelisted ev.1 wl) &&
    decide (threshold ≤ wrap64 (mapGetD totals ev.1 + ev.2))

/-! ## The simulator buffers as one family -/

/-- The three simulator kinds. -/
inductive SimKind where
  | ssh
  | ftp
  | apache
  deriving DecidableEq, Repr

/-- One call of `AddSimulatedSSH`, `AddSimulatedFTP` or `AddSimulatedApache`
with its arguments. -/
structure SimAdd where
  kind : SimKind
  ip : Str
  n : Int
  deriving DecidableEq, Repr

/-- The call `x` applied to the state. -/
def AddSimulated (w : World) (x : SimAdd) : World :=
  match x.kind with
  | .ssh => AddSimulatedSSH w x.ip x.n
  | .ftp => AddSimulatedFTP w x.ip x.n
  | .apache => AddSimulatedApache w x.ip x.n

/-- The buffer of a kind. -/
def simBuffer (k : SimKind) (w : World) : GoMap Int :=
  match k with
  | .ssh => w.simSSHFails
  | .ftp => w.simFTPFails
  | .apache => w.simApacheErr

/-- The drain of a kind: `drainSimulatedSSH`, `drainSimulatedFTP` or
`drainSimulatedApache`. -/
def drainSimulated (k : SimKind) (w : World) : GoMap Int × World :=
  match k with
  | .ssh => drainSimulatedSSH w
  | .ftp => drainSimulatedFTP w
  | .apache => drainSimulatedApache w

/-- Whether the add call `x` counts for address `a` of kind `k`: it is of that
kind, for that address, with `n > 0` and a non-empty address. -/
def countsFor (k : SimKind) (a : Str) (x : SimAdd) : Bool :=
  decide (x.kind = k) && decide (0 < x.n) && decide (x.ip ≠ []) && decide (x.ip = a)

/-- The sum of `n` over the add calls that count for address `a` of kind `k`. -/
def staged (k : SimKind) (a : Str) (adds : List SimAdd) : Int :=
  ((adds.filter (countsFor k a)).map SimAdd.n).sum

/-- A file that opens, stats and seeks but whose `Read` fails.  A failed
`Read` of an `os.File` delivers no bytes together with its error, and
`ReadNewLines` tests the byte count only: the error value of `Read` is never
looked at. -/
def FileView.readFails (content : Str) : FileView := ⟨false, false, false, content, some 0⟩

/-- The condition the Apache loop tests on one entry of the event map before
it blocks: the flag `apache_block_on_threshold`, an address that is neither
loopback/private nor whitelisted, and a count at or above the threshold. -/
def apacheDue (cfg : Config) (threshold : Int) (wl : GoMap Unit) (ev : Str × Int) : Bool :=
  cfg.ApacheBlockOnThreshold && !isLoopback ev.1 && !isWhitelisted ev.1 wl &&
    decide (ev.2 ≥ threshold)

/-- The fields of an alert that the claims speak about: service, address and
severity. -/
def Alert.key (a : Alert) : Str × Str × Str := (a.Service, a.IP, a.Severity)

/-! ## Runs of one login strategy -/

/-- One call of `ProcessEvents` on a login strategy: its arguments and the
state of the rest of the daemon at the time of the call.  The state is
arbitrary, so whatever happens between two calls (blocks, unblocks, other
strategies, the inspection interface) is covered. -/
structure LoginCall where
  w : World
  events : GoMap Int
  cfg : Config
  nowStamp : Str
  whitelist : GoMap Unit
  tnow : Int

/-- The strategy instance after a sequence of `ProcessEvents` calls. -/
def loginRun (geoAPI : Str → Str) : LoginServiceStrategy → List LoginCall → LoginServiceStrategy
  | s, [] => s
  | s, c :: cs =>
    loginRun geoAPI
      (LoginServiceStrategy.ProcessEvents geoAPI s c.w c.events c.cfg c.nowStamp c.whitelist
        c.tnow).1 cs

/-- The sum of the positive new counts of address `a` in one event map. -/
def gain (a : Str) (events : GoMap Int) : Int :=
  ((events.filter (fun ev => decide (ev.1 = a) && decide (0 < ev.2))).map Prod.snd).sum

/-! ## The states inside one call of `ProcessEvents` -/

/-- The threshold a login strategy computes at the start of `ProcessEvents`. -/
def loginThreshold (s : LoginServiceStrategy) (cfg : Config) : Int :=
  effectiveThreshold (s.cfg.getSpecific cfg) cfg.MaxFailures s.cfg.defaultThresh

/-- The state of the loop of `LoginServiceStrategy.ProcessEvents` after it has
visited the entries `pre` of the event map. -/
def loginLoopAfter (geoAPI : Str → Str) (s : LoginServiceStrategy) (w : World) (cfg : Config)
    (nowStamp : Str) (whitelist : GoMap Unit) (tnow : Int) (pre : GoMap Int) :
    GoMap Int × World :=
  pre.foldl (loginEvent geoAPI s.cfg (loginThreshold s cfg) nowStamp whitelist tnow)
    (s.totals, w)

/-- The threshold the Apache strategy computes at the start of `ProcessEvents`. -/
def apacheThreshold (cfg : Config) : Int :=
  effectiveThreshold cfg.ApacheErrorThreshold cfg.MaxFailures 10

/-- The state of `ApacheStrategy.ProcessEvents` on the event map `events`
(whose counts do not sum to zero) after the counter and the log were updated
and the alert loop has visited the entries `pre`. -/
def apacheLoopAfter (geoAPI : Str → Str) (w : World) (events : GoMap Int) (cfg : Config)
    (nowStamp : Str) (whitelist : GoMap Unit) (tnow : Int) (pre : GoMap Int) : World :=
  let total := events.foldl (fun a p => wrap64 (a + p.2)) 0
  let w1 := IncApacheBy total w
  let line := "[APACHE] Errors detected this cycle: ".toList ++
    fmtInt total ++ " (ips=".toList ++ fmtNat events.length ++ ")".toList
  pre.foldl (apacheEvent geoAPI cfg (apacheThreshold cfg) nowStamp whitelist tnow)
    { w1 with store := AddLog w1.store line }

/-! ## Locks and input/output of the store and counter operations -/

/-- The mutexes of the packages `storage` (`storeMu`) and `monitor`
(`countersMu`, `simMu`). -/
inductive Mutex where
  | storeMu
  | countersMu
  | simMu
  deriving DecidableEq, Repr

/-- What an operation does besides computing on memory: taking and releasing
a mutex, reading or writing a file, invoking the firewall, calling the network. -/
inductive Effect where
  | lock (m : Mutex)
  | unlock (m : Mutex)
  | readFile
  | writeFile
  | firewall
  | network
  deriving DecidableEq, Repr

/-- The operations of `storage` (files `blocked.go`, `alerts.go`, `logs.go`)
and the counter operations of `monitor` (file `stats.go`). -/
inductive Op where
  | LoadBlockedFromFile
  | SaveBlockedToFile
  | AddBlocked
  | RemoveBlocked
  | ListBlocked
  | ListBlockedEntries
  | AddAlert
  | GetAlerts
  | AddLog
  | GetLogs
  | IncSSHBy (n : Int)
  | IncFTPBy (n : Int)
  | IncApacheBy (n : Int)
  | GetSSHCount
  | GetFTPCount
  | GetApacheCount
  deriving DecidableEq, Repr

/-- The effects of one call of an operation, in program order, read off the
body of the Go function.  A `defer mu.Unlock()` releases the mutex when the
function returns, after everything else in the body: `LoadBlockedFromFile`
calls `os.ReadFile` and `SaveBlockedToFile` calls `os.WriteFile` between
`storeMu.Lock()` and that release.  The counter operations lock `countersMu`;
`IncSSHBy`, `IncFTPBy` and `IncApacheBy` return before locking when `n ≤ 0`. -/
def Op.effects : Op → List Effect
  | .LoadBlockedFromFile => [.lock .storeMu, .readFile, .unlock .storeMu]
  | .SaveBlockedToFile => [.lock .storeMu, .writeFile, .unlock .storeMu]
  | .AddBlocked => [.lock .storeMu, .unlock .storeMu]
  | .RemoveBlocked => [.lock .storeMu, .unlock .storeMu]
  | .ListBlocked => [.lock .storeMu, .unlock .storeMu]
  | .ListBlockedEntries => [.lock .storeMu, .unlock .storeMu]
  | .AddAlert => [.lock .storeMu, .unlock .storeMu]
  | .GetAlerts => [.lock .storeMu, .unlock .storeMu]
  | .AddLog => [.lock .storeMu, .unlock .storeMu]
  | .GetLogs => [.lock .storeMu, .unlock .storeMu]
  | .IncSSHBy n => if n ≤ 0 then [] else [.lock .countersMu, .unlock .countersMu]
  | .IncFTPBy n => if n ≤ 0 then [] else [.lock .countersMu, .unlock .countersMu]
  | .IncApacheBy n => if n ≤ 0 then [] else [.lock .countersMu, .unlock .countersMu]
  | .GetSSHCount => [.lock .countersMu, .unlock .countersMu]
  | .GetFTPCount => [.lock .countersMu, .unlock .countersMu]
  | .GetApacheCount => [.lock .countersMu, .unlock .countersMu]

/-- Whether the operation reads or writes the counters. -/
def Op.onCounters : Op → Bool
  | .IncSSHBy _ | .IncFTPBy _ | .IncApacheBy _ => true
  | .GetSSHCount | .GetFTPCount | .GetApacheCount => true
  | _ => false

/-- Whether an effect is a file read or write. -/
def Effect.isFile : Effect → Bool
  | .readFile | .writeFile => true
  | _ => false

/-- Whether an effect is a firewall invocation or a network call. -/
def Effect.isOutside : Effect → Bool
  | .firewall | .network => true
  | _ => false

/-- Whether an effect satisfying `p` happens while the mutex `m` is held;
`held` says whether `m` is held at the start. -/
def whileHeld (m : Mutex) (p : Effect → Bool) : Bool → List Effect → Bool
  | _, [] => false
  | held, .lock m1 :: es => whileHeld m p (held || decide (m1 = m)) es
  | held, .unlock m1 :: es => whileHeld m p (held && !decide (m1 = m)) es
  | held, e :: es => (held && p e) || whileHeld m p held es

/-- Whether the mutex `m` is held after the effects; `held` says whether it is
held at the start. -/
def heldAfter (m : Mutex) : Bool → List Effect → Bool
  | held, [] => held
  | held, .lock m1 :: es => heldAfter m (held || decide (m1 = m)) es
  | held, .unlock m1 :: es => heldAfter m (held && !decide (m1 = m)) es
  | held, _ :: es => heldAfter m held es

/-- The mutexes the effects lock. -/
def locksTaken : List Effect → List Mutex
  | [] => []
  | .lock m :: es => m :: locksTaken es
  | _ :: es => locksTaken es

/-! ## Event maps with positive counts -/

/-- An event map whose entries all count: one entry per address, every
address non-empty and every count at least 1. -/
def PosCounts (m : GoMap Int) : Prop :=
  (mapKeys m).Nodup ∧ ∀ p ∈ m, p.1 ≠ [] ∧ 1 ≤ p.2

instance (m : GoMap Int) : Decidable (PosCounts m) := by
  unfold PosCounts; infer_instance

/-- The three simulator buffers hold only non-empty addresses with counts
greater than zero. -/
def SimOK (w : World) : Prop :=
  PosCounts w.simSSHFails ∧ PosCounts w.simFTPFails ∧ PosCounts w.simApacheErr

/-! ## Facts about the map primitives -/

theorem mapGet_mapSet_self {V : Type} (m : GoMap V) (k : Str) (v : V) :
    mapGet (mapSet m k v) k = some v := by
  induction m with
  | nil => simp [mapSet, mapGet]
  | cons p m ih =>
    obtain ⟨k', v'⟩ := p
    by_cases h : k' = k <;> simp [mapSet, mapGet, h, ih]

theorem mapGet_mapSet_ne {V : Type} (m : GoMap V) (k k2 : Str) (v : V) (h : k ≠ k2) :
    mapGet (mapSet m k v) k2 = mapGet m k2 := by
  induction m with
  | nil => simp [mapSet, mapGet, h]
  | cons p m ih =>
    obtain ⟨k', v'⟩ := p
    by_cases h1 : k' = k
    · subst h1; simp [mapSet, mapGet, h]
    · by_cases h2 : k' = k2
      · subst h2; simp [mapSet, mapGet, h1]
      · simp [mapSet, mapGet, h1, h2, ih]

theorem mapGet_mapDel_self {V : Type} (m : GoMap V) (k : Str) :
    mapGet (mapDel m k) k = none := by
  induction m with
  | nil => simp [mapDel, mapGet]
  | cons p m ih =>
    obtain ⟨k', v'⟩ := p
    by_cases h : k' = k <;> simp [mapDel, mapGet, h, ih]

theorem mapGet_mapDel_ne {V : Type} (m : GoMap V) (k k2 : Str) (h : k ≠ k2) :
    mapGet (mapDel m k) k2 = mapGet m k2 := by
  induction m with
  | nil => simp [mapDel, mapGet]
  | cons p m ih =>
    obtain ⟨k', v'⟩ := p
    by_cases h1 : k' = k
    · subst h1; simp [mapDel, mapGet, h, ih]
    · by_cases h2 : k' = k2
      · subst h2; simp [mapDel, mapGet, h1]
      · simp [mapDel, mapGet, h1, h2, ih]

theorem mapGetD_mapSet_self (m : GoMap Int) (k : Str) (v : Int) :
    mapGetD (mapSet m k v) k = v := by
  simp [mapGetD, mapGet_mapSet_self]

theorem mapGetD_mapSet_ne (m : GoMap Int) (k k2 : Str) (v : Int) (h : k ≠ k2) :
    mapGetD (mapSet m k v) k2 = mapGetD m k2 := by
  simp [mapGetD, mapGet_mapSet_ne m k k2 v h]

/-! ## Facts about machine integers -/

theorem wrap64_of_int (x : Int) (h1 : minInt ≤ x) (h2 : x ≤ maxInt) : wrap64 x = x := by
  unfold wrap64; unfold minInt at h1; unfold maxInt at h2; omega

theorem wrap64_bounds (x : Int) : minInt ≤ wrap64 x ∧ wrap64 x ≤ maxInt := by
  unfold wrap64 minInt maxInt; omega

theorem wrap64_idem (x : Int) : wrap64 (wrap64 x) = wrap64 x := by
  unfold wrap64; omega

theorem wrap64_wrap64_add (a b : Int) : wrap64 (wrap64 a + b) = wrap64 (a + b) := by
  unfold wrap64; omega

theorem wrap64_add_wrap64 (a b : Int) : wrap64 (a + wrap64 b) = wrap64 (a + b) := by
  unfold wrap64; omega

/-! ## Facts about `strings` -/

theorem TrimSpace_eq_rdropWhile (s : Str) :
    strings.TrimSpace s = (s.dropWhile isSpace).rdropWhile isSpace := rfl

theorem TrimSpace_idem (s : Str) :
    strings.TrimSpace (strings.TrimSpace s) = strings.TrimSpace s := by
  rw [TrimSpace_eq_rdropWhile (strings.TrimSpace s), TrimSpace_eq_rdropWhile s]
  have hpre : (s.dropWhile isSpace).rdropWhile isSpace <+: s.dropWhile isSpace :=
    List.rdropWhile_prefix _ _
  have hhead : ((s.dropWhile isSpace).rdropWhile isSpace).dropWhile isSpace
      = (s.dropWhile isSpace).rdropWhile isSpace := by
    obtain ⟨t, ht⟩ := hpre
    cases hu : (s.dropWhile isSpace).rdropWhile isSpace with
    | nil => rfl
    | cons c r =>
      rw [hu] at ht
      have hc : isSpace c = false := by
        have h1 : (s.dropWhile isSpace).dropWhile isSpace = s.dropWhile isSpace :=
          List.dropWhile_idempotent _ _
        rw [← ht] at h1
        by_contra hcon
        have hcs : isSpace c = true := by simpa using hcon
        have h2 : (c :: r ++ t).dropWhile isSpace = (r ++ t).dropWhile isSpace := by
          simp [List.dropWhile, hcs]
        rw [h2] at h1
        have h3 := (List.dropWhile_suffix isSpace (l := r ++ t)).length_le
        rw [h1] at h3
        simp at h3
      simp [List.dropWhile, hc]
  rw [hhead]
  exact List.rdropWhile_idempotent _ _

/-! ## The blocked map and the strike history -/

theorem AddBlocked_fresh_go (st : Store) (a : Str) (tnow : Int)
    (hne : strings.TrimSpace a ≠ [])
    (hnb : mapGet st.blockedIPs (strings.TrimSpace a) = none) :
    mapGet (AddBlocked st a tnow).blockedIPs (strings.TrimSpace a)
        = some ⟨strings.TrimSpace a, tnow,
            max 1 (wrap64 (max 0 (mapGetD st.strikeCounts (strings.TrimSpace a)) + 1))⟩
      ∧ mapGetD (AddBlocked st a tnow).strikeCounts (strings.TrimSpace a)
        = max 1 (wrap64 (max 0 (mapGetD st.strikeCounts (strings.TrimSpace a)) + 1)) := by
  have hval : (if wrap64 ((if mapGetD st.strikeCounts (strings.TrimSpace a) < 0 then (0 : Int)
        else mapGetD st.strikeCounts (strings.TrimSpace a)) + 1) ≤ 0 then (1 : Int)
      else wrap64 ((if mapGetD st.strikeCounts (strings.TrimSpace a) < 0 then (0 : Int)
        else mapGetD st.strikeCounts (strings.TrimSpace a)) + 1))
      = max 1 (wrap64 (max 0 (mapGetD st.strikeCounts (strings.TrimSpace a)) + 1)) := by
    generalize mapGetD st.strikeCounts (strings.TrimSpace a) = h
    have hm : (if h < 0 then (0 : Int) else h) = max 0 h := by
      split_ifs <;> omega
    rw [hm]
    generalize wrap64 (max 0 h + 1) = x
    split_ifs <;> omega
  simp only [AddBlocked, hne, hnb, if_false]
  rw [hval]
  exact ⟨mapGet_mapSet_self _ _ _, mapGetD_mapSet_self _ _ _⟩

theorem strikes_succ_go (h : Int) (hmin : minInt ≤ h) :
    max 1 (wrap64 (max 0 h + 1)) = max 1 (wrap64 (h + 1)) := by
  by_cases h0 : h < 0
  · have e1 : max 0 h = 0 := by omega
    have e2 : wrap64 (h + 1) = h + 1 :=
      wrap64_of_int _ (by omega) (by unfold maxInt; omega)
    have e3 : wrap64 ((0 : Int) + 1) = 1 := by decide
    rw [e1, e2, e3]; omega
  · have e1 : max 0 h = h := by omega
    rw [e1]

theorem strikes_succ_of_lt (h : Int) (hmax : h < maxInt) :
    max 1 (wrap64 (max 0 h + 1)) = max 1 (h + 1) := by
  have hr : wrap64 (max 0 h + 1) = max 0 h + 1 :=
    wrap64_of_int _ (by unfold minInt; omega) (by unfold maxInt at *; omega)
  rw [hr]; omega

theorem AddBlocked_fresh (st : Store) (a : Str) (tnow : Int)
    (hne : strings.TrimSpace a ≠ [])
    (hnb : mapGet st.blockedIPs (strings.TrimSpace a) = none)
    (hrep : mapGetD st.strikeCounts (strings.TrimSpace a) < maxInt) :
    mapGet (AddBlocked st a tnow).blockedIPs (strings.TrimSpace a)
        = some ⟨strings.TrimSpace a, tnow,
            max 1 (mapGetD st.strikeCounts (strings.TrimSpace a) + 1)⟩
      ∧ mapGetD (AddBlocked st a tnow).strikeCounts (strings.TrimSpace a)
        = max 1 (mapGetD st.strikeCounts (strings.TrimSpace a) + 1) := by
  have h := AddBlocked_fresh_go st a tnow hne hnb
  rw [strikes_succ_of_lt _ hrep] at h
  exact h

/-- C3: when the trimmed address is non-empty and not yet a key of the blocked
map, and the successor of its prior strike history `h` is representable as a
Go `int` (`h < 2^63 - 1`), `AddBlocked` inserts the entry (trimmed address,
now, `max 1 (h + 1)`) and records the same value as the new strike history of
the trimmed address.  For every history that is a Go `int`, also the largest,
the value stored is `max 1 (h + 1)` with the sum taken as Go takes it. -/
theorem AddBlocked_inserts_max_one_history_succ (st : Store) (a : Str) (tnow : Int)
    (hne : strings.TrimSpace a ≠ [])
    (hnb : mapGet st.blockedIPs (strings.TrimSpace a) = none)
    (hrep : mapGetD st.strikeCounts (strings.TrimSpace a) < maxInt) :
    (mapGet (AddBlocked st a tnow).blockedIPs (strings.TrimSpace a)
        = some ⟨strings.TrimSpace a, tnow,
            max 1 (mapGetD st.strikeCounts (strings.TrimSpace a) + 1)⟩
      ∧ mapGetD (AddBlocked st a tnow).strikeCounts (strings.TrimSpace a)
        = max 1 (mapGetD st.strikeCounts (strings.TrimSpace a) + 1))
      ∧ ∀ (st2 : Store) (b : Str), strings.TrimSpace b ≠ [] →
          mapGet st2.blockedIPs (strings.TrimSpace b) = none →
          minInt ≤ mapGetD st2.strikeCounts (strings.TrimSpace b) →
          mapGet (AddBlocked st2 b tnow).blockedIPs (strings.TrimSpace b)
              = some ⟨strings.TrimSpace b, tnow,
                  max 1 (wrap64 (mapGetD st2.strikeCounts (strings.TrimSpace b) + 1))⟩
            ∧ mapGetD (AddBlocked st2 b tnow).strikeCounts (strings.TrimSpace b)
              = max 1 (wrap64 (mapGetD st2.strikeCounts (strings.TrimSpace b) + 1)) := by
  refine ⟨AddBlocked_fresh st a tnow hne hnb hrep, ?_⟩
  intro st2 b hne2 hnb2 hmin
  have h := AddBlocked_fresh_go st2 b tnow hne2 hnb2
  rw [strikes_succ_go _ hmin] at h
  exact h

theorem AddBlocked_inserts_max_one_history_succ_witness :
    strings.TrimSpace " 1.2.3.4 ".toList ≠ []
      ∧ mapGet (AddBlocked Store.empty " 1.2.3.4 ".toList 7).blockedIPs
          (strings.TrimSpace " 1.2.3.4 ".toList)
        = some ⟨strings.TrimSpace " 1.2.3.4 ".toList, 7,
            max 1 (mapGetD Store.empty.strikeCounts (strings.TrimSpace " 1.2.3.4 ".toList) + 1)⟩ :=
  ⟨by decide,
   (AddBlocked_inserts_max_one_history_succ Store.empty " 1.2.3.4 ".toList 7
      (by decide) (by decide) (by decide)).1.1⟩

/-- C4: when the trimmed address is already a key of the blocked map with
`Strikes ≥ 1`, `AddBlocked` returns the store unchanged (blocked map, that
entry's `Strikes` and `BlockedAt`, and strike history), and so does any number
of repeated calls. -/
theorem AddBlocked_already_blocked_unchanged (st : Store) (a : Str) (tnow : Int)
    (e : BlockedEntry)
    (hb : mapGet st.blockedIPs (strings.TrimSpace a) = some e) (hs : e.Strikes ≥ 1) :
    AddBlocked st a tnow = st
      ∧ ∀ ts : List Int, ts.foldl (fun s t => AddBlocked s a t) st = st := by
  have h1 : ∀ t, AddBlocked st a t = st := by
    intro t
    have hs' : ¬ e.Strikes ≤ 0 := by omega
    unfold AddBlocked
    by_cases hne : strings.TrimSpace a = []
    · simp [hne]
    · simp [hne, hb, hs']
  refine ⟨h1 tnow, ?_⟩
  intro ts
  induction ts with
  | nil => rfl
  | cons t ts ih => simpa [List.foldl, h1 t] using ih

theorem AddBlocked_already_blocked_unchanged_witness :
    AddBlocked (AddBlocked Store.empty "1.2.3.4".toList 7) "1.2.3.4".toList 9
      = AddBlocked Store.empty "1.2.3.4".toList 7 :=
  (AddBlocked_already_blocked_unchanged (AddBlocked Store.empty "1.2.3.4".toList 7)
    "1.2.3.4".toList 9 ⟨"1.2.3.4".toList, 7, 1⟩ (by decide) (by decide)).1

theorem StrikesInv_AddBlocked (st : Store) (ip : Str) (tnow : Int) (h : StrikesInv st) :
    StrikesInv (AddBlocked st ip tnow) := by
  unfold AddBlocked
  by_cases hne : strings.TrimSpace ip = []
  · simpa [hne] using h
  · cases hb : mapGet st.blockedIPs (strings.TrimSpace ip) with
    | some e =>
      have hs : ¬ e.Strikes ≤ 0 := by have := (h _ _ hb).2.2; omega
      simpa [hne, hb, hs] using h
    | none =>
      simp only [hne, hb, if_false]
      intro k e hk
      by_cases hkk : strings.TrimSpace ip = k
      · subst hkk
        rw [mapGet_mapSet_self] at hk
        rw [mapGetD_mapSet_self]
        cases hk
        refine ⟨hne, rfl, ?_⟩
        simp only
        split_ifs <;> omega
      · rw [mapGet_mapSet_ne _ _ _ _ hkk] at hk
        rw [mapGetD_mapSet_ne _ _ _ _ hkk]
        exact h k e hk

theorem StrikesInv_RemoveBlocked (st : Store) (ip : Str) (h : StrikesInv st) :
    StrikesInv (RemoveBlocked st ip) := by
  intro k e hk
  simp only [RemoveBlocked] at hk ⊢
  by_cases hkk : strings.TrimSpace ip = k
  · subst hkk; rw [mapGet_mapDel_self] at hk; cases hk
  · rw [mapGet_mapDel_ne _ _ _ hkk] at hk
    exact h k e hk

theorem StrikesInv_loadLine (tnow : Int) (st : Store) (raw : Str) (h : StrikesInv st) :
    StrikesInv (loadLine tnow st raw) := by
  unfold loadLine
  by_cases hne : strings.TrimSpace raw = []
  · simpa [hne] using h
  · simp only [hne, if_false]
    intro k e hk
    by_cases hkk : strings.TrimSpace raw = k
    · subst hkk
      rw [mapGet_mapSet_self] at hk
      rw [mapGetD_mapSet_self]
      cases hk
      refine ⟨hne, rfl, ?_⟩
      simp only
      split_ifs <;> omega
    · rw [mapGet_mapSet_ne _ _ _ _ hkk] at hk
      rw [mapGetD_mapSet_ne _ _ _ _ hkk]
      exact h k e hk

theorem StrikesInv_foldl_loadLine (tnow : Int) (lines : List Str) (st : Store)
    (h : StrikesInv st) : StrikesInv (lines.foldl (loadLine tnow) st) := by
  induction lines generalizing st with
  | nil => exact h
  | cons l ls ih => exact ih _ (StrikesInv_loadLine tnow st l h)

theorem StrikesInv_of_Reachable (st : Store) (h : Reachable st) : StrikesInv st := by
  induction h with
  | empty => intro k e hk; simp [Store.empty, mapGet] at hk
  | addBlocked st ip tnow _ ih => exact StrikesInv_AddBlocked st ip tnow ih
  | removeBlocked st ip _ ih => exact StrikesInv_RemoveBlocked st ip ih
  | loadBlocked st file tnow _ ih =>
    cases file with
    | none => exact ih
    | some data => exact StrikesInv_foldl_loadLine tnow _ st ih
  | addLog st line _ ih => exact ih
  | addAlert st a _ ih => exact ih

/-- C5: in a reachable store where the (trimmed) address is blocked with
strikes `s`, with `s + 1` representable as a Go `int` (`s < 2^63 - 1`),
`RemoveBlocked` leaves the strike history untouched and the following
`AddBlocked` blocks the address again with strikes exactly `s + 1`. -/
theorem RemoveBlocked_then_AddBlocked_increments_strikes (st : Store) (a : Str)
    (tnow : Int) (e : BlockedEntry) (hr : Reachable st)
    (hb : mapGet st.blockedIPs (strings.TrimSpace a) = some e)
    (hrep : e.Strikes < maxInt) :
    (RemoveBlocked st a).strikeCounts = st.strikeCounts
      ∧ mapGet (RemoveBlocked st a).blockedIPs (strings.TrimSpace a) = none
      ∧ mapGet (AddBlocked (RemoveBlocked st a) a tnow).blockedIPs (strings.TrimSpace a)
          = some ⟨strings.TrimSpace a, tnow, e.Strikes + 1⟩ := by
  obtain ⟨hne, hhist, hpos⟩ := StrikesInv_of_Reachable st hr _ _ hb
  have hgone : mapGet (RemoveBlocked st a).blockedIPs (strings.TrimSpace a) = none := by
    simp [RemoveBlocked, mapGet_mapDel_self]
  refine ⟨rfl, hgone, ?_⟩
  have hh : mapGetD (RemoveBlocked st a).strikeCounts (strings.TrimSpace a) = e.Strikes := by
    rw [hhist]; rfl
  have h3 := (AddBlocked_fresh (RemoveBlocked st a) a tnow hne hgone (by rw [hh]; exact hrep)).1
  rw [h3]
  rw [hh]
  have : max 1 (e.Strikes + 1) = e.Strikes + 1 := by omega
  rw [this]

theorem RemoveBlocked_then_AddBlocked_increments_strikes_witness :
    mapGet (AddBlocked (RemoveBlocked (AddBlocked Store.empty "1.2.3.4".toList 7)
        "1.2.3.4".toList) "1.2.3.4".toList 9).blockedIPs (strings.TrimSpace "1.2.3.4".toList)
      = some ⟨strings.TrimSpace "1.2.3.4".toList, 9, 1 + 1⟩ :=
  (RemoveBlocked_then_AddBlocked_increments_strikes
    (AddBlocked Store.empty "1.2.3.4".toList 7) "1.2.3.4".toList 9 ⟨"1.2.3.4".toList, 7, 1⟩
    (Reachable.addBlocked _ _ _ Reachable.empty) (by decide) (by decide)).2.2

/-! ## Auto-unblock -/

theorem mem_of_mapGet {V : Type} (m : GoMap V) (k : Str) (v : V)
    (h : mapGet m k = some v) : (k, v) ∈ m := by
  induction m with
  | nil => simp [mapGet] at h
  | cons p m ih =>
    obtain ⟨k', v'⟩ := p
    by_cases hk : k' = k
    · subst hk; simp [mapGet] at h; simp [h]
    · simp [mapGet, hk] at h; simp [ih h]

theorem mapGet_of_mem {V : Type} (m : GoMap V) (k : Str) (v : V)
    (hnd : (mapKeys m).Nodup) (h : (k, v) ∈ m) : mapGet m k = some v := by
  induction m with
  | nil => simp at h
  | cons p m ih =>
    obtain ⟨k', v'⟩ := p
    simp only [mapKeys, List.map_cons, List.nodup_cons, List.mem_map, not_exists, not_and] at hnd
    rcases List.mem_cons.mp h with heq | hmem
    · cases heq; simp [mapGet]
    · have hne : k' ≠ k := by
        intro hk; subst hk
        exact hnd.1 (k', v) hmem rfl
      simp only [mapGet, hne, if_false]
      exact ih hnd.2 hmem

theorem UnblockIP_store (w : World) (ip : Str) : (UnblockIP w ip).store = w.store := by
  by_cases h : strings.TrimSpace ip = [] <;> simp [UnblockIP, h]

theorem BlockIP_store (w : World) (ip : Str) : (BlockIP w ip).store = w.store := by
  by_cases h : strings.TrimSpace ip = [] <;> simp [BlockIP, h]

theorem autoUnblockEntry_lookup (base now : Int) (w : World) (e : BlockedEntry) (k : Str) :
    mapGet (autoUnblockEntry base now w e).store.blockedIPs k
      = if holdExpired base now e && decide (strings.TrimSpace e.IP = k) then none
        else mapGet w.store.blockedIPs k := by
  unfold autoUnblockEntry holdExpired
  by_cases hexp : timeSub now e.BlockedAt
      ≥ wrap64 (base * wrap64 (1 + ((if e.Strikes ≤ 0 then 1 else e.Strikes) - 1) * 2))
  · simp only [hexp, if_true, decide_True, Bool.true_and, RemoveBlocked, UnblockIP_store, AddLog]
    by_cases hk : strings.TrimSpace e.IP = k
    · subst hk; simp [mapGet_mapDel_self]
    · simp [hk, mapGet_mapDel_ne _ _ _ hk]
  · simp [hexp]

theorem autoUnblock_foldl_lookup (base now : Int) (es : List BlockedEntry) (w : World)
    (k : Str) :
    mapGet (es.foldl (autoUnblockEntry base now) w).store.blockedIPs k
      = if es.any (fun e => holdExpired base now e && decide (strings.TrimSpace e.IP = k))
        then none else mapGet w.store.blockedIPs k := by
  induction es generalizing w with
  | nil => simp
  | cons e es ih =>
    simp only [List.foldl_cons, List.any_cons]
    rw [ih, autoUnblockEntry_lookup]
    by_cases h1 : (holdExpired base now e && decide (strings.TrimSpace e.IP = k)) = true <;>
      by_cases h2 : es.any (fun e => holdExpired base now e &&
        decide (strings.TrimSpace e.IP = k)) = true <;>
      simp [h1, h2]

theorem autoUnblock_foldl_strikeCounts (base now : Int) (es : List BlockedEntry) (w : World) :
    (es.foldl (autoUnblockEntry base now) w).store.strikeCounts = w.store.strikeCounts := by
  induction es generalizing w with
  | nil => rfl
  | cons e es ih =>
    simp only [List.foldl_cons]
    rw [ih]
    unfold autoUnblockEntry
    by_cases hexp : timeSub now e.BlockedAt
        ≥ wrap64 (base * wrap64 (1 + ((if e.Strikes ≤ 0 then 1 else e.Strikes) - 1) * 2))
    · simp only [hexp, if_true, RemoveBlocked, UnblockIP_store, AddLog]
    · simp [hexp]

theorem any_expired_iff (base now : Int) (m : GoMap BlockedEntry) (k : Str) (e : BlockedEntry)
    (hwf : BlockedWF m) (hk : mapGet m k = some e) :
    (m.map Prod.snd).any (fun e => holdExpired base now e && decide (strings.TrimSpace e.IP = k))
      = holdExpired base now e := by
  have hmem := mem_of_mapGet m k e hk
  have hkey := hwf.2 (k, e) hmem
  simp only at hkey
  cases hexp : holdExpired base now e with
  | true =>
    rw [List.any_eq_true]
    refine ⟨e, List.mem_map.mpr ⟨(k, e), hmem, rfl⟩, ?_⟩
    simp [hexp, hkey.1, hkey.2]
  | false =>
    rw [List.any_eq_false]
    intro e' he'
    obtain ⟨⟨k', e''⟩, hp, rfl⟩ := List.mem_map.mp he'
    have hkey' := hwf.2 (k', e'') hp
    simp only at hkey' ⊢
    by_cases hkk : strings.TrimSpace e''.IP = k
    · have h1 : k' = k := by rw [← hkk, hkey'.1, hkey'.2]
      subst h1
      have h2 := mapGet_of_mem m k' e'' hwf.1 hp
      rw [hk] at h2
      cases h2
      simp [hexp]
    · simp [hkk]

theorem autoUnblockExpired_lookup (w : World) (cfg : Config) (now : Int) (k : Str)
    (e : BlockedEntry) (hm : cfg.AutoUnblockMinutes > 0)
    (hwf : BlockedWF w.store.blockedIPs) (hk : mapGet w.store.blockedIPs k = some e) :
    mapGet (autoUnblockExpired w cfg now).store.blockedIPs k
      = if holdExpired (wrap64 (wrap64 cfg.AutoUnblockMinutes * Minute)) now e then none
        else some e := by
  unfold autoUnblockExpired
  have hm' : ¬ cfg.AutoUnblockMinutes ≤ 0 := by omega
  simp only [hm', if_false, ListBlockedEntries]
  rw [autoUnblock_foldl_lookup, any_expired_iff _ _ _ k e hwf hk, hk]

theorem autoUnblockExpired_strikeCounts (w : World) (cfg : Config) (now : Int) :
    (autoUnblockExpired w cfg now).store.strikeCounts = w.store.strikeCounts := by
  unfold autoUnblockExpired
  split_ifs
  · rfl
  · exact autoUnblock_foldl_strikeCounts _ _ _ _

theorem wrap64_of_range (x : Int) (h1 : minDuration ≤ x) (h2 : x ≤ maxDuration) :
    wrap64 x = x := by
  unfold wrap64; unfold minDuration at h1; unfold maxDuration at h2; omega

theorem timeSub_ge_iff (t u x : Int) (h0 : 0 < x) (h1 : x ≤ maxDuration) :
    timeSub t u ≥ x ↔ t - u ≥ x := by
  unfold timeSub; unfold maxDuration at *; unfold minDuration
  split_ifs <;> omega

theorem holdExpired_iff (m now : Int) (e : BlockedEntry) (hm : m > 0)
    (hrep : m * Minute * (1 + 2 * (max 1 e.Strikes - 1)) ≤ maxDuration) :
    holdExpired (wrap64 (wrap64 m * Minute)) now e = true
      ↔ now - e.BlockedAt ≥ m * Minute * (1 + 2 * (max 1 e.Strikes - 1)) := by
  have hf : (1 + ((if e.Strikes ≤ 0 then 1 else e.Strikes) - 1) * 2)
      = 1 + 2 * (max 1 e.Strikes - 1) := by
    split_ifs <;> omega
  have hf1 : 1 ≤ 1 + 2 * (max 1 e.Strikes - 1) := by omega
  generalize 1 + 2 * (max 1 e.Strikes - 1) = f at hf hf1 hrep
  have hb1 : 1 ≤ m * Minute := by unfold Minute; omega
  have hle1 : m * Minute ≤ m * Minute * f := le_mul_of_one_le_right (by omega) hf1
  have hle2 : f ≤ m * Minute * f := le_mul_of_one_le_left (by omega) hb1
  have hmm : m ≤ m * Minute := by unfold Minute; omega
  have hmin : minDuration ≤ 0 := by decide
  have w1 : wrap64 m = m := wrap64_of_range m (by omega) (by omega)
  have w2 : wrap64 (m * Minute) = m * Minute := wrap64_of_range _ (by omega) (by omega)
  have w3 : wrap64 f = f := wrap64_of_range f (by omega) (by omega)
  have w4 : wrap64 (m * Minute * f) = m * Minute * f := wrap64_of_range _ (by omega) hrep
  unfold holdExpired
  rw [hf, w1, w2, w3, w4, decide_eq_true_iff]
  exact timeSub_ge_iff _ _ _ (by omega) hrep

/-- C6 (amended): with `auto_unblock_minutes = m > 0`, for a blocked map that
obeys the data model and an entry `e` whose hold time
`m min · (1 + 2·(max 1 e.Strikes − 1))` is representable as a `time.Duration`,
`autoUnblockExpired` removes the address iff `now − e.BlockedAt` has reached
that hold time; otherwise the entry is still present and unchanged. -/
theorem autoUnblockExpired_releases_iff_age_reached (w : World) (cfg : Config) (now : Int)
    (k : Str) (e : BlockedEntry) (hm : cfg.AutoUnblockMinutes > 0)
    (hwf : BlockedWF w.store.blockedIPs) (hk : mapGet w.store.blockedIPs k = some e)
    (hrep : cfg.AutoUnblockMinutes * Minute * (1 + 2 * (max 1 e.Strikes - 1)) ≤ maxDuration) :
    (mapGet (autoUnblockExpired w cfg now).store.blockedIPs k = none
        ↔ now - e.BlockedAt
            ≥ cfg.AutoUnblockMinutes * Minute * (1 + 2 * (max 1 e.Strikes - 1)))
      ∧ (¬ (now - e.BlockedAt
            ≥ cfg.AutoUnblockMinutes * Minute * (1 + 2 * (max 1 e.Strikes - 1)))
          → mapGet (autoUnblockExpired w cfg now).store.blockedIPs k = some e) := by
  rw [autoUnblockExpired_lookup w cfg now k e hm hwf hk]
  rw [← holdExpired_iff cfg.AutoUnblockMinutes now e hm hrep]
  cases holdExpired (wrap64 (wrap64 cfg.AutoUnblockMinutes * Minute)) now e <;> simp

theorem autoUnblockExpired_releases_iff_age_reached_witness :
    mapGet (autoUnblockExpired
        { World.init with store := AddBlocked Store.empty "1.2.3.4".toList 0 }
        { Config.zero with AutoUnblockMinutes := 5 } (6 * Minute)).store.blockedIPs
      "1.2.3.4".toList = none :=
  (autoUnblockExpired_releases_iff_age_reached
    { World.init with store := AddBlocked Store.empty "1.2.3.4".toList 0 }
    { Config.zero with AutoUnblockMinutes := 5 } (6 * Minute) "1.2.3.4".toList
    ⟨"1.2.3.4".toList, 0, 1⟩ (by decide) (by decide) (by decide) (by decide)).1.mpr
    (by decide)

/-- C6 (counterexample): with `auto_unblock_minutes = 200000000` the hold time
wraps around to a negative `time.Duration`; an entry with one strike blocked
15 seconds ago is removed although its age has not reached 200000000 minutes. -/
theorem autoUnblockExpired_releases_before_age_reached :
    ¬ (mapGet (autoUnblockExpired
          { World.init with store := AddBlocked Store.empty "1.2.3.4".toList 0 }
          { Config.zero with AutoUnblockMinutes := 200000000 }
          (15 * Second)).store.blockedIPs "1.2.3.4".toList = none
        ↔ 15 * Second - 0 ≥ 200000000 * Minute * (1 + 2 * (max 1 1 - 1))) := by
  decide

theorem mapKeys_mapSet {V : Type} (m : GoMap V) (k : Str) (v : V) :
    mapKeys (mapSet m k v) = if k ∈ mapKeys m then mapKeys m else mapKeys m ++ [k] := by
  induction m with
  | nil => simp [mapSet, mapKeys]
  | cons p m ih =>
    obtain ⟨k', v'⟩ := p
    by_cases h : k' = k
    · subst h
      simp only [mapSet, if_true, mapKeys, List.map_cons, List.mem_cons, true_or]
    · have h' : ¬ k = k' := fun hh => h hh.symm
      simp only [mapKeys] at ih
      simp only [mapSet, h, if_false, mapKeys, List.map_cons, List.mem_cons, h', false_or, ih]
      split_ifs <;> simp

theorem nodup_mapSet {V : Type} (m : GoMap V) (k : Str) (v : V) (h : (mapKeys m).Nodup) :
    (mapKeys (mapSet m k v)).Nodup := by
  rw [mapKeys_mapSet]
  split_ifs with hk
  · exact h
  · exact List.Nodup.append h (List.nodup_singleton k) (by simpa using hk)

theorem mem_mapSet {V : Type} (m : GoMap V) (k : Str) (v : V) (p : Str × V)
    (h : p ∈ mapSet m k v) : p = (k, v) ∨ p ∈ m := by
  induction m with
  | nil => simpa [mapSet] using h
  | cons q m ih =>
    obtain ⟨k', v'⟩ := q
    by_cases hk : k' = k
    · simp only [mapSet, hk, if_true, List.mem_cons] at h
      rcases h with h | h
      · exact Or.inl h
      · exact Or.inr (List.mem_cons_of_mem _ h)
    · simp only [mapSet, hk, if_false, List.mem_cons] at h
      rcases h with h | h
      · exact Or.inr (by simp [h])
      · rcases ih h with h1 | h1
        · exact Or.inl h1
        · exact Or.inr (List.mem_cons_of_mem _ h1)

theorem mapDel_sublist {V : Type} (m : GoMap V) (k : Str) : (mapDel m k).Sublist m := by
  induction m with
  | nil => simp [mapDel]
  | cons q m ih =>
    obtain ⟨k', v'⟩ := q
    by_cases hk : k' = k
    · simp only [mapDel, hk, if_true]; exact List.Sublist.cons _ ih
    · simp only [mapDel, hk, if_false]; exact List.Sublist.cons₂ _ ih

theorem BlockedWF_mapSet (m : GoMap BlockedEntry) (k : Str) (e : BlockedEntry)
    (hwf : BlockedWF m) (hip : e.IP = k) (htrim : strings.TrimSpace k = k) :
    BlockedWF (mapSet m k e) := by
  refine ⟨nodup_mapSet m k e hwf.1, ?_⟩
  intro p hp
  rcases mem_mapSet m k e p hp with h | h
  · subst h; exact ⟨hip, htrim⟩
  · exact hwf.2 p h

theorem BlockedWF_mapDel (m : GoMap BlockedEntry) (k : Str) (hwf : BlockedWF m) :
    BlockedWF (mapDel m k) := by
  refine ⟨?_, ?_⟩
  · exact List.Nodup.sublist ((mapDel_sublist m k).map Prod.fst) hwf.1
  · intro p hp; exact hwf.2 p ((mapDel_sublist m k).subset hp)

theorem BlockedWF_AddBlocked (st : Store) (a : Str) (tnow : Int)
    (hwf : BlockedWF st.blockedIPs) : BlockedWF (AddBlocked st a tnow).blockedIPs := by
  unfold AddBlocked
  by_cases hne : strings.TrimSpace a = []
  · simpa [hne] using hwf
  · cases hb : mapGet st.blockedIPs (strings.TrimSpace a) with
    | some e =>
      simp only [hne, if_false, hb]
      by_cases hs : e.Strikes ≤ 0
      · simp only [hs, if_true]
        apply BlockedWF_mapSet _ _ _ hwf _ (TrimSpace_idem a)
        exact (hwf.2 _ (mem_of_mapGet _ _ _ hb)).1
      · simpa [hs] using hwf
    | none =>
      simp only [hne, if_false, hb]
      exact BlockedWF_mapSet _ _ _ hwf rfl (TrimSpace_idem a)

theorem BlockedWF_autoUnblockEntry (base now : Int) (w : World) (e : BlockedEntry)
    (hwf : BlockedWF w.store.blockedIPs) :
    BlockedWF (autoUnblockEntry base now w e).store.blockedIPs := by
  unfold autoUnblockEntry
  by_cases hexp : timeSub now e.BlockedAt
      ≥ wrap64 (base * wrap64 (1 + ((if e.Strikes ≤ 0 then 1 else e.Strikes) - 1) * 2))
  · simp only [hexp, if_true, RemoveBlocked, UnblockIP_store, AddLog]
    exact BlockedWF_mapDel _ _ hwf
  · simpa [hexp] using hwf

theorem BlockedWF_autoUnblockExpired (w : World) (cfg : Config) (now : Int)
    (hwf : BlockedWF w.store.blockedIPs) :
    BlockedWF (autoUnblockExpired w cfg now).store.blockedIPs := by
  unfold autoUnblockExpired
  split_ifs
  · exact hwf
  · generalize ListBlockedEntries w.store = es
    simp only
    induction es generalizing w with
    | nil => exact hwf
    | cons e es ih => exact ih _ (BlockedWF_autoUnblockEntry _ _ w e hwf)

/-- C7 (amended): for every address never blocked before and every base
`m > 0` minutes with `3·m` minutes representable as a `time.Duration`: the
first block has strikes 1 and is released once its age reaches `m` minutes;
the next block has strikes 2 and is released iff its age reaches `3·m`
minutes.  With `m = 5` it is still blocked at age 10 min and released at age
16 min. -/
theorem strike_escalation_triples_hold_time (w : World) (cfg : Config) (a : Str)
    (t0 now1 t2 now3 : Int)
    (hm : cfg.AutoUnblockMinutes > 0)
    (hrep : 3 * (cfg.AutoUnblockMinutes * Minute) ≤ maxDuration)
    (hwf : BlockedWF w.store.blockedIPs)
    (ha : strings.TrimSpace a ≠ [])
    (hfresh : mapGet w.store.blockedIPs (strings.TrimSpace a) = none)
    (hhist : mapGetD w.store.strikeCounts (strings.TrimSpace a) = 0)
    (hage : now1 - t0 ≥ cfg.AutoUnblockMinutes * Minute) :
    let w1 : World := { w with store := AddBlocked w.store a t0 }
    let w2 : World := autoUnblockExpired w1 cfg now1
    let w3 : World := { w2 with store := AddBlocked w2.store a t2 }
    let w4 : World := autoUnblockExpired w3 cfg now3
    mapGet w1.store.blockedIPs (strings.TrimSpace a) = some ⟨strings.TrimSpace a, t0, 1⟩
      ∧ mapGet w2.store.blockedIPs (strings.TrimSpace a) = none
      ∧ mapGet w3.store.blockedIPs (strings.TrimSpace a) = some ⟨strings.TrimSpace a, t2, 2⟩
      ∧ (mapGet w4.store.blockedIPs (strings.TrimSpace a) = none
          ↔ now3 - t2 ≥ 3 * (cfg.AutoUnblockMinutes * Minute))
      ∧ (cfg.AutoUnblockMinutes = 5 → now3 - t2 = 10 * Minute →
          mapGet w4.store.blockedIPs (strings.TrimSpace a)
            = some ⟨strings.TrimSpace a, t2, 2⟩)
      ∧ (cfg.AutoUnblockMinutes = 5 → now3 - t2 = 16 * Minute →
          mapGet w4.store.blockedIPs (strings.TrimSpace a) = none) := by
  intro w1 w2 w3 w4
  have e1 : cfg.AutoUnblockMinutes * Minute * (1 + 2 * (max 1 (1 : Int) - 1))
      = cfg.AutoUnblockMinutes * Minute := by norm_num
  have e2 : cfg.AutoUnblockMinutes * Minute * (1 + 2 * (max 1 (2 : Int) - 1))
      = 3 * (cfg.AutoUnblockMinutes * Minute) := by norm_num; ring
  have hb0 : 0 < cfg.AutoUnblockMinutes * Minute := by unfold Minute; omega
  -- first block: strikes 1
  have h1 : mapGet w1.store.blockedIPs (strings.TrimSpace a)
      = some ⟨strings.TrimSpace a, t0, 1⟩ := by
    have := (AddBlocked_fresh w.store a t0 ha hfresh (by rw [hhist]; decide)).1
    rw [hhist] at this
    simpa using this
  have hs1 : mapGetD w1.store.strikeCounts (strings.TrimSpace a) = 1 := by
    have := (AddBlocked_fresh w.store a t0 ha hfresh (by rw [hhist]; decide)).2
    rw [hhist] at this
    simpa using this
  have hwf1 : BlockedWF w1.store.blockedIPs := BlockedWF_AddBlocked w.store a t0 hwf
  -- first release
  have hexp1 : holdExpired (wrap64 (wrap64 cfg.AutoUnblockMinutes * Minute)) now1
      ⟨strings.TrimSpace a, t0, 1⟩ = true := by
    rw [holdExpired_iff cfg.AutoUnblockMinutes now1 _ hm (by simp only; rw [e1]; omega)]
    simp only; rw [e1]; exact hage
  have h2 : mapGet w2.store.blockedIPs (strings.TrimSpace a) = none := by
    have := autoUnblockExpired_lookup w1 cfg now1 _ _ hm hwf1 h1
    rw [this, hexp1]; rfl
  have hs2 : mapGetD w2.store.strikeCounts (strings.TrimSpace a) = 1 := by
    show mapGetD (autoUnblockExpired w1 cfg now1).store.strikeCounts _ = 1
    rw [autoUnblockExpired_strikeCounts]; exact hs1
  have hwf2 : BlockedWF w2.store.blockedIPs := BlockedWF_autoUnblockExpired w1 cfg now1 hwf1
  -- second block: strikes 2
  have h3 : mapGet w3.store.blockedIPs (strings.TrimSpace a)
      = some ⟨strings.TrimSpace a, t2, 2⟩ := by
    have := (AddBlocked_fresh w2.store a t2 ha h2 (by rw [hs2]; decide)).1
    rw [hs2] at this
    simpa using this
  have hwf3 : BlockedWF w3.store.blockedIPs := BlockedWF_AddBlocked w2.store a t2 hwf2
  -- second release
  have h4 := autoUnblockExpired_lookup w3 cfg now3 _ _ hm hwf3 h3
  have hiff := holdExpired_iff cfg.AutoUnblockMinutes now3 ⟨strings.TrimSpace a, t2, 2⟩ hm
    (by simp only; rw [e2]; exact hrep)
  simp only at hiff
  rw [e2] at hiff
  have hiff' : holdExpired (wrap64 (wrap64 cfg.AutoUnblockMinutes * Minute)) now3
      ⟨strings.TrimSpace a, t2, 2⟩ = true
      ↔ now3 - t2 ≥ 3 * (cfg.AutoUnblockMinutes * Minute) := by
    exact hiff
  have hfinal : mapGet w4.store.blockedIPs (strings.TrimSpace a) = none
      ↔ now3 - t2 ≥ 3 * (cfg.AutoUnblockMinutes * Minute) := by
    rw [← hiff']
    show mapGet (autoUnblockExpired w3 cfg now3).store.blockedIPs _ = none ↔ _
    rw [h4]
    cases holdExpired (wrap64 (wrap64 cfg.AutoUnblockMinutes * Minute)) now3
      ⟨strings.TrimSpace a, t2, 2⟩ <;> simp
  refine ⟨h1, h2, h3, hfinal, ?_, ?_⟩
  · intro h5 hage10
    have hnot : ¬ (now3 - t2 ≥ 3 * (cfg.AutoUnblockMinutes * Minute)) := by
      rw [h5, hage10]; decide
    have hne : holdExpired (wrap64 (wrap64 cfg.AutoUnblockMinutes * Minute)) now3
        ⟨strings.TrimSpace a, t2, 2⟩ = false := by
      cases hh : holdExpired (wrap64 (wrap64 cfg.AutoUnblockMinutes * Minute)) now3
        ⟨strings.TrimSpace a, t2, 2⟩
      · rfl
      · exact absurd (hiff'.mp hh) hnot
    show mapGet (autoUnblockExpired w3 cfg now3).store.blockedIPs _ = _
    rw [h4, hne]; rfl
  · intro h5 hage16
    apply hfinal.mpr
    rw [h5, hage16]; decide

theorem strike_escalation_triples_hold_time_witness :
    mapGet (escalationRun World.init { Config.zero with AutoUnblockMinutes := 5 }
        "1.2.3.4".toList 0 (6 * Minute) (6 * Minute) (22 * Minute)).store.blockedIPs
      (strings.TrimSpace "1.2.3.4".toList) = none :=
  (strike_escalation_triples_hold_time World.init { Config.zero with AutoUnblockMinutes := 5 }
    "1.2.3.4".toList 0 (6 * Minute) (6 * Minute) (22 * Minute)
    (by decide) (by decide) (by decide) (by decide) (by decide) (by decide)
    (by decide)).2.2.2.2.2 rfl (by decide)

/-- C7 (counterexample): with a base of 60000000 minutes the tripled hold time
wraps around to a negative `time.Duration`.  The address is blocked, released
when its age reaches the base, and blocked again; the second block is
released 15 seconds later although its age has not reached three times the
base. -/
theorem strike_escalation_released_before_triple_base :
    mapGet (AddBlocked (autoUnblockExpired
          { World.init with store := AddBlocked Store.empty "1.2.3.4".toList 0 }
          { Config.zero with AutoUnblockMinutes := 60000000 }
          (60000000 * Minute)).store "1.2.3.4".toList (60000000 * Minute)).blockedIPs
        "1.2.3.4".toList = some ⟨"1.2.3.4".toList, 60000000 * Minute, 2⟩
      ∧ mapGet (escalationRun World.init { Config.zero with AutoUnblockMinutes := 60000000 }
        "1.2.3.4".toList 0 (60000000 * Minute) (60000000 * Minute)
        (60000000 * Minute + 15 * Second)).store.blockedIPs "1.2.3.4".toList = none
      ∧ ¬ ((60000000 * Minute + 15 * Second) - 60000000 * Minute
            ≥ 3 * (60000000 * Minute)) := by
  decide

/-! ## The strategies -/

@[simp] theorem lookupCountry_store (g : Str → Str) (w : World) (ip : Str) :
    (lookupCountry g w ip).2.store = w.store := by
  unfold lookupCountry
  simp only
  split_ifs
  · rfl
  · rfl
  · cases mapGet w.geoCache (strings.TrimSpace ip) <;> rfl

@[simp] theorem lookupCountry_sshCount (g : Str → Str) (w : World) (ip : Str) :
    (lookupCountry g w ip).2.sshCount = w.sshCount := by
  unfold lookupCountry
  simp only
  split_ifs
  · rfl
  · rfl
  · cases mapGet w.geoCache (strings.TrimSpace ip) <;> rfl

@[simp] theorem lookupCountry_ftpCount (g : Str → Str) (w : World) (ip : Str) :
    (lookupCountry g w ip).2.ftpCount = w.ftpCount := by
  unfold lookupCountry
  simp only
  split_ifs
  · rfl
  · rfl
  · cases mapGet w.geoCache (strings.TrimSpace ip) <;> rfl

@[simp] theorem lookupCountry_apacheCount (g : Str → Str) (w : World) (ip : Str) :
    (lookupCountry g w ip).2.apacheCount = w.apacheCount := by
  unfold lookupCountry
  simp only
  split_ifs
  · rfl
  · rfl
  · cases mapGet w.geoCache (strings.TrimSpace ip) <;> rfl

@[simp] theorem BlockIP_sshCount (w : World) (ip : Str) :
    (BlockIP w ip).sshCount = w.sshCount := by
  by_cases h : strings.TrimSpace ip = [] <;> simp [BlockIP, h]

@[simp] theorem BlockIP_ftpCount (w : World) (ip : Str) :
    (BlockIP w ip).ftpCount = w.ftpCount := by
  by_cases h : strings.TrimSpace ip = [] <;> simp [BlockIP, h]

@[simp] theorem BlockIP_apacheCount (w : World) (ip : Str) :
    (BlockIP w ip).apacheCount = w.apacheCount := by
  by_cases h : strings.TrimSpace ip = [] <;> simp [BlockIP, h]

theorem AddBlocked_key_cases (st : Store) (ip : Str) (tnow : Int) (k : Str)
    (h : mapGet (AddBlocked st ip tnow).blockedIPs k ≠ none) :
    mapGet st.blockedIPs k ≠ none ∨ k = strings.TrimSpace ip := by
  by_cases hk : strings.TrimSpace ip = k
  · exact Or.inr hk.symm
  · left
    unfold AddBlocked at h
    by_cases hne : strings.TrimSpace ip = []
    · simpa [hne] using h
    · cases hb : mapGet st.blockedIPs (strings.TrimSpace ip) with
      | some e =>
        simp only [hne, if_false, hb] at h
        by_cases hs : e.Strikes ≤ 0
        · simp only [hs, if_true] at h
          rwa [mapGet_mapSet_ne _ _ _ _ hk] at h
        · simpa [hs] using h
      | none =>
        simp only [hne, if_false, hb] at h
        rwa [mapGet_mapSet_ne _ _ _ _ hk] at h

theorem isLoopback_TrimSpace (ip : Str) : isLoopback (strings.TrimSpace ip) = isLoopback ip := by
  unfold isLoopback; rw [TrimSpace_idem]

theorem isWhitelisted_TrimSpace (ip : Str) (wl : GoMap Unit) :
    isWhitelisted (strings.TrimSpace ip) wl = isWhitelisted ip wl := by
  unfold isWhitelisted; rw [TrimSpace_idem]

theorem loginEvent_keys (g : Str → Str) (sc : loginServiceConfig) (threshold : Int)
    (nowStamp : Str) (wl : GoMap Unit) (tnow : Int) (acc : GoMap Int × World)
    (ev : Str × Int) (hinc : ∀ n w, (sc.incCounter n w).store = w.store) (k : Str)
    (h : mapGet (loginEvent g sc threshold nowStamp wl tnow acc ev).2.store.blockedIPs k ≠ none) :
    mapGet acc.2.store.blockedIPs k ≠ none
      ∨ (isLoopback k = false ∧ isWhitelisted k wl = false) := by
  unfold loginEvent at h
  by_cases h0 : ev.2 ≤ 0
  · left; simpa [h0] using h
  · by_cases hex : (isLoopback ev.1 || isWhitelisted ev.1 wl) = true
    · left
      simpa [h0, hex, AddLog, AddAlert, hinc] using h
    · by_cases hth : wrap64 (mapGetD acc.1 ev.1 + ev.2) ≥ threshold
      · simp only [h0, hex, hth, if_true, if_false] at h
        rcases AddBlocked_key_cases _ _ _ _ h with h1 | h1
        · left
          simpa [AddLog, AddAlert, hinc, BlockIP_store] using h1
        · right
          simp only [Bool.or_eq_true, not_or, Bool.not_eq_true] at hex
          rw [h1, isLoopback_TrimSpace, isWhitelisted_TrimSpace]
          exact hex
      · left
        simpa [h0, hex, hth, AddLog, AddAlert, hinc] using h

theorem loginEvents_keys (g : Str → Str) (sc : loginServiceConfig) (threshold : Int)
    (nowStamp : Str) (wl : GoMap Unit) (tnow : Int) (events : GoMap Int)
    (acc : GoMap Int × World) (hinc : ∀ n w, (sc.incCounter n w).store = w.store) (k : Str)
    (h : mapGet (events.foldl (loginEvent g sc threshold nowStamp wl tnow) acc).2.store.blockedIPs k
      ≠ none) :
    mapGet acc.2.store.blockedIPs k ≠ none
      ∨ (isLoopback k = false ∧ isWhitelisted k wl = false) := by
  induction events generalizing acc with
  | nil => exact Or.inl h
  | cons ev evs ih =>
    rcases ih _ h with h1 | h1
    · exact loginEvent_keys g sc threshold nowStamp wl tnow acc ev hinc k h1
    · exact Or.inr h1

theorem apacheEvent_keys (g : Str → Str) (cfg : Config) (threshold : Int)
    (nowStamp : Str) (wl : GoMap Unit) (tnow : Int) (w : World) (ev : Str × Int) (k : Str)
    (h : mapGet (apacheEvent g cfg threshold nowStamp wl tnow w ev).store.blockedIPs k ≠ none) :
    mapGet w.store.blockedIPs k ≠ none
      ∨ (isLoopback k = false ∧ isWhitelisted k wl = false) := by
  unfold apacheEvent at h
  by_cases hc : (cfg.ApacheBlockOnThreshold && !isLoopback ev.1 && !isWhitelisted ev.1 wl &&
      decide (ev.2 ≥ threshold)) = true
  · simp only [hc, if_true] at h
    rcases AddBlocked_key_cases _ _ _ _ h with h1 | h1
    · left
      simpa [AddLog, AddAlert, BlockIP_store] using h1
    · right
      simp only [Bool.and_eq_true, Bool.not_eq_true', decide_eq_true_eq] at hc
      rw [h1, isLoopback_TrimSpace, isWhitelisted_TrimSpace]
      exact ⟨hc.1.1.2, hc.1.2⟩
  · left
    simpa [hc, AddLog, AddAlert] using h

theorem apacheEvents_keys (g : Str → Str) (cfg : Config) (threshold : Int)
    (nowStamp : Str) (wl : GoMap Unit) (tnow : Int) (events : GoMap Int) (w : World) (k : Str)
    (h : mapGet (events.foldl (apacheEvent g cfg threshold nowStamp wl tnow) w).store.blockedIPs k
      ≠ none) :
    mapGet w.store.blockedIPs k ≠ none
      ∨ (isLoopback k = false ∧ isWhitelisted k wl = false) := by
  induction events generalizing w with
  | nil => exact Or.inl h
  | cons ev evs ih =>
    rcases ih _ h with h1 | h1
    · exact apacheEvent_keys g cfg threshold nowStamp wl tnow w ev k h1
    · exact Or.inr h1

theorem IncSSHBy_store (n : Int) (w : World) : (IncSSHBy n w).store = w.store := by
  unfold IncSSHBy; split_ifs <;> rfl

theorem IncFTPBy_store (n : Int) (w : World) : (IncFTPBy n w).store = w.store := by
  unfold IncFTPBy; split_ifs <;> rfl

theorem IncApacheBy_store (n : Int) (w : World) : (IncApacheBy n w).store = w.store := by
  unfold IncApacheBy; split_ifs <;> rfl

/-- C1: every address that is a key of the blocked map after a call of
`LoginServiceStrategy.ProcessEvents` (SSH or FTP) or of
`ApacheStrategy.ProcessEvents` and was not one before satisfies neither
`isLoopback` nor `isWhitelisted` against the whitelist of that call. -/
theorem ProcessEvents_blocks_no_exempt_address (g : Str → Str) (s : LoginServiceStrategy)
    (w : World) (events : GoMap Int) (cfg : Config) (nowStamp : Str) (wl : GoMap Unit)
    (tnow : Int) (k : Str)
    (hs : s.cfg.incCounter = IncSSHBy ∨ s.cfg.incCounter = IncFTPBy)
    (hnew : mapGet w.store.blockedIPs k = none) :
    (mapGet (s.ProcessEvents g w events cfg nowStamp wl tnow).2.store.blockedIPs k ≠ none →
        isLoopback k = false ∧ isWhitelisted k wl = false)
      ∧ (mapGet (ApacheStrategy.ProcessEvents g w events cfg nowStamp wl tnow).store.blockedIPs k
          ≠ none → isLoopback k = false ∧ isWhitelisted k wl = false) := by
  have hinc : ∀ n w, (s.cfg.incCounter n w).store = w.store := by
    intro n w
    rcases hs with h | h <;> rw [h]
    · exact IncSSHBy_store n w
    · exact IncFTPBy_store n w
  constructor
  · intro h
    unfold LoginServiceStrategy.ProcessEvents at h
    by_cases he : events.length = 0
    · simp only [he, if_true] at h
      exact absurd hnew h
    · simp only [he, if_false] at h
      rcases loginEvents_keys g s.cfg _ nowStamp wl tnow events (s.totals, w) hinc k h with h1 | h1
      · exact absurd hnew h1
      · exact h1
  · intro h
    unfold ApacheStrategy.ProcessEvents at h
    by_cases he : events.length = 0
    · simp only [he, if_true] at h
      exact absurd hnew h
    · simp only [he, if_false] at h
      by_cases ht : events.foldl (fun a p => wrap64 (a + p.2)) 0 = 0
      · simp only [ht, if_true] at h
        exact absurd hnew h
      · simp only [ht, if_false] at h
        rcases apacheEvents_keys g cfg _ nowStamp wl tnow events _ k h with h1 | h1
        · simp only [AddLog, IncApacheBy_store] at h1
          exact absurd hnew h1
        · exact h1

theorem ProcessEvents_blocks_no_exempt_address_witness :
    mapGet (NewSSHStrategy.ProcessEvents (fun _ => []) World.init [("8.8.8.8".toList, 3)]
        { Config.zero with SSHMaxFailures := 3 } [] [] 0).2.store.blockedIPs "8.8.8.8".toList
        ≠ none
      ∧ (isLoopback "8.8.8.8".toList = false ∧ isWhitelisted "8.8.8.8".toList [] = false) :=
  ⟨by decide,
   (ProcessEvents_blocks_no_exempt_address (fun _ => []) NewSSHStrategy World.init
      [("8.8.8.8".toList, 3)] { Config.zero with SSHMaxFailures := 3 } [] [] 0
      "8.8.8.8".toList (Or.inl rfl) (by decide)).1 (by decide)⟩

/-! ## The counters -/

theorem loginEvent_counts_ssh (g : Str → Str) (sc : loginServiceConfig) (threshold : Int)
    (nowStamp : Str) (wl : GoMap Unit) (tnow : Int) (acc : GoMap Int × World)
    (ev : Str × Int) (hs : sc.incCounter = IncSSHBy) :
    (loginEvent g sc threshold nowStamp wl tnow acc ev).2.sshCount
        = (if ev.2 ≤ 0 then acc.2.sshCount else wrap64 (acc.2.sshCount + ev.2))
      ∧ (loginEvent g sc threshold nowStamp wl tnow acc ev).2.ftpCount = acc.2.ftpCount
      ∧ (loginEvent g sc threshold nowStamp wl tnow acc ev).2.apacheCount
        = acc.2.apacheCount := by
  unfold loginEvent
  by_cases h0 : ev.2 ≤ 0
  · simp [h0]
  · by_cases hex : (isLoopback ev.1 || isWhitelisted ev.1 wl) = true
    · simp [h0, hex, hs, IncSSHBy]
    · by_cases hth : wrap64 (mapGetD acc.1 ev.1 + ev.2) ≥ threshold
      · simp [h0, hex, hth, hs, IncSSHBy]
      · simp [h0, hex, hth, hs, IncSSHBy]

theorem loginEvent_counts_ftp (g : Str → Str) (sc : loginServiceConfig) (threshold : Int)
    (nowStamp : Str) (wl : GoMap Unit) (tnow : Int) (acc : GoMap Int × World)
    (ev : Str × Int) (hs : sc.incCounter = IncFTPBy) :
    (loginEvent g sc threshold nowStamp wl tnow acc ev).2.ftpCount
        = (if ev.2 ≤ 0 then acc.2.ftpCount else wrap64 (acc.2.ftpCount + ev.2))
      ∧ (loginEvent g sc threshold nowStamp wl tnow acc ev).2.sshCount = acc.2.sshCount
      ∧ (loginEvent g sc threshold nowStamp wl tnow acc ev).2.apacheCount
        = acc.2.apacheCount := by
  unfold loginEvent
  by_cases h0 : ev.2 ≤ 0
  · simp [h0]
  · by_cases hex : (isLoopback ev.1 || isWhitelisted ev.1 wl) = true
    · simp [h0, hex, hs, IncFTPBy]
    · by_cases hth : wrap64 (mapGetD acc.1 ev.1 + ev.2) ≥ threshold
      · simp [h0, hex, hth, hs, IncFTPBy]
      · simp [h0, hex, hth, hs, IncFTPBy]

theorem sumCounts_cons (ev : Str × Int) (evs : GoMap Int) :
    sumCounts (ev :: evs) = ev.2 + sumCounts evs := by
  simp [sumCounts]

theorem sumCounts_nonneg (events : GoMap Int) (h : ∀ p ∈ events, 0 ≤ p.2) :
    0 ≤ sumCounts events := by
  induction events with
  | nil => simp [sumCounts]
  | cons ev evs ih =>
    have h1 : 0 ≤ ev.2 := h ev (List.mem_cons_self _ _)
    have h3 := ih (fun p hp => h p (List.mem_cons_of_mem _ hp))
    rw [sumCounts_cons]
    omega

theorem incBy_of_bound (c n rest : Int) (hn : 0 ≤ n) (hr : 0 ≤ rest) (hc : 0 ≤ c)
    (hb : c + (n + rest) ≤ maxInt) :
    (if n ≤ 0 then c else wrap64 (c + n)) = c + n := by
  by_cases h0 : n ≤ 0
  · have : n = 0 := by omega
    simp [this]
  · simp only [h0, if_false]
    exact wrap64_of_int _ (by unfold minInt; omega) (by omega)

theorem loginEvents_counts_ssh (g : Str → Str) (sc : loginServiceConfig) (threshold : Int)
    (nowStamp : Str) (wl : GoMap Unit) (tnow : Int) (events : GoMap Int)
    (acc : GoMap Int × World) (hs : sc.incCounter = IncSSHBy)
    (hnn : ∀ p ∈ events, 0 ≤ p.2) (hc : 0 ≤ acc.2.sshCount)
    (hb : acc.2.sshCount + sumCounts events ≤ maxInt) :
    (events.foldl (loginEvent g sc threshold nowStamp wl tnow) acc).2.sshCount
        = acc.2.sshCount + sumCounts events
      ∧ (events.foldl (loginEvent g sc threshold nowStamp wl tnow) acc).2.ftpCount
        = acc.2.ftpCount
      ∧ (events.foldl (loginEvent g sc threshold nowStamp wl tnow) acc).2.apacheCount
        = acc.2.apacheCount := by
  induction events generalizing acc with
  | nil => simp [sumCounts]
  | cons ev evs ih =>
    have hev : 0 ≤ ev.2 := hnn ev (List.mem_cons_self _ _)
    have hrest : ∀ p ∈ evs, 0 ≤ p.2 := fun p hp => hnn p (List.mem_cons_of_mem _ hp)
    have hr := sumCounts_nonneg evs hrest
    rw [sumCounts_cons] at hb
    obtain ⟨h1, h2, h3⟩ := loginEvent_counts_ssh g sc threshold nowStamp wl tnow acc ev hs
    rw [incBy_of_bound _ _ _ hev hr hc hb] at h1
    obtain ⟨i1, i2, i3⟩ := ih (loginEvent g sc threshold nowStamp wl tnow acc ev) hrest
      (by rw [h1]; omega) (by rw [h1]; omega)
    simp only [List.foldl_cons]
    rw [i1, i2, i3, h1, h2, h3, sumCounts_cons]
    exact ⟨by ring, rfl, rfl⟩

theorem loginEvents_counts_ftp (g : Str → Str) (sc : loginServiceConfig) (threshold : Int)
    (nowStamp : Str) (wl : GoMap Unit) (tnow : Int) (events : GoMap Int)
    (acc : GoMap Int × World) (hs : sc.incCounter = IncFTPBy)
    (hnn : ∀ p ∈ events, 0 ≤ p.2) (hc : 0 ≤ acc.2.ftpCount)
    (hb : acc.2.ftpCount + sumCounts events ≤ maxInt) :
    (events.foldl (loginEvent g sc threshold nowStamp wl tnow) acc).2.ftpCount
        = acc.2.ftpCount + sumCounts events
      ∧ (events.foldl (loginEvent g sc threshold nowStamp wl tnow) acc).2.sshCount
        = acc.2.sshCount
      ∧ (events.foldl (loginEvent g sc threshold nowStamp wl tnow) acc).2.apacheCount
        = acc.2.apacheCount := by
  induction events generalizing acc with
  | nil => simp [sumCounts]
  | cons ev evs ih =>
    have hev : 0 ≤ ev.2 := hnn ev (List.mem_cons_self _ _)
    have hrest : ∀ p ∈ evs, 0 ≤ p.2 := fun p hp => hnn p (List.mem_cons_of_mem _ hp)
    have hr := sumCounts_nonneg evs hrest
    rw [sumCounts_cons] at hb
    obtain ⟨h1, h2, h3⟩ := loginEvent_counts_ftp g sc threshold nowStamp wl tnow acc ev hs
    rw [incBy_of_bound _ _ _ hev hr hc hb] at h1
    obtain ⟨i1, i2, i3⟩ := ih (loginEvent g sc threshold nowStamp wl tnow acc ev) hrest
      (by rw [h1]; omega) (by rw [h1]; omega)
    simp only [List.foldl_cons]
    rw [i1, i2, i3, h1, h2, h3, sumCounts_cons]
    exact ⟨by ring, rfl, rfl⟩

theorem apacheEvent_counts (g : Str → Str) (cfg : Config) (threshold : Int)
    (nowStamp : Str) (wl : GoMap Unit) (tnow : Int) (w : World) (ev : Str × Int) :
    (apacheEvent g cfg threshold nowStamp wl tnow w ev).sshCount = w.sshCount
      ∧ (apacheEvent g cfg threshold nowStamp wl tnow w ev).ftpCount = w.ftpCount
      ∧ (apacheEvent g cfg threshold nowStamp wl tnow w ev).apacheCount = w.apacheCount := by
  unfold apacheEvent
  by_cases hc : (cfg.ApacheBlockOnThreshold && !isLoopback ev.1 && !isWhitelisted ev.1 wl &&
      decide (ev.2 ≥ threshold)) = true
  · simp [hc]
  · simp [hc]

theorem apacheEvents_counts (g : Str → Str) (cfg : Config) (threshold : Int)
    (nowStamp : Str) (wl : GoMap Unit) (tnow : Int) (events : GoMap Int) (w : World) :
    (events.foldl (apacheEvent g cfg threshold nowStamp wl tnow) w).sshCount = w.sshCount
      ∧ (events.foldl (apacheEvent g cfg threshold nowStamp wl tnow) w).ftpCount = w.ftpCount
      ∧ (events.foldl (apacheEvent g cfg threshold nowStamp wl tnow) w).apacheCount
        = w.apacheCount := by
  induction events generalizing w with
  | nil => simp
  | cons ev evs ih =>
    obtain ⟨h1, h2, h3⟩ := apacheEvent_counts g cfg threshold nowStamp wl tnow w ev
    obtain ⟨i1, i2, i3⟩ := ih (apacheEvent g cfg threshold nowStamp wl tnow w ev)
    simp only [List.foldl_cons]
    rw [i1, i2, i3, h1, h2, h3]
    exact ⟨rfl, rfl, rfl⟩

theorem foldl_wrap_add (events : GoMap Int) (a : Int) :
    events.foldl (fun a p => wrap64 (a + p.2)) (wrap64 a) = wrap64 (a + sumCounts events) := by
  induction events generalizing a with
  | nil => simp [sumCounts]
  | cons ev evs ih =>
    simp only [List.foldl_cons]
    rw [wrap64_wrap64_add, ih, sumCounts_cons]
    congr 1; ring

theorem apacheTotal_eq (events : GoMap Int) :
    events.foldl (fun a p => wrap64 (a + p.2)) 0 = wrap64 (sumCounts events) := by
  have h := foldl_wrap_add events 0
  have h0 : wrap64 0 = 0 := by decide
  rw [h0] at h
  rw [h]; simp

theorem apacheTotal_of_bound (events : GoMap Int) (hnn : ∀ p ∈ events, 0 ≤ p.2)
    (hb : sumCounts events ≤ maxInt) :
    events.foldl (fun a p => wrap64 (a + p.2)) 0 = sumCounts events := by
  rw [apacheTotal_eq]
  have := sumCounts_nonneg events hnn
  exact wrap64_of_int _ (by unfold minInt; omega) hb

theorem login_ProcessEvents_counts_ssh (g : Str → Str) (s : LoginServiceStrategy)
    (w : World) (events : GoMap Int) (cfg : Config) (nowStamp : Str) (wl : GoMap Unit)
    (tnow : Int) (hs : s.cfg.incCounter = IncSSHBy)
    (hnn : ∀ p ∈ events, 0 ≤ p.2) (hc : 0 ≤ w.sshCount)
    (hb : w.sshCount + sumCounts events ≤ maxInt) :
    (s.ProcessEvents g w events cfg nowStamp wl tnow).2.sshCount
        = w.sshCount + sumCounts events
      ∧ (s.ProcessEvents g w events cfg nowStamp wl tnow).2.ftpCount = w.ftpCount
      ∧ (s.ProcessEvents g w events cfg nowStamp wl tnow).2.apacheCount = w.apacheCount := by
  unfold LoginServiceStrategy.ProcessEvents
  by_cases he : events.length = 0
  · have : events = [] := List.length_eq_zero.mp he
    subst this; simp [sumCounts]
  · simp only [he, if_false]
    exact loginEvents_counts_ssh g s.cfg _ nowStamp wl tnow events (s.totals, w) hs hnn hc hb

theorem login_ProcessEvents_counts_ftp (g : Str → Str) (s : LoginServiceStrategy)
    (w : World) (events : GoMap Int) (cfg : Config) (nowStamp : Str) (wl : GoMap Unit)
    (tnow : Int) (hs : s.cfg.incCounter = IncFTPBy)
    (hnn : ∀ p ∈ events, 0 ≤ p.2) (hc : 0 ≤ w.ftpCount)
    (hb : w.ftpCount + sumCounts events ≤ maxInt) :
    (s.ProcessEvents g w events cfg nowStamp wl tnow).2.ftpCount
        = w.ftpCount + sumCounts events
      ∧ (s.ProcessEvents g w events cfg nowStamp wl tnow).2.sshCount = w.sshCount
      ∧ (s.ProcessEvents g w events cfg nowStamp wl tnow).2.apacheCount = w.apacheCount := by
  unfold LoginServiceStrategy.ProcessEvents
  by_cases he : events.length = 0
  · have : events = [] := List.length_eq_zero.mp he
    subst this; simp [sumCounts]
  · simp only [he, if_false]
    exact loginEvents_counts_ftp g s.cfg _ nowStamp wl tnow events (s.totals, w) hs hnn hc hb

theorem apache_ProcessEvents_frame (g : Str → Str) (w : World) (events : GoMap Int)
    (cfg : Config) (nowStamp : Str) (wl : GoMap Unit) (tnow : Int) :
    (ApacheStrategy.ProcessEvents g w events cfg nowStamp wl tnow).apacheCount
        = (if events.length = 0 then w.apacheCount
           else (IncApacheBy (events.foldl (fun a p => wrap64 (a + p.2)) 0) w).apacheCount)
      ∧ (ApacheStrategy.ProcessEvents g w events cfg nowStamp wl tnow).sshCount = w.sshCount
      ∧ (ApacheStrategy.ProcessEvents g w events cfg nowStamp wl tnow).ftpCount
        = w.ftpCount := by
  unfold ApacheStrategy.ProcessEvents
  by_cases he : events.length = 0
  · simp [he]
  · simp only [he, if_false]
    by_cases ht : events.foldl (fun a p => wrap64 (a + p.2)) 0 = 0
    · simp [ht, IncApacheBy]
    · simp only [ht, if_false]
      obtain ⟨h1, h2, h3⟩ := apacheEvents_counts g cfg
        (effectiveThreshold cfg.ApacheErrorThreshold cfg.MaxFailures 10) nowStamp wl tnow events
        { IncApacheBy (events.foldl (fun a p => wrap64 (a + p.2)) 0) w with
          store := AddLog (IncApacheBy (events.foldl (fun a p => wrap64 (a + p.2)) 0) w).store
            ("[APACHE] Errors detected this cycle: ".toList ++
              fmtInt (events.foldl (fun a p => wrap64 (a + p.2)) 0) ++
              " (ips=".toList ++ fmtNat events.length ++ ")".toList) }
      rw [h1, h2, h3]
      unfold IncApacheBy
      split_ifs <;> simp

theorem apache_ProcessEvents_counts (g : Str → Str) (w : World) (events : GoMap Int)
    (cfg : Config) (nowStamp : Str) (wl : GoMap Unit) (tnow : Int)
    (hnn : ∀ p ∈ events, 0 ≤ p.2) (hc : 0 ≤ w.apacheCount)
    (hb : w.apacheCount + sumCounts events ≤ maxInt) :
    (ApacheStrategy.ProcessEvents g w events cfg nowStamp wl tnow).apacheCount
        = w.apacheCount + sumCounts events
      ∧ (ApacheStrategy.ProcessEvents g w events cfg nowStamp wl tnow).sshCount = w.sshCount
      ∧ (ApacheStrategy.ProcessEvents g w events cfg nowStamp wl tnow).ftpCount
        = w.ftpCount := by
  obtain ⟨h1, h2, h3⟩ := apache_ProcessEvents_frame g w events cfg nowStamp wl tnow
  refine ⟨?_, h2, h3⟩
  rw [h1]
  have hs0 := sumCounts_nonneg events hnn
  by_cases he : events.length = 0
  · have : events = [] := List.length_eq_zero.mp he
    subst this; simp [sumCounts]
  · simp only [he, if_false]
    rw [apacheTotal_of_bound events hnn (by omega)]
    unfold IncApacheBy
    by_cases h0 : sumCounts events ≤ 0
    · have : sumCounts events = 0 := by omega
      simp [this]
    · simp only [h0, if_false]
      exact wrap64_of_int _ (by unfold minInt; omega) hb

/-- C8: for every event map of one cycle as the strategies receive it (no
negative count: the parsers and the simulator only produce counts of at least
1) and every counter value that stays representable as a Go `int` when the
counts are added (`counter + sum ≤ 2^63 - 1`, the counters starting at 0), the
SSH, FTP and Apache strategies each increase their own lifetime counter by
exactly the sum of the counts in the map and leave the other two counters
unchanged. -/
theorem ProcessEvents_counter_grows_by_sum (g : Str → Str) (totals : GoMap Int) (w : World)
    (events : GoMap Int) (cfg : Config) (nowStamp : Str) (wl : GoMap Unit) (tnow : Int)
    (hnn : ∀ p ∈ events, 0 ≤ p.2)
    (hc : 0 ≤ w.sshCount ∧ 0 ≤ w.ftpCount ∧ 0 ≤ w.apacheCount)
    (hb : w.sshCount + sumCounts events ≤ maxInt ∧ w.ftpCount + sumCounts events ≤ maxInt
      ∧ w.apacheCount + sumCounts events ≤ maxInt) :
    (GetSSHCount (LoginServiceStrategy.ProcessEvents g { NewSSHStrategy with totals := totals }
          w events cfg nowStamp wl tnow).2 = GetSSHCount w + sumCounts events
        ∧ GetFTPCount (LoginServiceStrategy.ProcessEvents g
            { NewSSHStrategy with totals := totals } w events cfg nowStamp wl tnow).2
          = GetFTPCount w
        ∧ GetApacheCount (LoginServiceStrategy.ProcessEvents g
            { NewSSHStrategy with totals := totals } w events cfg nowStamp wl tnow).2
          = GetApacheCount w)
      ∧ (GetFTPCount (LoginServiceStrategy.ProcessEvents g
            { NewFTPStrategy with totals := totals } w events cfg nowStamp wl tnow).2
          = GetFTPCount w + sumCounts events
        ∧ GetSSHCount (LoginServiceStrategy.ProcessEvents g
            { NewFTPStrategy with totals := totals } w events cfg nowStamp wl tnow).2
          = GetSSHCount w
        ∧ GetApacheCount (LoginServiceStrategy.ProcessEvents g
            { NewFTPStrategy with totals := totals } w events cfg nowStamp wl tnow).2
          = GetApacheCount w)
      ∧ (GetApacheCount (ApacheStrategy.ProcessEvents g w events cfg nowStamp wl tnow)
          = GetApacheCount w + sumCounts events
        ∧ GetSSHCount (ApacheStrategy.ProcessEvents g w events cfg nowStamp wl tnow)
          = GetSSHCount w
        ∧ GetFTPCount (ApacheStrategy.ProcessEvents g w events cfg nowStamp wl tnow)
          = GetFTPCount w) :=
  ⟨login_ProcessEvents_counts_ssh g { NewSSHStrategy with totals := totals } w events
      cfg nowStamp wl tnow rfl hnn hc.1 hb.1,
    login_ProcessEvents_counts_ftp g { NewFTPStrategy with totals := totals } w events
      cfg nowStamp wl tnow rfl hnn hc.2.1 hb.2.1,
    apache_ProcessEvents_counts g w events cfg nowStamp wl tnow hnn hc.2.2 hb.2.2⟩

theorem ProcessEvents_counter_grows_by_sum_witness :
    GetSSHCount (LoginServiceStrategy.ProcessEvents (fun _ => [])
        { NewSSHStrategy with totals := [] } World.init
        [("8.8.8.8".toList, 2), ("9.9.9.9".toList, 1)] Config.zero [] [] 0).2
      = GetSSHCount World.init + sumCounts [("8.8.8.8".toList, 2), ("9.9.9.9".toList, 1)] :=
  (ProcessEvents_counter_grows_by_sum (fun _ => []) [] World.init
    [("8.8.8.8".toList, 2), ("9.9.9.9".toList, 1)] Config.zero [] [] 0 (by decide)
    (by decide) (by decide)).1.1

/-! ## Scenario S1 -/

theorem sshLine_of_isS1Line (failures : GoMap Int) (raw : Str) (h : isS1Line raw) :
    sshLine failures raw
      = some (mapSet failures "10.0.0.5".toList (mapGetD failures "10.0.0.5".toList + 1)) := by
  obtain ⟨h1, h2, h3⟩ := h
  have hne : strings.TrimSpace raw ≠ [] := by
    intro h0
    rw [h0] at h1
    exact absurd h1 (by decide)
  have h10 : "10.0.0.5".toList ≠ ([] : Str) := by decide
  unfold sshLine
  simp only [hne, if_false, h1, h2, h3, Bool.not_true, if_true, ne_eq, h10, not_false_eq_true]
  rfl

/-- C2 (amended): from the empty store and a fresh SSH strategy, with
`ssh_max_failures = 3` and an empty whitelist, three lines that contain `sshd`
and `Failed password` and whose extracted address is `10.0.0.5` are parsed to
the event map `{10.0.0.5: 3}`; processing it leaves the SSH counter at 3,
appends exactly one alert, of severity HIGH, and leaves the blocked map empty:
`10.0.0.5` is a private address and is exempt from blocking. -/
theorem S1_private_address_alerted_but_not_blocked (g : Str → Str) (cfg : Config)
    (nowStamp : Str) (tnow : Int) (l1 l2 l3 : Str)
    (hcfg : cfg.SSHMaxFailures = 3)
    (h1 : isS1Line l1) (h2 : isS1Line l2) (h3 : isS1Line l3) :
    parseSSHFailuresFromLines [l1, l2, l3] = some [("10.0.0.5".toList, 3)]
      ∧ GetSSHCount (NewSSHStrategy.ProcessEvents g World.init [("10.0.0.5".toList, 3)]
          cfg nowStamp [] tnow).2 = 3
      ∧ (NewSSHStrategy.ProcessEvents g World.init [("10.0.0.5".toList, 3)]
          cfg nowStamp [] tnow).2.store.alerts.map Alert.Severity = ["HIGH".toList]
      ∧ (NewSSHStrategy.ProcessEvents g World.init [("10.0.0.5".toList, 3)]
          cfg nowStamp [] tnow).2.store.blockedIPs = [] := by
  have hloop : isLoopback "10.0.0.5".toList = true := by decide
  refine ⟨?_, ?_, ?_, ?_⟩
  · unfold parseSSHFailuresFromLines
    simp only [List.foldlM, sshLine_of_isS1Line _ _ h1, sshLine_of_isS1Line _ _ h2,
      sshLine_of_isS1Line _ _ h3, Option.bind_eq_bind, Option.some_bind, Option.pure_def]
    rfl
  · have h := (login_ProcessEvents_counts_ssh g NewSSHStrategy World.init
      [("10.0.0.5".toList, 3)] cfg nowStamp [] tnow rfl (by decide) (by decide)
      (by decide)).1
    rw [GetSSHCount, h]
    decide
  · simp only [LoginServiceStrategy.ProcessEvents, List.length_singleton, one_ne_zero,
      if_false, List.foldl_cons, List.foldl_nil, loginEvent, hloop, Bool.true_or, if_true,
      AddAlert, lookupCountry_store, AddLog]
    simp only [show ¬ ((3 : Int) ≤ 0) by decide, if_false, AddAlert, lookupCountry_store,
      AddLog, NewSSHStrategy, IncSSHBy, World.init, Store.empty, ringPush, List.nil_append,
      List.length_singleton, maxAlertsSize, hcfg, effectiveThreshold, mapGetD, mapGet]
    norm_num [classifySeverity]
  · simp only [LoginServiceStrategy.ProcessEvents, List.length_singleton, one_ne_zero,
      if_false, List.foldl_cons, List.foldl_nil, loginEvent, hloop, Bool.true_or, if_true,
      AddAlert, lookupCountry_store, AddLog]
    simp only [show ¬ ((3 : Int) ≤ 0) by decide, if_false, AddAlert, lookupCountry_store,
      AddLog, NewSSHStrategy, IncSSHBy, World.init, Store.empty]

theorem S1_private_address_alerted_but_not_blocked_witness :
    (NewSSHStrategy.ProcessEvents (fun _ => []) World.init [("10.0.0.5".toList, 3)]
        { Config.zero with SSHMaxFailures := 3 } [] [] 0).2.store.blockedIPs = [] :=
  (S1_private_address_alerted_but_not_blocked (fun _ => [])
    { Config.zero with SSHMaxFailures := 3 } [] 0
    "Jan  1 00:00:01 host sshd[71]: Failed password for root rhost=10.0.0.5".toList
    "Jan  1 00:00:02 host sshd[71]: Failed password for root rhost=10.0.0.5".toList
    "Jan  1 00:00:03 host sshd[71]: Failed password for root rhost=10.0.0.5".toList
    rfl (by decide) (by decide) (by decide)).2.2.2

/-- C2 (counterexample): after the three S1 lines are parsed and processed by
a fresh SSH strategy on the empty store, `10.0.0.5` is not a key of the
blocked map. -/
theorem S1_private_address_absent_from_blocked_map :
    parseSSHFailuresFromLines
        ["Jan  1 00:00:01 host sshd[71]: Failed password for root rhost=10.0.0.5".toList,
         "Jan  1 00:00:02 host sshd[71]: Failed password for root rhost=10.0.0.5".toList,
         "Jan  1 00:00:03 host sshd[71]: Failed password for root rhost=10.0.0.5".toList]
        = some [("10.0.0.5".toList, 3)]
      ∧ mapGet (NewSSHStrategy.ProcessEvents (fun _ => []) World.init
          [("10.0.0.5".toList, 3)] { Config.zero with SSHMaxFailures := 3 } [] []
          0).2.store.blockedIPs "10.0.0.5".toList = none := by
  decide

/-! ## The tailer -/

theorem Cut_spec (sep : Str) (s a b : Str) (h : strings.Cut sep s = some (a, b)) :
    s = a ++ sep ++ b := by
  induction s generalizing a with
  | nil =>
    unfold strings.Cut at h
    split_ifs at h with h0
    cases h; simp [h0]
  | cons c rest ih =>
    unfold strings.Cut at h
    by_cases hp : sep.isPrefixOf (c :: rest) = true
    · simp only [hp, if_true, Option.some.injEq, Prod.mk.injEq] at h
      obtain ⟨rfl, rfl⟩ := h
      obtain ⟨t, ht⟩ := List.isPrefixOf_iff_prefix.mp hp
      rw [← ht]; simp
    · simp only [hp, if_false] at h
      cases hc : strings.Cut sep rest with
      | none => simp [hc] at h
      | some p =>
        obtain ⟨a', b'⟩ := p
        simp only [hc, Option.some.injEq, Prod.mk.injEq] at h
        obtain ⟨rfl, rfl⟩ := h
        have := ih a' hc
        rw [this]; simp

theorem splitFuel_ne_nil (sep : Str) (fuel : Nat) (s : Str) :
    strings.splitFuel sep fuel s ≠ [] := by
  cases fuel with
  | zero => simp [strings.splitFuel]
  | succ n =>
    unfold strings.splitFuel
    cases strings.Cut sep s with
    | none => simp
    | some p => simp

theorem Join_cons_of_ne_nil (a : Str) (l : List Str) (sep : Str) (h : l ≠ []) :
    strings.Join (a :: l) sep = a ++ sep ++ strings.Join l sep := by
  cases l with
  | nil => exact absurd rfl h
  | cons b rest => rfl

theorem Join_splitFuel (sep : Str) (fuel : Nat) (s : Str) :
    strings.Join (strings.splitFuel sep fuel s) sep = s := by
  induction fuel generalizing s with
  | zero => simp [strings.splitFuel, strings.Join]
  | succ n ih =>
    unfold strings.splitFuel
    cases hc : strings.Cut sep s with
    | none => simp [strings.Join]
    | some p =>
      obtain ⟨a, b⟩ := p
      simp only
      rw [Join_cons_of_ne_nil _ _ _ (splitFuel_ne_nil sep n b), ih b]
      exact (Cut_spec sep s a b hc).symm

theorem Join_Split (s sep : Str) : strings.Join (strings.Split s sep) sep = s :=
  Join_splitFuel sep s.length s

theorem ReadNewLines_first (w : World) (path content : Str)
    (h : mapGet w.lastOffsets path = none) :
    (ReadNewLines w path (FileView.ok content)).1 = .ok []
      ∧ mapGet (ReadNewLines w path (FileView.ok content)).2.lastOffsets path
        = some (content.length : Int) := by
  unfold ReadNewLines FileView.ok
  simp [h, mapGet_mapSet_self]

theorem ReadNewLines_appended (w : World) (path content c : Str)
    (h : mapGet w.lastOffsets path = some (content.length : Int)) :
    (ReadNewLines w path (FileView.ok (content ++ c))).1
        = .ok (if c = [] then [] else strings.Split c ['\n'])
      ∧ mapGet (ReadNewLines w path (FileView.ok (content ++ c))).2.lastOffsets path
        = some ((content ++ c).length : Int) := by
  unfold ReadNewLines FileView.ok
  by_cases hc : c = []
  · subst hc
    simp [h]
  · have hlen : 0 < c.length := List.length_pos.mpr hc
    have h1 : ¬ ((content.length : Int) + (c.length : Int) < (content.length : Int)) := by omega
    have h2 : ¬ ((content.length : Int) + (c.length : Int) = (content.length : Int)) := by omega
    have h3 : ¬ ((content.length : Int) < 0) := by omega
    have h4 : ¬ ((c.length : Int) ≤ 0) := by omega
    simp [h, hc, h1, h2, h3, h4, mapGet_mapSet_self]

theorem tailRun_appended (path : Str) (chunks : List Str) (w : World) (content : Str)
    (h : mapGet w.lastOffsets path = some (content.length : Int)) :
    tailRun path w content chunks
      = chunks.map (fun c => .ok (if c = [] then [] else strings.Split c ['\n'])) := by
  induction chunks generalizing w content with
  | nil => rfl
  | cons c cs ih =>
    obtain ⟨h1, h2⟩ := ReadNewLines_appended w path content c h
    simp only [tailRun, List.map_cons, h1]
    rw [ih _ _ h2]

/-- C10 (amended): for a file that only grows and is read without failure,
the first call of `ReadNewLines` on a path returns the empty sequence, and
each later call returns the bytes appended since the previous call split on
the newline (the empty sequence when nothing was appended).  Hence joining
each returned sequence with the newline and concatenating the results gives
exactly the bytes appended since the first call. -/
theorem tailer_calls_return_appended_chunks (w : World) (path c0 : Str) (chunks : List Str)
    (hfirst : mapGet w.lastOffsets path = none) :
    (ReadNewLines w path (FileView.ok c0)).1 = .ok []
      ∧ tailRun path (ReadNewLines w path (FileView.ok c0)).2 c0 chunks
        = chunks.map (fun c => .ok (if c = [] then [] else strings.Split c ['\n']))
      ∧ ((tailRun path (ReadNewLines w path (FileView.ok c0)).2 c0 chunks).map
          (fun r => strings.Join (linesOf r) ['\n'])).flatten = chunks.flatten := by
  obtain ⟨h1, h2⟩ := ReadNewLines_first w path c0 hfirst
  have h3 := tailRun_appended path chunks _ c0 h2
  refine ⟨h1, h3, ?_⟩
  rw [h3, List.map_map]
  clear h3
  induction chunks with
  | nil => rfl
  | cons c cs ih =>
    simp only [List.map_cons, List.flatten_cons, ih, Function.comp]
    by_cases hc : c = []
    · simp [hc, linesOf, strings.Join]
    · simp [hc, linesOf, Join_Split]

theorem tailer_calls_return_appended_chunks_witness :
    tailRun "f".toList (ReadNewLines World.init "f".toList (FileView.ok "x".toList)).2
        "x".toList ["a\n".toList, [], "b\nc".toList]
      = ["a\n".toList, [], "b\nc".toList].map
          (fun c => .ok (if c = [] then [] else strings.Split c ['\n'])) :=
  (tailer_calls_return_appended_chunks World.init "f".toList "x".toList
    ["a\n".toList, [], "b\nc".toList] (by decide)).2.1

/-- C10 (counterexample): the file holds `x` at the first call, then `a\n` is
appended before the second call and `b\n` before the third.  The calls return
`[a, ""]` and `[b, ""]`, whose concatenation is not the appended bytes `a\nb\n`
split on the newline, `[a, b, ""]`. -/
theorem tailer_concatenation_is_not_split_of_appended :
    ((tailRun "f".toList (ReadNewLines World.init "f".toList (FileView.ok "x".toList)).2
        "x".toList ["a\n".toList, "b\n".toList]).map linesOf).flatten
      ≠ strings.Split "a\nb\n".toList ['\n'] := by
  decide

/-! ## The rings -/

theorem ringPush_eq_drop {α : Type} (cap : Nat) (buf : List α) (x : α) :
    ringPush cap buf x
      = (buf ++ [x]).drop ((buf ++ [x]).length - min cap (buf.length + 1)) := by
  unfold ringPush
  simp only [List.length_append, List.length_singleton]
  by_cases h : buf.length + 1 > cap
  · have : min cap (buf.length + 1) = cap := by omega
    simp [h, this]
  · have : min cap (buf.length + 1) = buf.length + 1 := by omega
    simp [h, this]

theorem ringPush_length_le {α : Type} (cap : Nat) (buf : List α) (x : α)
    (h : buf.length ≤ cap) : (ringPush cap buf x).length ≤ cap := by
  rw [ringPush_eq_drop]
  simp only [List.length_drop, List.length_append, List.length_singleton]
  omega

theorem ringPush_full {α : Type} (cap : Nat) (buf : List α) (x : α)
    (h : buf.length = cap) (hc : 0 < cap) : ringPush cap buf x = buf.tail ++ [x] := by
  have hpos : 0 < buf.length := h ▸ hc
  rw [ringPush_eq_drop]
  have h1 : (buf ++ [x]).length - min cap (buf.length + 1) = 1 := by
    simp only [List.length_append, List.length_singleton]; omega
  rw [h1]
  cases buf with
  | nil => simp at hpos
  | cons b bs => simp

theorem foldl_AddLog_length (xs : List Str) (st : Store) (h : st.recentLogs.length ≤ 200) :
    (xs.foldl AddLog st).recentLogs.length ≤ 200 := by
  induction xs generalizing st with
  | nil => simpa using h
  | cons x xs ih =>
    apply ih
    exact ringPush_length_le 200 st.recentLogs x h

theorem foldl_AddAlert_length (ys : List Alert) (st : Store) (h : st.alerts.length ≤ 100) :
    (ys.foldl AddAlert st).alerts.length ≤ 100 := by
  induction ys generalizing st with
  | nil => simpa using h
  | cons y ys ih =>
    apply ih
    exact ringPush_length_le 100 st.alerts y h

/-- C9: `AddLog` leaves the logs ring equal to the last `min 200 (|L| + 1)`
elements of `L ++ [x]`, and `AddAlert` leaves the alerts ring equal to the last
`min 100 (|A| + 1)` elements of `A ++ [y]`.  Hence from the empty rings the
lengths never exceed 200 and 100, and a push onto a full ring drops exactly
the oldest element. -/
theorem rings_keep_last_cap_elements :
    (∀ (st : Store) (x : Str),
        (AddLog st x).recentLogs = (st.recentLogs ++ [x]).drop
          ((st.recentLogs ++ [x]).length - min 200 (st.recentLogs.length + 1)))
      ∧ (∀ (st : Store) (y : Alert),
        (AddAlert st y).alerts = (st.alerts ++ [y]).drop
          ((st.alerts ++ [y]).length - min 100 (st.alerts.length + 1)))
      ∧ (∀ xs : List Str, (xs.foldl AddLog Store.empty).recentLogs.length ≤ 200)
      ∧ (∀ ys : List Alert, (ys.foldl AddAlert Store.empty).alerts.length ≤ 100)
      ∧ (∀ (st : Store) (x : Str), st.recentLogs.length = 200 →
          (AddLog st x).recentLogs = st.recentLogs.tail ++ [x])
      ∧ (∀ (st : Store) (y : Alert), st.alerts.length = 100 →
          (AddAlert st y).alerts = st.alerts.tail ++ [y]) := by
  refine ⟨?_, ?_, ?_, ?_, ?_, ?_⟩
  · intro st x; exact ringPush_eq_drop 200 st.recentLogs x
  · intro st y; exact ringPush_eq_drop 100 st.alerts y
  · intro xs; exact foldl_AddLog_length xs Store.empty (by simp [Store.empty])
  · intro ys; exact foldl_AddAlert_length ys Store.empty (by simp [Store.empty])
  · intro st x h; exact ringPush_full 200 st.recentLogs x h (by decide)
  · intro st y h; exact ringPush_full 100 st.alerts y h (by decide)

theorem rings_keep_last_cap_elements_witness :
    (AddLog { Store.empty with recentLogs := List.replicate 200 "old".toList }
        "new".toList).recentLogs
      = (List.replicate 200 "old".toList).tail ++ ["new".toList] :=
  rings_keep_last_cap_elements.2.2.2.2.1
    { Store.empty with recentLogs := List.replicate 200 "old".toList } "new".toList
    (List.length_replicate 200 "old".toList)

/-! ## Severity and thresholds -/

/-- C14: for all 64-bit integers `new`, `total` and `threshold`, with
`t = max threshold 1`, `classifySeverity` returns HIGH if `new ≥ t` or
`total ≥ t`, otherwise MEDIUM if the product `2·total` the program computes is
`≥ t`, otherwise LOW, whatever the service name; the program's product is the
64-bit one, and whenever `2·total` is representable it is the product of the
integers. -/
theorem classifySeverity_by_clamped_threshold (service : Str) (new total threshold : Int) :
    classifySeverity service new total threshold
        = (if new ≥ max threshold 1 ∨ total ≥ max threshold 1 then "HIGH".toList
           else if wrap64 (2 * total) ≥ max threshold 1 then "MEDIUM".toList
           else "LOW".toList)
      ∧ (minInt ≤ 2 * total → 2 * total ≤ maxInt →
          classifySeverity service new total threshold
            = if new ≥ max threshold 1 ∨ total ≥ max threshold 1 then "HIGH".toList
              else if 2 * total ≥ max threshold 1 then "MEDIUM".toList
              else "LOW".toList) := by
  have ht : (if threshold ≤ 0 then (1 : Int) else threshold) = max threshold 1 := by
    split_ifs <;> omega
  refine ⟨?_, ?_⟩
  · unfold classifySeverity
    simp only [ht, mul_comm total 2]
  · intro h1 h2
    unfold classifySeverity
    simp only [ht, mul_comm total 2, wrap64_of_int _ h1 h2]

theorem classifySeverity_by_clamped_threshold_witness :
    classifySeverity "ssh".toList 1 2 3
      = if (1 : Int) ≥ max 3 1 ∨ (2 : Int) ≥ max 3 1 then "HIGH".toList
        else if 2 * (2 : Int) ≥ max 3 1 then "MEDIUM".toList
        else "LOW".toList :=
  (classifySeverity_by_clamped_threshold "ssh".toList 1 2 3).2 (by decide) (by decide)

/-- C15: `effectiveThreshold` returns `specific` if it is positive, else
`global` if it is positive, else `fallback`; the SSH and FTP strategies call it
with their own setting, `max_failures` and the fallback 3, the Apache strategy
with `apache_error_threshold`, `max_failures` and the fallback 10.  With every
setting at zero an SSH address is blocked at a total of 3 and not at 2, an
Apache address (blocking enabled) at a count of 10 and not at 9. -/
theorem effectiveThreshold_arbitration_and_defaults :
    (∀ specific global fallback : Int,
        effectiveThreshold specific global fallback
          = if specific > 0 then specific else if global > 0 then global else fallback)
      ∧ (∀ (g : Str → Str) (totals : GoMap Int) (w : World) (events : GoMap Int)
          (cfg : Config) (nowStamp : Str) (wl : GoMap Unit) (tnow : Int),
          LoginServiceStrategy.ProcessEvents g { NewSSHStrategy with totals := totals } w events
              cfg nowStamp wl tnow
            = if events.length = 0 then ({ NewSSHStrategy with totals := totals }, w)
              else
                ({ NewSSHStrategy with
                    totals := (events.foldl (loginEvent g NewSSHStrategy.cfg
                      (effectiveThreshold cfg.SSHMaxFailures cfg.MaxFailures 3)
                      nowStamp wl tnow) (totals, w)).1 },
                 (events.foldl (loginEvent g NewSSHStrategy.cfg
                    (effectiveThreshold cfg.SSHMaxFailures cfg.MaxFailures 3)
                    nowStamp wl tnow) (totals, w)).2))
      ∧ (∀ (g : Str → Str) (totals : GoMap Int) (w : World) (events : GoMap Int)
          (cfg : Config) (nowStamp : Str) (wl : GoMap Unit) (tnow : Int),
          LoginServiceStrategy.ProcessEvents g { NewFTPStrategy with totals := totals } w events
              cfg nowStamp wl tnow
            = if events.length = 0 then ({ NewFTPStrategy with totals := totals }, w)
              else
                ({ NewFTPStrategy with
                    totals := (events.foldl (loginEvent g NewFTPStrategy.cfg
                      (effectiveThreshold cfg.FTPMaxFailures cfg.MaxFailures 3)
                      nowStamp wl tnow) (totals, w)).1 },
                 (events.foldl (loginEvent g NewFTPStrategy.cfg
                    (effectiveThreshold cfg.FTPMaxFailures cfg.MaxFailures 3)
                    nowStamp wl tnow) (totals, w)).2))
      ∧ (∀ (g : Str → Str) (w : World) (events : GoMap Int) (cfg : Config) (nowStamp : Str)
          (wl : GoMap Unit) (tnow : Int),
          ApacheStrategy.ProcessEvents g w events cfg nowStamp wl tnow
            = if events.length = 0 then w
              else if events.foldl (fun a p => wrap64 (a + p.2)) 0 = 0 then w
              else events.foldl (apacheEvent g cfg
                  (effectiveThreshold cfg.ApacheErrorThreshold cfg.MaxFailures 10)
                  nowStamp wl tnow)
                { IncApacheBy (events.foldl (fun a p => wrap64 (a + p.2)) 0) w with
                  store := AddLog
                    (IncApacheBy (events.foldl (fun a p => wrap64 (a + p.2)) 0) w).store
                    ("[APACHE] Errors detected this cycle: ".toList ++
                      fmtInt (events.foldl (fun a p => wrap64 (a + p.2)) 0) ++
                      " (ips=".toList ++ fmtNat events.length ++ ")".toList) })
      ∧ ListBlocked (NewSSHStrategy.ProcessEvents (fun _ => []) World.init
          [("8.8.8.8".toList, 2)] Config.zero [] [] 0).2.store = []
      ∧ ListBlocked (NewSSHStrategy.ProcessEvents (fun _ => []) World.init
          [("8.8.8.8".toList, 3)] Config.zero [] [] 0).2.store = ["8.8.8.8".toList]
      ∧ ListBlocked (NewFTPStrategy.ProcessEvents (fun _ => []) World.init
          [("8.8.8.8".toList, 2)] Config.zero [] [] 0).2.store = []
      ∧ ListBlocked (NewFTPStrategy.ProcessEvents (fun _ => []) World.init
          [("8.8.8.8".toList, 3)] Config.zero [] [] 0).2.store = ["8.8.8.8".toList]
      ∧ ListBlocked (ApacheStrategy.ProcessEvents (fun _ => []) World.init
          [("8.8.8.8".toList, 9)] { Config.zero with ApacheBlockOnThreshold := true }
          [] [] 0).store = []
      ∧ ListBlocked (ApacheStrategy.ProcessEvents (fun _ => []) World.init
          [("8.8.8.8".toList, 10)] { Config.zero with ApacheBlockOnThreshold := true }
          [] [] 0).store = ["8.8.8.8".toList] := by
  exact ⟨fun _ _ _ => rfl, fun _ _ _ _ _ _ _ _ => rfl, fun _ _ _ _ _ _ _ _ => rfl,
    fun _ _ _ _ _ _ _ => rfl, by decide, by decide, by decide, by decide, by decide,
    by decide⟩

/-! ## Extraction aborts -/

/-- C19 (failing inputs): `extractIP` aborts with an index out of range (the
model's `none`) when `rhost=` ends the line, when `rhost=` occurs twice in a
row, and when ` from ` occurs twice in a row; the SSH, FTP and Apache parsers
abort on a line sequence that holds such a line. -/
theorem extractIP_aborts_on_missing_token :
    extractIP "sshd: Failed password for root rhost=".toList = none
      ∧ extractIP "rhost=rhost=1.2.3.4".toList = none
      ∧ extractIP "Failed password for root from  from 1.2.3.4".toList = none
      ∧ parseSSHFailuresFromLines ["sshd: Failed password for root rhost=".toList] = none
      ∧ parseFTPFailuresFromLines ["vsftpd: authentication failure; rhost=".toList] = none
      ∧ ["- - - [t] GET /a 404 12 rhost=".toList].foldlM apacheLine [] = none := by
  decide

/-- C16 (failing input): on three lines of which the second is
`sshd: Failed password for root rhost=`, `parseSSHFailuresFromLines` aborts
inside `extractIP` and produces no map, although the first and third line
each carry an address. -/
theorem parseSSHFailuresFromLines_aborts_on_bare_rhost :
    parseSSHFailuresFromLines
        ["sshd: Failed password for root rhost=1.2.3.4".toList,
         "sshd: Failed password for root rhost=".toList,
         "sshd: Failed password for root rhost=1.2.3.4".toList] = none
      ∧ parseSSHFailuresFromLines
        ["sshd: Failed password for root rhost=1.2.3.4".toList,
         "sshd: Failed password for root rhost=1.2.3.4".toList]
        = some [("1.2.3.4".toList, 2)] := by
  decide

/-! ## Rotation -/

theorem ReadNewLines_rotated (w : World) (path fresh : Str) (N : Int)
    (hoff : mapGet w.lastOffsets path = some N)
    (hne : 0 < fresh.length) (hlt : (fresh.length : Int) < N) :
    ReadNewLines w path (FileView.ok fresh)
      = (.ok (strings.Split fresh ['\n']),
         { w with lastOffsets := mapSet w.lastOffsets path (fresh.length : Int) }) := by
  unfold ReadNewLines FileView.ok
  have h1 : ¬ ((fresh.length : Int) = 0) := by omega
  have h2 : ¬ ((fresh.length : Int) ≤ 0) := by omega
  simp [hoff, hlt, h1, h2]

/-- C11 (amended): once offset `N` is recorded for a path, if the file is
truncated and holds fresh content that is non-empty and shorter than `N`
bytes at the next call, `ReadNewLines` returns the fresh content split on the
newline and records its size as the offset. -/
theorem ReadNewLines_restarts_after_truncation (w : World) (path fresh : Str) (N : Int)
    (hoff : mapGet w.lastOffsets path = some N)
    (hne : 0 < fresh.length) (hlt : (fresh.length : Int) < N) :
    (ReadNewLines w path (FileView.ok fresh)).1 = .ok (strings.Split fresh ['\n'])
      ∧ mapGet (ReadNewLines w path (FileView.ok fresh)).2.lastOffsets path
        = some (fresh.length : Int) := by
  rw [ReadNewLines_rotated w path fresh N hoff hne hlt]
  exact ⟨rfl, mapGet_mapSet_self _ _ _⟩

theorem ReadNewLines_restarts_after_truncation_witness :
    (ReadNewLines (ReadNewLines World.init "f".toList (FileView.ok "old line\n".toList)).2
        "f".toList (FileView.ok "new\n".toList)).1
      = .ok (strings.Split "new\n".toList ['\n']) :=
  (ReadNewLines_restarts_after_truncation
    (ReadNewLines World.init "f".toList (FileView.ok "old line\n".toList)).2
    "f".toList "new\n".toList 9 (by decide) (by decide) (by decide)).1

/-- C11 (counterexample): offset 1 is recorded for the path (the file held
`x`); the file is truncated and `ab\n` is written before the next call.  The
size 3 is not below the offset, so the call reads from offset 1 and returns
`[b, ""]`, not the fresh content `ab\n` split on the newline. -/
theorem ReadNewLines_misses_rotation_to_longer_file :
    mapGet (ReadNewLines World.init "f".toList (FileView.ok "x".toList)).2.lastOffsets
        "f".toList = some 1
      ∧ linesOf (ReadNewLines (ReadNewLines World.init "f".toList (FileView.ok "x".toList)).2
          "f".toList (FileView.ok "ab\n".toList)).1
        ≠ strings.Split "ab\n".toList ['\n'] := by
  decide

/-! ## First observation -/

theorem ReadNewLines_grown (w : World) (path c0 x d : Str) (fv : FileView) (off : Int)
    (hoff : mapGet w.lastOffsets path = some off)
    (h1 : (c0.length : Int) ≤ off) (h2 : off ≤ (c0.length : Int) + x.length) :
    (∃ off', mapGet (ReadNewLines w path { fv with content := c0 ++ x ++ d }).2.lastOffsets path
          = some off'
        ∧ (c0.length : Int) ≤ off' ∧ off' ≤ (c0.length : Int) + x.length + d.length)
      ∧ ((∃ e, (ReadNewLines w path { fv with content := c0 ++ x ++ d }).1 = .error e)
        ∨ (ReadNewLines w path { fv with content := c0 ++ x ++ d }).1 = .ok []
        ∨ ∃ buf pre suf,
            (ReadNewLines w path { fv with content := c0 ++ x ++ d }).1
              = .ok (strings.Split buf ['\n'])
            ∧ x ++ d = pre ++ buf ++ suf) := by
  have hsize : ((c0 ++ x ++ d).length : Int) = c0.length + x.length + d.length := by
    simp only [List.length_append]; push_cast; ring
  unfold ReadNewLines
  by_cases ho : fv.openErr = true
  · simp only [ho, if_true]
    exact ⟨⟨off, hoff, h1, by omega⟩, Or.inl ⟨_, rfl⟩⟩
  · by_cases hs : fv.statErr = true
    · simp only [ho, hs, if_true, if_false]
      exact ⟨⟨off, hoff, h1, by omega⟩, Or.inl ⟨_, rfl⟩⟩
    · have hnlt : ¬ ((c0.length : Int) + x.length + d.length < off) := by omega
      simp only [ho, hs, if_false, hoff, hsize, hnlt]
      by_cases heq : (c0.length : Int) + x.length + d.length = off
      · simp only [heq, if_true]
        exact ⟨⟨off, hoff, h1, by omega⟩, Or.inr (Or.inl rfl)⟩
      · simp only [heq, if_false]
        by_cases hseek : fv.seekErr = true ∨ off < 0
        · simp only [hseek, if_true]
          exact ⟨⟨off, hoff, h1, by omega⟩, Or.inl ⟨_, rfl⟩⟩
        · simp only [hseek, if_false]
          obtain ⟨k, hk⟩ : ∃ k : Nat, off.toNat = c0.length + k :=
            ⟨off.toNat - c0.length, by omega⟩
          have hdrop : (c0 ++ x ++ d).drop off.toNat = (x ++ d).drop k := by
            rw [hk, List.append_assoc, List.drop_append]
          have havail : ∃ j : Nat,
              (match fv.readCap with
                | none => ((c0 ++ x ++ d).drop off.toNat).take
                    ((c0.length : Int) + x.length + d.length - off).toNat
                | some c => (((c0 ++ x ++ d).drop off.toNat).take
                    ((c0.length : Int) + x.length + d.length - off).toNat).take c)
                = ((x ++ d).drop k).take j := by
            rw [hdrop]
            cases fv.readCap with
            | none => exact ⟨_, rfl⟩
            | some c => exact ⟨_, List.take_take _ _ _⟩
          obtain ⟨j, hj⟩ := havail
          rw [hj]
          have hlen : (((x ++ d).drop k).take j).length ≤ (x ++ d).length - k := by
            rw [List.length_take, List.length_drop]; omega
          have hxd : ((x ++ d).length : Int) = x.length + d.length := by
            simp only [List.length_append]; push_cast; ring
          by_cases hn : ((((x ++ d).drop k).take j).length : Int) ≤ 0
          · simp only [hn, if_true]
            refine ⟨⟨_, mapGet_mapSet_self _ _ _, by omega, by omega⟩, Or.inr (Or.inl rfl)⟩
          · simp only [hn, if_false]
            refine ⟨⟨_, mapGet_mapSet_self _ _ _, by omega, by omega⟩, Or.inr (Or.inr ?_)⟩
            refine ⟨_, (x ++ d).take k, ((x ++ d).drop k).drop j, rfl, ?_⟩
            rw [List.append_assoc, List.take_append_drop, List.take_append_drop]

theorem tailRunViews_grown (path c0 : Str) (steps : List (Str × FileView)) (w : World)
    (x : Str) (off : Int) (hoff : mapGet w.lastOffsets path = some off)
    (h1 : (c0.length : Int) ≤ off) (h2 : off ≤ (c0.length : Int) + x.length) :
    ∀ r ∈ tailRunViews path w (c0 ++ x) steps,
      (∃ e, r = .error e) ∨ r = .ok []
        ∨ ∃ buf pre suf, r = .ok (strings.Split buf ['\n'])
            ∧ x ++ (steps.map Prod.fst).flatten = pre ++ buf ++ suf := by
  induction steps generalizing w x off with
  | nil => intro r hr; simp [tailRunViews] at hr
  | cons st rest ih =>
    obtain ⟨d, fv⟩ := st
    intro r hr
    obtain ⟨⟨off', hoff', g1, g2⟩, hres⟩ := ReadNewLines_grown w path c0 x d fv off hoff h1 h2
    simp only [tailRunViews, List.mem_cons] at hr
    rcases hr with hr | hr
    · subst hr
      rcases hres with he | he | ⟨buf, pre, suf, hb, hsplit⟩
      · exact Or.inl he
      · exact Or.inr (Or.inl he)
      · refine Or.inr (Or.inr ⟨buf, pre, suf ++ (rest.map Prod.fst).flatten, hb, ?_⟩)
        simp only [List.map_cons, List.flatten_cons]
        rw [← List.append_assoc x d, hsplit]
        simp only [List.append_assoc]
    · have hlen : off' ≤ (c0.length : Int) + (x ++ d).length := by
        simp only [List.length_append]; push_cast; omega
      have := ih (ReadNewLines w path { fv with content := c0 ++ x ++ d }).2 (x ++ d) off'
        hoff' g1 hlen r (by simpa [List.append_assoc] using hr)
      rcases this with he | he | ⟨buf, pre, suf, hb, hsplit⟩
      · exact Or.inl he
      · exact Or.inr (Or.inl he)
      · refine Or.inr (Or.inr ⟨buf, pre, suf, hb, ?_⟩)
        simp only [List.map_cons, List.flatten_cons]
        rw [← hsplit]; simp only [List.append_assoc]

/-- C12: for a path with no entry in the offset table and a file that can be
opened and stat-ed, `ReadNewLines` returns the empty sequence without error and
records the size of the file as the offset.  While the file only grows, every
later call (whatever fails, however short the read) returns an error, the
empty sequence, or the split of a stretch of the bytes appended since the first
observation: none of the content present then is returned. -/
theorem first_observation_skips_existing_content (w : World) (path : Str) (f : FileView)
    (steps : List (Str × FileView))
    (hnew : mapGet w.lastOffsets path = none)
    (hopen : f.openErr = false) (hstat : f.statErr = false) :
    ReadNewLines w path f
        = (.ok [], { w with lastOffsets := mapSet w.lastOffsets path (f.content.length : Int) })
      ∧ ∀ r ∈ tailRunViews path (ReadNewLines w path f).2 f.content steps,
          (∃ e, r = .error e) ∨ r = .ok []
            ∨ ∃ buf pre suf, r = .ok (strings.Split buf ['\n'])
                ∧ (steps.map Prod.fst).flatten = pre ++ buf ++ suf := by
  have hfirst : ReadNewLines w path f
      = (.ok [], { w with lastOffsets := mapSet w.lastOffsets path (f.content.length : Int) }) := by
    unfold ReadNewLines
    simp [hopen, hstat, hnew]
  refine ⟨hfirst, ?_⟩
  rw [hfirst]
  have := tailRunViews_grown path f.content steps
    { w with lastOffsets := mapSet w.lastOffsets path (f.content.length : Int) } []
    (f.content.length : Int) (mapGet_mapSet_self _ _ _) (le_refl _) (by simp)
  simpa using this

theorem first_observation_skips_existing_content_witness :
    ReadNewLines World.init "f".toList (FileView.ok "old line\n".toList)
      = (.ok [], { World.init with
          lastOffsets := mapSet World.init.lastOffsets "f".toList
            ((FileView.ok "old line\n".toList).content.length : Int) }) :=
  (first_observation_skips_existing_content World.init "f".toList
    (FileView.ok "old line\n".toList) [("a\n".toList, FileView.ok [])]
    (by decide) rfl rfl).1

/-! ## Address extraction -/

theorem splitFuel_of_Cut_none (sep : Str) (n : Nat) (s : Str)
    (h : strings.Cut sep s = none) : strings.splitFuel sep n s = [s] := by
  cases n with
  | zero => rfl
  | succ m => simp [strings.splitFuel, h]

theorem Cut_length (sep s a b : Str) (h : strings.Cut sep s = some (a, b)) :
    s.length = a.length + sep.length + b.length := by
  have := Cut_spec sep s a b h
  rw [this]; simp only [List.length_append]

theorem Split_first_two (sep line a rest : Str) (hsep : sep ≠ [])
    (h : strings.Cut sep line = some (a, rest)) :
    ∃ tl, strings.Split line sep = a :: upTo sep rest :: tl := by
  have hlen := Cut_length sep line a rest h
  have hs : 0 < sep.length := List.length_pos.mpr hsep
  unfold strings.Split
  obtain ⟨n, hn⟩ : ∃ n, line.length = n + 1 := ⟨line.length - 1, by omega⟩
  rw [hn]
  simp only [strings.splitFuel, h]
  cases hc : strings.Cut sep rest with
  | none =>
    exact ⟨[], by rw [splitFuel_of_Cut_none sep n rest hc]; simp [upTo, hc]⟩
  | some p =>
    obtain ⟨seg, c⟩ := p
    have hlen2 := Cut_length sep rest seg c hc
    obtain ⟨m, hm⟩ : ∃ m, n = m + 1 := ⟨n - 1, by omega⟩
    rw [hm]
    exact ⟨strings.splitFuel sep m c, by simp [strings.splitFuel, hc, upTo]⟩

theorem SplitN_two_head (s sep : Str) :
    (strings.SplitN s sep 2).headD [] = upTo sep s := by
  unfold strings.SplitN upTo
  cases hc : strings.Cut sep s with
  | none => simp [strings.splitFuel, hc]
  | some p => simp [strings.splitFuel, hc]

theorem extractIP_blocks (line : Str) :
    extractIP line
      = match clientRule line with
        | some ip => some ip
        | none =>
          match fieldsRule "rhost=".toList line with
          | some r => r
          | none =>
            match fieldsRule " from ".toList line with
            | some r => r
            | none => some [] := rfl

theorem fieldsRule_eq (sep line : Str) (hsep : sep ≠ []) :
    fieldsRule sep line
      = (afterFirst sep line).map
          (fun rest => (firstToken (upTo sep rest)).map strings.TrimSpace) := by
  unfold fieldsRule afterFirst strings.Contains
  cases hc : strings.Cut sep line with
  | none => simp
  | some p =>
    obtain ⟨a, rest⟩ := p
    obtain ⟨tl, htl⟩ := Split_first_two sep line a rest hsep hc
    simp only [Option.isSome_some, if_true, htl, Option.map_some', firstToken]
    cases strings.Fields (upTo sep rest) <;> rfl

theorem clientRule_eq (line : Str) :
    clientRule line
      = (afterFirst "Client \"".toList line).map
          (fun rest => strings.TrimSpace (upTo ['"'] (upTo "Client \"".toList rest))) := by
  have hsep : "Client \"".toList ≠ ([] : Str) := by decide
  unfold clientRule afterFirst strings.Contains
  generalize "Client \"".toList = sep at hsep ⊢
  cases hc : strings.Cut sep line with
  | none => simp
  | some p =>
    obtain ⟨a, rest⟩ := p
    obtain ⟨tl, htl⟩ := Split_first_two sep line a rest hsep hc
    simp only [Option.isSome_some, if_true, htl, Option.map_some', SplitN_two_head]

theorem extractIP_eq_extractIPSpec (line : Str) : extractIP line = extractIPSpec line := by
  rw [extractIP_blocks, clientRule_eq, fieldsRule_eq _ _ (by decide),
    fieldsRule_eq _ _ (by decide)]
  unfold extractIPSpec
  cases afterFirst "Client \"".toList line with
  | some r => rfl
  | none =>
    cases afterFirst "rhost=".toList line with
    | some r => rfl
    | none =>
      cases afterFirst " from ".toList line with
      | some r => rfl
      | none => rfl

/-- C18 (amended): `extractIP` returns the trimmed result of the first
matching rule, where the text a rule examines after the first occurrence of
its pattern ends at the next occurrence of that pattern (or the end of the
line): for `Client "` that text up to its first `"`; for `rhost=`, else for
` from `, the first whitespace-delimited token of that text, whenever it has
one; the empty string when no pattern occurs. -/
theorem extractIP_returns_first_matching_rule (line ip : Str)
    (h : extractIPSpec line = some ip) : extractIP line = some ip := by
  rw [extractIP_eq_extractIPSpec, h]

theorem extractIP_returns_first_matching_rule_witness :
    extractIP "Nov  2 host sshd[9]: Failed password for root from 203.0.113.9 port 22".toList
      = some "203.0.113.9".toList :=
  extractIP_returns_first_matching_rule
    "Nov  2 host sshd[9]: Failed password for root from 203.0.113.9 port 22".toList
    "203.0.113.9".toList (by decide)

/-- C18 (counterexample): in `rhost=1.2.3.4rhost=5.6.7.8` the first
whitespace-delimited token after the first `rhost=` is `1.2.3.4rhost=5.6.7.8`,
but `extractIP` returns `1.2.3.4`; in `Client "abc Client "def"` the text up to
the next `"` is `abc Client `, but `extractIP` returns `abc`. -/
theorem extractIP_stops_at_next_occurrence_of_pattern :
    extractIP "rhost=1.2.3.4rhost=5.6.7.8".toList
        ≠ some (extractIPClaimed "rhost=1.2.3.4rhost=5.6.7.8".toList)
      ∧ extractIPClaimed "rhost=1.2.3.4rhost=5.6.7.8".toList = "1.2.3.4rhost=5.6.7.8".toList
      ∧ extractIP "rhost=1.2.3.4rhost=5.6.7.8".toList = some "1.2.3.4".toList
      ∧ extractIPClaimed "Client \"abc Client \"def\"".toList = "abc Client".toList
      ∧ extractIP "Client \"abc Client \"def\"".toList = some "abc".toList := by
  decide

/-! ## Counting parsers -/

theorem dropWhile_of_no_space (l : Str) (h : ∀ c ∈ l, isSpace c = false) :
    l.dropWhile isSpace = l := by
  cases l with
  | nil => rfl
  | cons c r => simp [List.dropWhile, h c (List.mem_cons_self _ _)]

theorem TrimSpace_of_no_space (f : Str) (h : ∀ c ∈ f, isSpace c = false) :
    strings.TrimSpace f = f := by
  unfold strings.TrimSpace
  rw [dropWhile_of_no_space f h,
    dropWhile_of_no_space f.reverse (fun c hc => h c (List.mem_reverse.mp hc)),
    List.reverse_reverse]

theorem fieldsAux_fields (s cur : Str) (hcur : ∀ c ∈ cur, isSpace c = false) :
    ∀ f ∈ strings.fieldsAux s cur, f ≠ [] ∧ ∀ c ∈ f, isSpace c = false := by
  induction s generalizing cur with
  | nil =>
    intro f hf
    unfold strings.fieldsAux at hf
    by_cases hc : cur = []
    · simp [hc] at hf
    · simp only [hc, if_false, List.mem_singleton] at hf
      subst hf
      exact ⟨by simpa using hc, fun c hcm => hcur c (List.mem_reverse.mp hcm)⟩
  | cons c rest ih =>
    intro f hf
    unfold strings.fieldsAux at hf
    by_cases hsp : isSpace c = true
    · simp only [hsp, if_true] at hf
      by_cases hc : cur = []
      · simp only [hc, if_true] at hf
        exact ih [] (by simp) f hf
      · simp only [hc, if_false, List.mem_cons] at hf
        rcases hf with hf | hf
        · subst hf
          exact ⟨by simpa using hc, fun c hcm => hcur c (List.mem_reverse.mp hcm)⟩
        · exact ih [] (by simp) f hf
    · simp only [hsp, if_false] at hf
      refine ih (c :: cur) ?_ f hf
      intro c' hc'
      rcases List.mem_cons.mp hc' with h | h
      · subst h; simpa using hsp
      · exact hcur c' h

theorem Fields_fields (s : Str) :
    ∀ f ∈ strings.Fields s, f ≠ [] ∧ ∀ c ∈ f, isSpace c = false :=
  fieldsAux_fields s [] (by simp)

theorem fieldsAux_nil (s cur : Str) (h : strings.fieldsAux s cur = []) :
    cur = [] ∧ ∀ c ∈ s, isSpace c = true := by
  induction s generalizing cur with
  | nil =>
    unfold strings.fieldsAux at h
    by_cases hc : cur = []
    · exact ⟨hc, by simp⟩
    · simp [hc] at h
  | cons c rest ih =>
    unfold strings.fieldsAux at h
    by_cases hsp : isSpace c = true
    · simp only [hsp, if_true] at h
      by_cases hc : cur = []
      · simp only [hc, if_true] at h
        refine ⟨hc, ?_⟩
        intro c' hc'
        rcases List.mem_cons.mp hc' with h1 | h1
        · subst h1; exact hsp
        · exact (ih [] h).2 c' h1
      · simp [hc] at h
    · simp only [hsp, if_false] at h
      exact absurd (ih (c :: cur) h).1 (by simp)

theorem Fields_ne_nil_of_mem (s : Str) (c : Char) (hc : c ∈ s) (hsp : isSpace c = false) :
    strings.Fields s ≠ [] := by
  intro h
  have := (fieldsAux_nil s [] h).2 c hc
  rw [hsp] at this
  exact absurd this (by simp)

theorem mem_of_Contains (s sep : Str) (c : Char) (hc : c ∈ sep)
    (h : strings.Contains s sep = true) : c ∈ s := by
  unfold strings.Contains at h
  cases hcut : strings.Cut sep s with
  | none => simp [hcut] at h
  | some p =>
    obtain ⟨a, b⟩ := p
    rw [Cut_spec sep s a b hcut]
    simp [hc]

theorem loginLine_eq_verdict (p1 p2 : Str) (m : GoMap Int) (raw : Str)
    (he : strings.Contains [] p1 = false) :
    (let line := strings.TrimSpace raw
     if line = [] then some m
     else if !strings.Contains line p1 then some m
     else if strings.Contains line p2 then
       match extractIP line with
       | none => none
       | some ip => if ip ≠ [] then some (mapSet m ip (mapGetD m ip + 1)) else some m
     else some m)
      = applyVerdict m
          (let line := strings.TrimSpace raw
           if strings.Contains line p1 && strings.Contains line p2 then
             match extractIP line with
             | none => .abort
             | some ip => if ip = [] then .skip else .count ip
           else .skip) := by
  by_cases h0 : strings.TrimSpace raw = []
  · simp [h0, he, applyVerdict]
  · by_cases h1 : strings.Contains (strings.TrimSpace raw) p1 = true
    · by_cases h2 : strings.Contains (strings.TrimSpace raw) p2 = true
      · simp only [h0, h1, h2, if_false, Bool.not_true, Bool.and_self, if_true,
          Bool.false_eq_true]
        cases extractIP (strings.TrimSpace raw) with
        | none => rfl
        | some ip => by_cases hip : ip = [] <;> simp [hip, applyVerdict, bump]
      · simp [h0, h1, h2, applyVerdict]
    · simp [h0, h1, applyVerdict]

theorem sshLine_eq_verdict (m : GoMap Int) (raw : Str) :
    sshLine m raw = applyVerdict m (sshVerdict raw) :=
  loginLine_eq_verdict "sshd".toList "Failed password".toList m raw (by decide)

theorem ftpLine_eq_verdict (m : GoMap Int) (raw : Str) :
    ftpLine m raw = applyVerdict m (ftpVerdict raw) :=
  loginLine_eq_verdict "vsftpd".toList "authentication failure".toList m raw (by decide)

theorem apacheLine_eq_verdict (m : GoMap Int) (raw : Str) :
    apacheLine m raw = applyVerdict m (apacheVerdict raw) := by
  have e1 : strings.Contains [] " 404 ".toList = false := by decide
  have e2 : strings.Contains [] " 500 ".toList = false := by decide
  have m1 : '4' ∈ " 404 ".toList := by decide
  have m2 : '5' ∈ " 500 ".toList := by decide
  have s1 : isSpace '4' = false := by decide
  have s2 : isSpace '5' = false := by decide
  have hd : "-".toList ≠ ([] : Str) := by decide
  have hu : "unknown".toList ≠ ([] : Str) := by decide
  unfold apacheLine apacheVerdict isApacheErrorLine extractApacheAccessIP firstToken
  generalize " 404 ".toList = q1 at e1 m1 ⊢
  generalize " 500 ".toList = q2 at e2 m2 ⊢
  generalize "-".toList = dash at hd ⊢
  generalize "unknown".toList = unk at hu ⊢
  by_cases h0 : strings.TrimSpace raw = []
  · simp [h0, e1, e2, applyVerdict]
  · by_cases h1 : (strings.Contains (strings.TrimSpace raw) q1 ||
        strings.Contains (strings.TrimSpace raw) q2) = true
    · have hne : strings.Fields (strings.TrimSpace raw) ≠ [] := by
        rcases Bool.or_eq_true _ _ ▸ h1 with h | h
        · exact Fields_ne_nil_of_mem _ '4' (mem_of_Contains _ _ _ m1 h) s1
        · exact Fields_ne_nil_of_mem _ '5' (mem_of_Contains _ _ _ m2 h) s2
      simp only [h0, h1, if_false, Bool.not_true, if_true, Bool.false_eq_true]
      cases hf : strings.Fields (strings.TrimSpace raw) with
      | nil => exact absurd hf hne
      | cons f rest =>
        have hfield := Fields_fields (strings.TrimSpace raw) f (by rw [hf]; simp)
        have htrim := TrimSpace_of_no_space f hfield.2
        simp only [List.head?_cons, htrim]
        by_cases hdash : f = dash
        · simp only [hdash, if_true]
          cases extractIP (strings.TrimSpace raw) with
          | none => rfl
          | some ip => by_cases hip : ip = [] <;> simp [hip, applyVerdict, bump]
        · simp [hdash, hfield.1, applyVerdict, bump]
    · simp [h0, h1, applyVerdict]

theorem sumCounts_mapSet (m : GoMap Int) (k : Str) (v : Int) :
    sumCounts (mapSet m k v) = sumCounts m - mapGetD m k + v := by
  induction m with
  | nil => simp [mapSet, sumCounts, mapGetD, mapGet]
  | cons p m ih =>
    obtain ⟨k', v'⟩ := p
    by_cases h : k' = k
    · subst h
      simp only [mapSet, if_true, sumCounts, List.map_cons, List.sum_cons, mapGetD, mapGet,
        Option.getD_some]
      ring
    · simp only [sumCounts, mapGetD] at ih
      simp only [mapSet, h, if_false, sumCounts, List.map_cons, List.sum_cons, mapGetD,
        mapGet, ih]
      ring

theorem sumCounts_bump (m : GoMap Int) (ip : Str) : sumCounts (bump m ip) = sumCounts m + 1 := by
  unfold bump; rw [sumCounts_mapSet]; ring

theorem mapGetD_bump (m : GoMap Int) (ip a : Str) :
    mapGetD (bump m ip) a = mapGetD m a + if ip = a then 1 else 0 := by
  unfold bump
  by_cases h : ip = a
  · subst h; simp [mapGetD_mapSet_self]
  · simp [mapGetD_mapSet_ne _ _ _ _ h, h]

theorem mapGet_bump_isSome (m : GoMap Int) (ip a : Str) :
    (mapGet (bump m ip) a).isSome = true ↔ (mapGet m a).isSome = true ∨ ip = a := by
  unfold bump
  by_cases h : ip = a
  · subst h; simp [mapGet_mapSet_self]
  · simp [mapGet_mapSet_ne _ _ _ _ h, h]

theorem foldlM_verdict_some (v : Str → Verdict) (lines : List Str) (m0 : GoMap Int)
    (h : ∀ l ∈ lines, v l ≠ .abort) :
    ∃ m, lines.foldlM (fun m raw => applyVerdict m (v raw)) m0 = some m
      ∧ (∀ a, mapGetD m a
          = mapGetD m0 a + (lines.filter (fun l => decide (v l = .count a))).length)
      ∧ sumCounts m = sumCounts m0 + (lines.filter (fun l => (v l).isCount)).length
      ∧ (∀ a, (mapGet m a).isSome = true
          ↔ (mapGet m0 a).isSome = true ∨ ∃ l ∈ lines, v l = .count a) := by
  induction lines generalizing m0 with
  | nil => exact ⟨m0, rfl, by simp, by simp, by simp⟩
  | cons l ls ih =>
    have hl := h l (List.mem_cons_self _ _)
    have hls : ∀ l' ∈ ls, v l' ≠ .abort := fun l' hl' => h l' (List.mem_cons_of_mem _ hl')
    cases hv : v l with
    | abort => exact absurd hv hl
    | skip =>
      obtain ⟨m, hm, h1, h2, h3⟩ := ih m0 hls
      have step : (l :: ls).foldlM (fun m raw => applyVerdict m (v raw)) m0
          = ls.foldlM (fun m raw => applyVerdict m (v raw)) m0 := by
        rw [List.foldlM_cons]; simp only [hv]; rfl
      refine ⟨m, by rw [step]; exact hm, ?_, ?_, ?_⟩
      · intro a; rw [h1 a]; simp [List.filter_cons, hv]
      · rw [h2]; simp [List.filter_cons, hv, Verdict.isCount]
      · intro a; rw [h3 a]; simp [hv]
    | count ip =>
      obtain ⟨m, hm, h1, h2, h3⟩ := ih (bump m0 ip) hls
      have step : (l :: ls).foldlM (fun m raw => applyVerdict m (v raw)) m0
          = ls.foldlM (fun m raw => applyVerdict m (v raw)) (bump m0 ip) := by
        rw [List.foldlM_cons]; simp only [hv]; rfl
      refine ⟨m, by rw [step]; exact hm, ?_, ?_, ?_⟩
      · intro a
        rw [h1 a, mapGetD_bump]
        by_cases hip : ip = a
        · simp [List.filter_cons, hv, hip]; ring
        · simp [List.filter_cons, hv, hip]
      · rw [h2, sumCounts_bump]
        simp [List.filter_cons, hv, Verdict.isCount]; ring
      · intro a
        rw [h3 a, mapGet_bump_isSome]
        by_cases hip : ip = a
        · simp [hv, hip]
        · simp [hv, hip]

theorem foldlM_verdict_abort (v : Str → Verdict) (lines : List Str) (m0 : GoMap Int)
    (h : ∃ l ∈ lines, v l = .abort) :
    lines.foldlM (fun m raw => applyVerdict m (v raw)) m0 = none := by
  induction lines generalizing m0 with
  | nil => simp at h
  | cons l ls ih =>
    obtain ⟨l', hl', hab⟩ := h
    cases hv : v l with
    | abort => rw [List.foldlM_cons]; simp only [hv]; rfl
    | skip =>
      have step : (l :: ls).foldlM (fun m raw => applyVerdict m (v raw)) m0
          = ls.foldlM (fun m raw => applyVerdict m (v raw)) m0 := by
        rw [List.foldlM_cons]; simp only [hv]; rfl
      rcases List.mem_cons.mp hl' with h1 | h1
      · subst h1; rw [hv] at hab; cases hab
      · rw [step]; exact ih m0 ⟨l', h1, hab⟩
    | count ip =>
      have step : (l :: ls).foldlM (fun m raw => applyVerdict m (v raw)) m0
          = ls.foldlM (fun m raw => applyVerdict m (v raw)) (bump m0 ip) := by
        rw [List.foldlM_cons]; simp only [hv]; rfl
      rcases List.mem_cons.mp hl' with h1 | h1
      · subst h1; rw [hv] at hab; cases hab
      · rw [step]; exact ih _ ⟨l', h1, hab⟩

theorem parseSSHFailuresFromLines_counts (lines : List Str)
    (h : ∀ l ∈ lines, sshVerdict l ≠ .abort) :
    ∃ m, parseSSHFailuresFromLines lines = some m
      ∧ (∀ a, mapGetD m a = (lines.filter (fun l => decide (sshVerdict l = .count a))).length)
      ∧ (∀ a, (mapGet m a).isSome = true ↔ ∃ l ∈ lines, sshVerdict l = .count a) := by
  have heq : sshLine = fun m raw => applyVerdict m (sshVerdict raw) := by
    funext m raw; exact sshLine_eq_verdict m raw
  obtain ⟨m, hm, h1, _, h3⟩ := foldlM_verdict_some sshVerdict lines [] h
  refine ⟨m, by rw [parseSSHFailuresFromLines, heq]; exact hm, ?_, ?_⟩
  · intro a; rw [h1 a]; simp [mapGetD, mapGet]
  · intro a; rw [h3 a]; simp [mapGet]

theorem apacheVerdict_isCount (raw : Str) (h : apacheVerdict raw ≠ .abort) :
    (apacheVerdict raw).isCount
      = (strings.Contains (strings.TrimSpace raw) " 404 ".toList ||
          strings.Contains (strings.TrimSpace raw) " 500 ".toList) := by
  have m1 : '4' ∈ " 404 ".toList := by decide
  have m2 : '5' ∈ " 500 ".toList := by decide
  have s1 : isSpace '4' = false := by decide
  have s2 : isSpace '5' = false := by decide
  unfold apacheVerdict firstToken at h ⊢
  generalize " 404 ".toList = q1 at m1 h ⊢
  generalize " 500 ".toList = q2 at m2 h ⊢
  generalize "-".toList = dash at h ⊢
  generalize "unknown".toList = unk at h ⊢
  by_cases h1 : (strings.Contains (strings.TrimSpace raw) q1 ||
      strings.Contains (strings.TrimSpace raw) q2) = true
  · have hne : strings.Fields (strings.TrimSpace raw) ≠ [] := by
      rcases Bool.or_eq_true _ _ ▸ h1 with h | h
      · exact Fields_ne_nil_of_mem _ '4' (mem_of_Contains _ _ _ m1 h) s1
      · exact Fields_ne_nil_of_mem _ '5' (mem_of_Contains _ _ _ m2 h) s2
    simp only [h1, if_true] at h ⊢
    cases hf : strings.Fields (strings.TrimSpace raw) with
    | nil => exact absurd hf hne
    | cons f rest =>
      simp only [hf, List.head?_cons] at h ⊢
      by_cases hdash : f = dash
      · simp only [hdash, if_true] at h ⊢
        cases hx : extractIP (strings.TrimSpace raw) with
        | none => simp [hx] at h
        | some ip => by_cases hip : ip = [] <;> simp [hip, Verdict.isCount]
      · simp [hdash, Verdict.isCount]
  · simp [h1, Verdict.isCount]

/-- C17 (amended): for every sequence of new lines on which address
extraction does not abort, the Apache parser counts a line iff its trimmed
form contains ` 404 ` or ` 500 `, so its counts sum to the number of such
lines; each counted line is counted under its first whitespace-delimited
field, or, when that field is the literal `-`, under the address found by the
generic extraction, or under `unknown` when that is empty (`apacheVerdict`),
and no other key appears. -/
theorem apache_parser_counts_trimmed_error_lines (w : World) (path : Str) (f : FileView)
    (lines : List Str)
    (hread : (ReadNewLines w path f).1 = .ok lines)
    (hno : ∀ l ∈ lines, apacheVerdict l ≠ .abort) :
    ∃ m, (parseApacheErrors w path f).1 = some m
      ∧ sumCounts m
          = (lines.filter (fun l =>
              strings.Contains (strings.TrimSpace l) " 404 ".toList ||
              strings.Contains (strings.TrimSpace l) " 500 ".toList)).length
      ∧ (∀ a, mapGetD m a
          = (lines.filter (fun l => decide (apacheVerdict l = .count a))).length)
      ∧ (∀ a, (mapGet m a).isSome = true ↔ ∃ l ∈ lines, apacheVerdict l = .count a) := by
  have heq : apacheLine = fun m raw => applyVerdict m (apacheVerdict raw) := by
    funext m raw; exact apacheLine_eq_verdict m raw
  obtain ⟨m, hm, h1, h2, h3⟩ := foldlM_verdict_some apacheVerdict lines [] hno
  have hparse : (parseApacheErrors w path f).1 = lines.foldlM apacheLine [] := by
    unfold parseApacheErrors
    rcases hr : ReadNewLines w path f with ⟨r, w1⟩
    rw [hr] at hread
    simp only at hread
    subst hread
    simp only
    by_cases hl : lines.length = 0
    · have : lines = [] := List.length_eq_zero.mp hl
      subst this; simp
    · simp [hl]
  refine ⟨m, by rw [hparse, heq]; exact hm, ?_, ?_, ?_⟩
  · rw [h2]
    have hfilter : lines.filter (fun l => (apacheVerdict l).isCount)
        = lines.filter (fun l =>
            strings.Contains (strings.TrimSpace l) " 404 ".toList ||
            strings.Contains (strings.TrimSpace l) " 500 ".toList) := by
      apply List.filter_congr
      intro l hl
      exact apacheVerdict_isCount l (hno l hl)
    rw [hfilter]; simp [sumCounts]
  · intro a; rw [h1 a]; simp [mapGetD, mapGet]
  · intro a; rw [h3 a]; simp [mapGet]

theorem apache_parser_counts_trimmed_error_lines_witness :
    ∃ m, (parseApacheErrors (ReadNewLines World.init "f".toList (FileView.ok [])).2
        "f".toList
        (FileView.ok "1.2.3.4 - - [t] GET /a 404 12\n- - - [t] GET /b 500 7".toList)).1
        = some m
      ∧ sumCounts m
          = (["1.2.3.4 - - [t] GET /a 404 12".toList, "- - - [t] GET /b 500 7".toList].filter
              (fun l =>
                strings.Contains (strings.TrimSpace l) " 404 ".toList ||
                strings.Contains (strings.TrimSpace l) " 500 ".toList)).length :=
  (apache_parser_counts_trimmed_error_lines
    (ReadNewLines World.init "f".toList (FileView.ok [])).2 "f".toList
    (FileView.ok "1.2.3.4 - - [t] GET /a 404 12\n- - - [t] GET /b 500 7".toList)
    ["1.2.3.4 - - [t] GET /a 404 12".toList, "- - - [t] GET /b 500 7".toList]
    rfl (by decide)).imp (fun _ h => ⟨h.1, h.2.1⟩)

/-- C17 (counterexample): the new line `1.2.3.4 - - "GET /a" 404 ` contains
` 404 `, but the Apache parser tests the trimmed line, which ends in `404`, and
does not count it: the resulting map is empty. -/
theorem apache_parser_skips_line_ending_in_status :
    linesOf (ReadNewLines (ReadNewLines World.init "f".toList (FileView.ok [])).2 "f".toList
        (FileView.ok "1.2.3.4 - - \"GET /a\" 404 \n".toList)).1
        = ["1.2.3.4 - - \"GET /a\" 404 ".toList, []]
      ∧ strings.Contains "1.2.3.4 - - \"GET /a\" 404 ".toList " 404 ".toList = true
      ∧ (parseApacheErrors (ReadNewLines World.init "f".toList (FileView.ok [])).2 "f".toList
          (FileView.ok "1.2.3.4 - - \"GET /a\" 404 \n".toList)).1 = some [] := by
  decide

/-! ## Saving and loading the blocked file -/

theorem foldl_save (m : GoMap BlockedEntry) (acc : Str) :
    m.foldl (fun b p => b ++ p.1 ++ ['\n']) acc
      = acc ++ ((mapKeys m).map (fun k => k ++ ['\n'])).flatten := by
  induction m generalizing acc with
  | nil => simp [mapKeys]
  | cons p m ih =>
    simp only [List.foldl_cons, ih, mapKeys, List.map_cons, List.flatten_cons]
    simp only [mapKeys] at ih
    simp [List.append_assoc]

theorem SaveBlockedToFile_eq (st : Store) :
    SaveBlockedToFile st = ((mapKeys st.blockedIPs).map (fun k => k ++ ['\n'])).flatten := by
  unfold SaveBlockedToFile
  rw [foldl_save]; simp

theorem Cut_newline (k r : Str) (h : '\n' ∉ k) :
    strings.Cut ['\n'] (k ++ '\n' :: r) = some (k, r) := by
  induction k with
  | nil => simp [strings.Cut, List.isPrefixOf]
  | cons c k ih =>
    have hc : c ≠ '\n' := fun hh => h (by simp [hh])
    have hk : '\n' ∉ k := fun hh => h (List.mem_cons_of_mem _ hh)
    have hpre : List.isPrefixOf ['\n'] (c :: (k ++ '\n' :: r)) = false := by
      simp [List.isPrefixOf, hc.symm]
    simp only [List.cons_append, strings.Cut, hpre, ih hk]
    simp [Ne.symm hc, ih hk]

theorem splitFuel_fuel (sep : Str) (hsep : sep ≠ []) (n m : Nat) (s : Str)
    (hn : s.length ≤ n) (hm : s.length ≤ m) :
    strings.splitFuel sep n s = strings.splitFuel sep m s := by
  induction n generalizing m s with
  | zero =>
    have hs : s = [] := List.length_eq_zero.mp (Nat.le_zero.mp hn)
    subst hs
    have hcut : strings.Cut sep [] = none := by simp [strings.Cut, hsep]
    rw [splitFuel_of_Cut_none sep 0 [] hcut, splitFuel_of_Cut_none sep m [] hcut]
  | succ n ih =>
    cases hcut : strings.Cut sep s with
    | none => rw [splitFuel_of_Cut_none _ _ _ hcut, splitFuel_of_Cut_none _ _ _ hcut]
    | some p =>
      obtain ⟨a, b⟩ := p
      have hlen := Cut_length sep s a b hcut
      have hs : 0 < sep.length := List.length_pos.mpr hsep
      obtain ⟨m', hm'⟩ : ∃ m', m = m' + 1 := ⟨m - 1, by omega⟩
      subst hm'
      simp only [strings.splitFuel, hcut]
      rw [ih m' b (by omega) (by omega)]

theorem Split_saved (ks : List Str) (h : ∀ k ∈ ks, '\n' ∉ k) :
    strings.Split ((ks.map (fun k => k ++ ['\n'])).flatten) ['\n'] = ks ++ [[]] := by
  induction ks with
  | nil => rfl
  | cons k ks ih =>
    have hk := h k (List.mem_cons_self _ _)
    have hks : ∀ k' ∈ ks, '\n' ∉ k' := fun k' hk' => h k' (List.mem_cons_of_mem _ hk')
    have hcut := Cut_newline k ((ks.map (fun k => k ++ ['\n'])).flatten) hk
    have hform : ((k :: ks).map (fun k => k ++ ['\n'])).flatten
        = k ++ '\n' :: (ks.map (fun k => k ++ ['\n'])).flatten := by
      simp
    rw [hform]
    unfold strings.Split
    have hlen : (k ++ '\n' :: (ks.map (fun k => k ++ ['\n'])).flatten).length
        = (k.length + (ks.map (fun k => k ++ ['\n'])).flatten.length) + 1 := by
      simp only [List.length_append, List.length_cons]; omega
    rw [hlen]
    simp only [strings.splitFuel, hcut]
    rw [splitFuel_fuel ['\n'] (by simp) _ ((ks.map (fun k => k ++ ['\n'])).flatten.length) _
      (by omega) (le_refl _)]
    have := ih hks
    unfold strings.Split at this
    rw [this]; simp

theorem loadLine_clean (tnow : Int) (st : Store) (k : Str)
    (htrim : strings.TrimSpace k = k) (hne : k ≠ [])
    (hone : ∀ a, mapGetD st.strikeCounts a ≤ 1) :
    (∀ a, mapGet (loadLine tnow st k).blockedIPs a
        = if k = a then some ⟨a, tnow, 1⟩ else mapGet st.blockedIPs a)
      ∧ (∀ a, mapGetD (loadLine tnow st k).strikeCounts a ≤ 1) := by
  have hk := hone k
  have hcur : (if mapGetD st.strikeCounts k < 1 then (1 : Int) else mapGetD st.strikeCounts k)
      = 1 := by split_ifs <;> omega
  unfold loadLine
  simp only [htrim, hne, if_false, hcur]
  constructor
  · intro a
    by_cases h : k = a
    · subst h; simp [mapGet_mapSet_self]
    · simp [mapGet_mapSet_ne _ _ _ _ h, h]
  · intro a
    by_cases h : k = a
    · subst h; simp [mapGetD_mapSet_self]
    · rw [mapGetD_mapSet_ne _ _ _ _ h]; exact hone a

theorem foldl_loadLine_clean (tnow : Int) (ks : List Str) (st : Store)
    (hks : ∀ k ∈ ks, strings.TrimSpace k = k ∧ k ≠ [])
    (hone : ∀ a, mapGetD st.strikeCounts a ≤ 1) :
    ∀ a, mapGet (ks.foldl (loadLine tnow) st).blockedIPs a
      = if a ∈ ks then some ⟨a, tnow, 1⟩ else mapGet st.blockedIPs a := by
  induction ks generalizing st with
  | nil => intro a; simp
  | cons k ks ih =>
    intro a
    have hk := hks k (List.mem_cons_self _ _)
    obtain ⟨h1, h2⟩ := loadLine_clean tnow st k hk.1 hk.2 hone
    simp only [List.foldl_cons]
    rw [ih (loadLine tnow st k) (fun k' hk' => hks k' (List.mem_cons_of_mem _ hk')) h2 a, h1 a]
    by_cases ha : a ∈ ks
    · simp [ha]
    · by_cases hka : k = a
      · simp [hka]
      · have : ¬ a = k := fun hh => hka hh.symm
        simp [ha, hka, this]

theorem BlockedWF_loadLine (tnow : Int) (st : Store) (raw : Str)
    (h : BlockedWF st.blockedIPs) : BlockedWF (loadLine tnow st raw).blockedIPs := by
  unfold loadLine
  by_cases hne : strings.TrimSpace raw = []
  · simpa [hne] using h
  · simp only [hne, if_false]
    exact BlockedWF_mapSet _ _ _ h rfl (TrimSpace_idem raw)

theorem BlockedWF_foldl_loadLine (tnow : Int) (lines : List Str) (st : Store)
    (h : BlockedWF st.blockedIPs) : BlockedWF (lines.foldl (loadLine tnow) st).blockedIPs := by
  induction lines generalizing st with
  | nil => exact h
  | cons l ls ihl => exact ihl _ (BlockedWF_loadLine tnow st l h)

theorem BlockedWF_of_Reachable (st : Store) (h : Reachable st) : BlockedWF st.blockedIPs := by
  induction h with
  | empty => exact ⟨by simp [Store.empty, mapKeys], by simp [Store.empty]⟩
  | addBlocked st ip tnow _ ih => exact BlockedWF_AddBlocked st ip tnow ih
  | removeBlocked st ip _ ih => exact BlockedWF_mapDel _ _ ih
  | loadBlocked st file tnow _ ih =>
    cases file with
    | none => exact ih
    | some data =>
      exact BlockedWF_foldl_loadLine tnow _ st ih
  | addLog st line _ ih => exact ih
  | addAlert st a _ ih => exact ih

theorem mem_mapKeys_iff {V : Type} (m : GoMap V) (k : Str) :
    k ∈ mapKeys m ↔ (mapGet m k).isSome = true := by
  induction m with
  | nil => simp [mapKeys, mapGet]
  | cons p m ih =>
    cases p with
    | mk k' v' =>
      have hkeys : mapKeys ((k', v') :: m) = k' :: mapKeys m := rfl
      rw [hkeys, List.mem_cons]
      by_cases h : k' = k
      · simp [mapGet, h]
      · have h' : ¬ k = k' := fun hh => h hh.symm
        simp only [mapGet, h, if_false, h', false_or]
        exact ih

theorem load_saved (st : Store) (tnow : Int)
    (hwf : ∀ k ∈ mapKeys st.blockedIPs, strings.TrimSpace k = k ∧ k ≠ [])
    (hnl : ∀ k ∈ mapKeys st.blockedIPs, '\n' ∉ k) (a : Str) :
    mapGet (LoadBlockedFromFile Store.empty (some (SaveBlockedToFile st)) tnow).blockedIPs a
      = if (mapGet st.blockedIPs a).isSome then some ⟨a, tnow, 1⟩ else none := by
  simp only [LoadBlockedFromFile, SaveBlockedToFile_eq, Split_saved _ hnl, List.foldl_append,
    List.foldl_cons, List.foldl_nil]
  have hlast : ∀ s : Store, loadLine tnow s [] = s := by
    intro s; simp [loadLine, strings.TrimSpace]
  rw [hlast, foldl_loadLine_clean tnow _ Store.empty hwf
    (by intro a; simp [Store.empty, mapGetD, mapGet])]
  by_cases ha : a ∈ mapKeys st.blockedIPs
  · simp [ha, (mem_mapKeys_iff _ _).mp ha]
  · have : (mapGet st.blockedIPs a).isSome = false := by
      cases h : (mapGet st.blockedIPs a).isSome
      · rfl
      · exact absurd ((mem_mapKeys_iff _ _).mpr h) ha
    simp [ha, this, Store.empty, mapGet]

theorem mapGet_isSome_mapSet {V : Type} (m : GoMap V) (k a : Str) (v : V) :
    (mapGet (mapSet m k v) a).isSome = true ↔ ((mapGet m a).isSome = true ∨ k = a) := by
  by_cases h : k = a
  · subst h; simp [mapGet_mapSet_self]
  · simp [mapGet_mapSet_ne _ _ _ _ h, h]

theorem AddBlocked_isSome (st : Store) (ip : Str) (tnow : Int) (k : Str) :
    (mapGet (AddBlocked st ip tnow).blockedIPs k).isSome = true
      ↔ ((mapGet st.blockedIPs k).isSome = true ∨ (strings.TrimSpace ip = k ∧ k ≠ [])) := by
  unfold AddBlocked
  by_cases hne : strings.TrimSpace ip = []
  · simp only [hne, if_true]
    constructor
    · exact Or.inl
    · rintro (h | ⟨h1, h2⟩)
      · exact h
      · exact absurd h1.symm h2
  · simp only [hne, if_false]
    by_cases hk : strings.TrimSpace ip = k
    · subst hk
      cases hb : mapGet st.blockedIPs (strings.TrimSpace ip) with
      | some e =>
        by_cases hs : e.Strikes ≤ 0
        · simp [hs, mapGet_mapSet_self]
        · simp [hs, hb]
      | none => simp [mapGet_mapSet_self, hne]
    · cases hb : mapGet st.blockedIPs (strings.TrimSpace ip) with
      | some e =>
        by_cases hs : e.Strikes ≤ 0
        · simp [hs, mapGet_mapSet_ne _ _ _ _ hk, hk]
        · simp [hs, hk]
      | none => simp [mapGet_mapSet_ne _ _ _ _ hk, hk]

theorem Reachable_of_Built (st : Store) (h : Built st) : Reachable st := by
  induction h with
  | empty => exact Reachable.empty
  | addBlocked st ip tnow _ _ ih => exact Reachable.addBlocked st ip tnow ih
  | removeBlocked st ip _ ih => exact Reachable.removeBlocked st ip ih
  | loadBlocked st file tnow _ ih => exact Reachable.loadBlocked st file tnow ih
  | addLog st line _ ih => exact Reachable.addLog st line ih
  | addAlert st a _ ih => exact Reachable.addAlert st a ih

theorem mem_of_mem_TrimSpace (s : Str) (c : Char) (h : c ∈ strings.TrimSpace s) : c ∈ s := by
  rw [TrimSpace_eq_rdropWhile] at h
  exact (List.dropWhile_suffix isSpace).subset ((List.rdropWhile_prefix isSpace _).subset h)

theorem Cut_newline_before (s a b : Str) (h : strings.Cut ['\n'] s = some (a, b)) :
    '\n' ∉ a := by
  induction s generalizing a with
  | nil => simp [strings.Cut] at h
  | cons c rest ih =>
    unfold strings.Cut at h
    by_cases hp : (['\n'] : Str).isPrefixOf (c :: rest) = true
    · simp only [hp, if_true, Option.some.injEq, Prod.mk.injEq] at h
      rw [← h.1]; simp
    · simp only [hp, if_false] at h
      have hc : c ≠ '\n' := by
        intro hh
        apply hp
        rw [hh]
        simp [List.isPrefixOf]
      cases hcut : strings.Cut ['\n'] rest with
      | none => simp [hcut] at h
      | some p =>
        obtain ⟨a', b'⟩ := p
        simp only [hcut, Bool.false_eq_true, if_false, Option.some.injEq, Prod.mk.injEq] at h
        rw [← h.1]
        intro hmem
        rcases List.mem_cons.mp hmem with h1 | h1
        · exact hc h1.symm
        · exact ih a' (by rw [hcut, h.2]) h1

theorem Cut_newline_none (s : Str) (h : strings.Cut ['\n'] s = none) : '\n' ∉ s := by
  induction s with
  | nil => simp
  | cons c rest ih =>
    unfold strings.Cut at h
    by_cases hp : (['\n'] : Str).isPrefixOf (c :: rest) = true
    · simp [hp] at h
    · simp only [hp, if_false] at h
      have hc : c ≠ '\n' := by
        intro hh
        apply hp
        rw [hh]
        simp [List.isPrefixOf]
      cases hcut : strings.Cut ['\n'] rest with
      | some p => obtain ⟨a', b'⟩ := p; simp [hcut] at h
      | none =>
        intro hmem
        rcases List.mem_cons.mp hmem with h1 | h1
        · exact hc h1.symm
        · exact ih hcut h1

theorem splitFuel_newline_free (n : Nat) (s : Str) (hlen : s.length ≤ n) :
    ∀ l ∈ strings.splitFuel ['\n'] n s, '\n' ∉ l := by
  induction n generalizing s with
  | zero =>
    have : s = [] := List.length_eq_zero.mp (Nat.le_zero.mp hlen)
    subst this
    intro l hl
    simp only [strings.splitFuel, List.mem_singleton] at hl
    subst hl; simp
  | succ m ih =>
    intro l hl
    unfold strings.splitFuel at hl
    cases hcut : strings.Cut ['\n'] s with
    | none =>
      simp only [hcut, List.mem_singleton] at hl
      subst hl
      exact Cut_newline_none _ hcut
    | some p =>
      obtain ⟨a, b⟩ := p
      simp only [hcut, List.mem_cons] at hl
      rcases hl with h1 | h1
      · subst h1; exact Cut_newline_before s _ b hcut
      · have hl2 := Cut_length ['\n'] s a b hcut
        simp only [List.length_singleton] at hl2
        exact ih b (by omega) l h1

theorem Split_newline_free (data : Str) : ∀ l ∈ strings.Split data ['\n'], '\n' ∉ l :=
  splitFuel_newline_free data.length data (le_refl _)

theorem mem_mapKeys_mapSet {V : Type} (m : GoMap V) (k a : Str) (v : V)
    (h : a ∈ mapKeys (mapSet m k v)) : a = k ∨ a ∈ mapKeys m := by
  rcases (mapGet_isSome_mapSet m k a v).mp ((mem_mapKeys_iff _ _).mp h) with h1 | h1
  · exact Or.inr ((mem_mapKeys_iff _ _).mpr h1)
  · exact Or.inl h1.symm

theorem loadLine_keys_newline_free (tnow : Int) (st : Store) (raw : Str)
    (hraw : '\n' ∉ raw) (h : ∀ k ∈ mapKeys st.blockedIPs, '\n' ∉ k) :
    ∀ k ∈ mapKeys (loadLine tnow st raw).blockedIPs, '\n' ∉ k := by
  unfold loadLine
  by_cases hne : strings.TrimSpace raw = []
  · simpa [hne] using h
  · simp only [hne, if_false]
    intro k hk
    rcases mem_mapKeys_mapSet _ _ _ _ hk with h1 | h1
    · subst h1
      exact fun hmem => hraw (mem_of_mem_TrimSpace raw _ hmem)
    · exact h k h1

theorem foldl_loadLine_keys_newline_free (tnow : Int) (lines : List Str) (st : Store)
    (hl : ∀ l ∈ lines, '\n' ∉ l) (h : ∀ k ∈ mapKeys st.blockedIPs, '\n' ∉ k) :
    ∀ k ∈ mapKeys (lines.foldl (loadLine tnow) st).blockedIPs, '\n' ∉ k := by
  induction lines generalizing st with
  | nil => exact h
  | cons l ls ih =>
    exact ih (loadLine tnow st l) (fun x hx => hl x (List.mem_cons_of_mem _ hx))
      (loadLine_keys_newline_free tnow st l (hl l (List.mem_cons_self _ _)) h)

theorem Built_keys_newline_free (st : Store) (h : Built st) :
    ∀ k ∈ mapKeys st.blockedIPs, '\n' ∉ k := by
  induction h with
  | empty => intro k hk; simp [Store.empty, mapKeys] at hk
  | addBlocked st ip tnow hip _ ih =>
    intro k hk
    rcases (AddBlocked_isSome st ip tnow k).mp ((mem_mapKeys_iff _ _).mp hk) with h1 | h1
    · exact ih k ((mem_mapKeys_iff _ _).mpr h1)
    · rw [← h1.1]
      exact fun hmem => hip (mem_of_mem_TrimSpace ip _ hmem)
  | removeBlocked st ip _ ih =>
    intro k hk
    exact ih k (((mapDel_sublist st.blockedIPs (strings.TrimSpace ip)).map Prod.fst).subset hk)
  | loadBlocked st file tnow _ ih =>
    cases file with
    | none => exact ih
    | some data =>
      exact foldl_loadLine_keys_newline_free tnow _ st (Split_newline_free data) ih
  | addLog st line _ ih => exact ih
  | addAlert st a _ ih => exact ih

/-- C13: for every store the daemon builds through `AddBlocked`,
`RemoveBlocked` and `LoadBlockedFromFile` (`AddBlocked` being called, as the
program calls it, on addresses that hold no newline), loading into the empty
store the bytes that `SaveBlockedToFile` writes yields a blocked map with
exactly the same addresses, each entry under its own address with the load
time and strikes 1. -/
theorem save_then_load_keeps_address_set (st : Store) (tnow : Int) (a : Str)
    (hr : Built st) :
    mapGet (LoadBlockedFromFile Store.empty (some (SaveBlockedToFile st)) tnow).blockedIPs a
      = if (mapGet st.blockedIPs a).isSome then some ⟨a, tnow, 1⟩ else none := by
  apply load_saved st tnow _ (Built_keys_newline_free st hr)
  intro k hk
  have hsome := (mem_mapKeys_iff _ _).mp hk
  cases hg : mapGet st.blockedIPs k with
  | none => rw [hg] at hsome; cases hsome
  | some e =>
    exact ⟨((BlockedWF_of_Reachable st (Reachable_of_Built st hr)).2 _
        (mem_of_mapGet _ _ _ hg)).2,
      (StrikesInv_of_Reachable st (Reachable_of_Built st hr) k e hg).1⟩

theorem save_then_load_keeps_address_set_witness :
    mapGet (LoadBlockedFromFile Store.empty
        (some (SaveBlockedToFile
          (AddBlocked (AddBlocked Store.empty "1.2.3.4".toList 1) "5.6.7.8".toList 2))) 9).blockedIPs
        "5.6.7.8".toList
      = if (mapGet (AddBlocked (AddBlocked Store.empty "1.2.3.4".toList 1)
            "5.6.7.8".toList 2).blockedIPs "5.6.7.8".toList).isSome
        then some ⟨"5.6.7.8".toList, 9, 1⟩ else none :=
  save_then_load_keeps_address_set
    (AddBlocked (AddBlocked Store.empty "1.2.3.4".toList 1) "5.6.7.8".toList 2) 9
    "5.6.7.8".toList
    (Built.addBlocked _ _ _ (by decide) (Built.addBlocked _ _ _ (by decide) Built.empty))

/-! ## Which entries the login loop blocks -/

theorem lookupCountry_fw (g : Str → Str) (w : World) (ip : Str) :
    (lookupCountry g w ip).2.fw = w.fw := by
  unfold lookupCountry
  by_cases h : strings.TrimSpace ip = []
  · simp [h]
  · simp only [h, if_false]
    split_ifs
    · rfl
    · cases mapGet w.geoCache (strings.TrimSpace ip) <;> rfl

theorem IncSSHBy_fw (n : Int) (w : World) : (IncSSHBy n w).fw = w.fw := by
  unfold IncSSHBy; split_ifs <;> rfl

theorem IncFTPBy_fw (n : Int) (w : World) : (IncFTPBy n w).fw = w.fw := by
  unfold IncFTPBy; split_ifs <;> rfl

theorem loginEvent_totals (g : Str → Str) (sc : loginServiceConfig) (threshold : Int)
    (nowStamp : Str) (wl : GoMap Unit) (tnow : Int) (acc : GoMap Int × World) (ev : Str × Int) :
    (loginEvent g sc threshold nowStamp wl tnow acc ev).1
      = if ev.2 ≤ 0 then acc.1
        else mapSet acc.1 ev.1 (wrap64 (mapGetD acc.1 ev.1 + ev.2)) := by
  unfold loginEvent
  by_cases h0 : ev.2 ≤ 0
  · simp [h0]
  · simp only [h0, if_false]
    split_ifs <;> rfl

theorem loginEvent_fw (g : Str → Str) (sc : loginServiceConfig) (threshold : Int)
    (nowStamp : Str) (wl : GoMap Unit) (tnow : Int) (acc : GoMap Int × World) (ev : Str × Int)
    (hfw : ∀ n w, (sc.incCounter n w).fw = w.fw) :
    (loginEvent g sc threshold nowStamp wl tnow acc ev).2.fw
      = acc.2.fw ++ (if blockDue acc.1 threshold wl ev = true ∧ strings.TrimSpace ev.1 ≠ []
          then [FwCmd.deny (strings.TrimSpace ev.1)] else []) := by
  unfold loginEvent blockDue
  by_cases h0 : ev.2 ≤ 0
  · have h0' : ¬ 0 < ev.2 := not_lt.mpr h0
    simp [h0, h0']
  · have h0' : 0 < ev.2 := not_le.mp h0
    by_cases hex : (isLoopback ev.1 || isWhitelisted ev.1 wl) = true
    · simp [h0, hex, lookupCountry_fw, hfw]
    · by_cases hth : wrap64 (mapGetD acc.1 ev.1 + ev.2) ≥ threshold
      · have hth' : threshold ≤ wrap64 (mapGetD acc.1 ev.1 + ev.2) := hth
        simp only [h0, hex, hth, if_true, if_false]
        by_cases hne : strings.TrimSpace ev.1 = []
        · simp [BlockIP, hne, lookupCountry_fw, hfw]
        · simp [BlockIP, hne, lookupCountry_fw, hfw, h0', hex, hth']
      · have hth' : ¬ threshold ≤ wrap64 (mapGetD acc.1 ev.1 + ev.2) := hth
        simp [h0, hex, hth, hth', lookupCountry_fw, hfw]

theorem loginEvent_isSome (g : Str → Str) (sc : loginServiceConfig) (threshold : Int)
    (nowStamp : Str) (wl : GoMap Unit) (tnow : Int) (acc : GoMap Int × World) (ev : Str × Int)
    (hst : ∀ n w, (sc.incCounter n w).store = w.store) (k : Str) :
    (mapGet (loginEvent g sc threshold nowStamp wl tnow acc ev).2.store.blockedIPs k).isSome = true
      ↔ ((mapGet acc.2.store.blockedIPs k).isSome = true
          ∨ (blockDue acc.1 threshold wl ev = true ∧ strings.TrimSpace ev.1 = k ∧ k ≠ [])) := by
  unfold loginEvent blockDue
  by_cases h0 : ev.2 ≤ 0
  · have h0' : ¬ 0 < ev.2 := not_lt.mpr h0
    simp [h0, h0']
  · have h0' : 0 < ev.2 := not_le.mp h0
    by_cases hex : (isLoopback ev.1 || isWhitelisted ev.1 wl) = true
    · simp [h0, hex, AddLog, AddAlert, hst]
    · by_cases hth : wrap64 (mapGetD acc.1 ev.1 + ev.2) ≥ threshold
      · have hth' : threshold ≤ wrap64 (mapGetD acc.1 ev.1 + ev.2) := hth
        simp only [h0, hex, hth, if_true, if_false, Bool.false_eq_true]
        rw [AddBlocked_isSome]
        simp [BlockIP_store, AddLog, AddAlert, hst, h0', hex, hth']
      · have hth' : ¬ threshold ≤ wrap64 (mapGetD acc.1 ev.1 + ev.2) := hth
        simp [h0, hex, hth, hth', AddLog, AddAlert, hst]

theorem blockDue_congr (T1 T2 : GoMap Int) (threshold : Int) (wl : GoMap Unit) (ev : Str × Int)
    (h : mapGetD T1 ev.1 = mapGetD T2 ev.1) :
    blockDue T1 threshold wl ev = blockDue T2 threshold wl ev := by
  unfold blockDue; rw [h]

theorem loginEvents_blocks (g : Str → Str) (sc : loginServiceConfig) (threshold : Int)
    (nowStamp : Str) (wl : GoMap Unit) (tnow : Int) (events : GoMap Int)
    (acc : GoMap Int × World)
    (hst : ∀ n w, (sc.incCounter n w).store = w.store)
    (hfw : ∀ n w, (sc.incCounter n w).fw = w.fw)
    (hnd : (mapKeys events).Nodup) :
    (events.foldl (loginEvent g sc threshold nowStamp wl tnow) acc).2.fw
        = acc.2.fw ++ (events.filter (fun ev =>
            blockDue acc.1 threshold wl ev && decide (strings.TrimSpace ev.1 ≠ []))).map
              (fun ev => FwCmd.deny (strings.TrimSpace ev.1))
      ∧ ∀ k, (mapGet (events.foldl (loginEvent g sc threshold nowStamp wl tnow)
            acc).2.store.blockedIPs k).isSome = true
          ↔ ((mapGet acc.2.store.blockedIPs k).isSome = true
              ∨ ∃ ev ∈ events, blockDue acc.1 threshold wl ev = true
                  ∧ strings.TrimSpace ev.1 = k ∧ k ≠ []) := by
  induction events generalizing acc with
  | nil => simp
  | cons ev rest ih =>
    have hkeys : mapKeys (ev :: rest) = ev.1 :: mapKeys rest := rfl
    rw [hkeys, List.nodup_cons] at hnd
    obtain ⟨hnot, hnd'⟩ := hnd
    have hcongr : ∀ e ∈ rest,
        blockDue (loginEvent g sc threshold nowStamp wl tnow acc ev).1 threshold wl e
          = blockDue acc.1 threshold wl e := by
      intro e he
      apply blockDue_congr
      have hne : ev.1 ≠ e.1 := by
        intro hh
        apply hnot
        rw [hh]
        exact List.mem_map_of_mem Prod.fst he
      rw [loginEvent_totals]
      split_ifs
      · rfl
      · exact mapGetD_mapSet_ne _ _ _ _ hne
    obtain ⟨ih1, ih2⟩ := ih (loginEvent g sc threshold nowStamp wl tnow acc ev) hnd'
    have hfilter : rest.filter (fun e =>
          blockDue (loginEvent g sc threshold nowStamp wl tnow acc ev).1 threshold wl e
            && decide (strings.TrimSpace e.1 ≠ []))
        = rest.filter (fun e =>
          blockDue acc.1 threshold wl e && decide (strings.TrimSpace e.1 ≠ [])) := by
      apply List.filter_congr
      intro e he
      rw [hcongr e he]
    constructor
    · simp only [List.foldl_cons]
      rw [ih1, hfilter, loginEvent_fw g sc threshold nowStamp wl tnow acc ev hfw]
      by_cases hb : blockDue acc.1 threshold wl ev = true
      · by_cases hne : strings.TrimSpace ev.1 = []
        · simp [List.filter_cons, hb, hne]
        · simp [List.filter_cons, hb, hne]
      · simp [List.filter_cons, hb]
    · intro k
      simp only [List.foldl_cons]
      rw [ih2 k, loginEvent_isSome g sc threshold nowStamp wl tnow acc ev hst k]
      constructor
      · rintro ((h | h) | ⟨e, he, h1, h2⟩)
        · exact Or.inl h
        · exact Or.inr ⟨ev, List.mem_cons_self _ _, h⟩
        · exact Or.inr ⟨e, List.mem_cons_of_mem _ he, by rw [← hcongr e he]; exact h1, h2⟩
      · rintro (h | ⟨e, he, h1, h2⟩)
        · exact Or.inl (Or.inl h)
        · rcases List.mem_cons.mp he with hh | hh
          · subst hh; exact Or.inl (Or.inr ⟨h1, h2⟩)
          · exact Or.inr ⟨e, hh, by rw [hcongr e hh]; exact h1, h2⟩

/-- C20: `LoginServiceStrategy.ProcessEvents` (SSH or FTP) blocks exactly the
entries of the event map that have a new count > 0, an address that is neither
loopback/private nor whitelisted, and prior total + new count ≥ the effective
threshold (`blockDue` on the totals held before the call).  The keys of
the event map are distinct, as in a Go map.  The calls `Firewall.block(a)` and
`AddBlocked(a)` sit together in the block branch and are observed by their
effects: (1) the firewall commands issued by the call are the `deny` commands
of exactly those entries (both calls do nothing for an address that trims to
empty); (2) an address is blocked after the call iff it was blocked before or
is the trimmed address of such an entry; (3) for an entry with new count > 0
and a non-exempt address the condition is that the updated total, the 64-bit
sum the program computes, is ≥ the threshold, and whenever prior total + new
count is representable that is the sum of the integers; (4) for an exempt
address it never holds. -/
theorem login_ProcessEvents_blocks_iff_total_reaches_threshold
    (g : Str → Str) (s : LoginServiceStrategy) (w : World) (events : GoMap Int) (cfg : Config)
    (nowStamp : Str) (wl : GoMap Unit) (tnow : Int)
    (hs : s.cfg.incCounter = IncSSHBy ∨ s.cfg.incCounter = IncFTPBy)
    (hnd : (mapKeys events).Nodup) :
    (LoginServiceStrategy.ProcessEvents g s w events cfg nowStamp wl tnow).2.fw
        = w.fw ++ (events.filter (fun ev =>
            blockDue s.totals
              (effectiveThreshold (s.cfg.getSpecific cfg) cfg.MaxFailures s.cfg.defaultThresh)
              wl ev && decide (strings.TrimSpace ev.1 ≠ []))).map
              (fun ev => FwCmd.deny (strings.TrimSpace ev.1))
      ∧ (∀ k, (mapGet (LoginServiceStrategy.ProcessEvents g s w events cfg nowStamp wl
              tnow).2.store.blockedIPs k).isSome = true
          ↔ ((mapGet w.store.blockedIPs k).isSome = true
              ∨ ∃ ev ∈ events, blockDue s.totals
                  (effectiveThreshold (s.cfg.getSpecific cfg) cfg.MaxFailures s.cfg.defaultThresh)
                  wl ev = true ∧ strings.TrimSpace ev.1 = k ∧ k ≠ []))
      ∧ (∀ a n, 0 < n → isLoopback a = false → isWhitelisted a wl = false →
          (blockDue s.totals
              (effectiveThreshold (s.cfg.getSpecific cfg) cfg.MaxFailures s.cfg.defaultThresh)
              wl (a, n) = true
            ↔ wrap64 (mapGetD s.totals a + n)
                ≥ effectiveThreshold (s.cfg.getSpecific cfg) cfg.MaxFailures s.cfg.defaultThresh)
          ∧ (minInt ≤ mapGetD s.totals a + n → mapGetD s.totals a + n ≤ maxInt →
              (blockDue s.totals
                  (effectiveThreshold (s.cfg.getSpecific cfg) cfg.MaxFailures
                    s.cfg.defaultThresh)
                  wl (a, n) = true
                ↔ mapGetD s.totals a + n
                    ≥ effectiveThreshold (s.cfg.getSpecific cfg) cfg.MaxFailures
                        s.cfg.defaultThresh)))
      ∧ (∀ a n, (isLoopback a = true ∨ isWhitelisted a wl = true) →
          blockDue s.totals
            (effectiveThreshold (s.cfg.getSpecific cfg) cfg.MaxFailures s.cfg.defaultThresh)
            wl (a, n) = false) := by
  have hst : ∀ n w, (s.cfg.incCounter n w).store = w.store := by
    intro n w
    rcases hs with h | h <;> rw [h]
    · exact IncSSHBy_store n w
    · exact IncFTPBy_store n w
  have hfw : ∀ n w, (s.cfg.incCounter n w).fw = w.fw := by
    intro n w
    rcases hs with h | h <;> rw [h]
    · exact IncSSHBy_fw n w
    · exact IncFTPBy_fw n w
  refine ⟨?_, ?_, ?_, ?_⟩
  · unfold LoginServiceStrategy.ProcessEvents
    by_cases he : events.length = 0
    · have : events = [] := List.length_eq_zero.mp he
      subst this; simp
    · simp only [he, if_false]
      exact (loginEvents_blocks g s.cfg _ nowStamp wl tnow events (s.totals, w) hst hfw hnd).1
  · unfold LoginServiceStrategy.ProcessEvents
    by_cases he : events.length = 0
    · have : events = [] := List.length_eq_zero.mp he
      subst this; simp
    · simp only [he, if_false]
      exact (loginEvents_blocks g s.cfg _ nowStamp wl tnow events (s.totals, w) hst hfw hnd).2
  · intro a n hn hl hw
    refine ⟨by simp [blockDue, hn, hl, hw], ?_⟩
    intro h1 h2
    simp [blockDue, hn, hl, hw, wrap64_of_int _ h1 h2]
  · intro a n h
    rcases h with h | h <;> simp [blockDue, h]

theorem login_ProcessEvents_blocks_iff_total_reaches_threshold_witness :
    (LoginServiceStrategy.ProcessEvents (fun _ => []) NewSSHStrategy World.init
        [("8.8.8.8".toList, 3), ("9.9.9.9".toList, 2), ("10.0.0.5".toList, 7)]
        Config.zero [] [] 0).2.fw = [FwCmd.deny "8.8.8.8".toList]
      ∧ (mapKeys [("8.8.8.8".toList, (3 : Int)), ("9.9.9.9".toList, 2),
          ("10.0.0.5".toList, 7)]).Nodup := by
  have h := login_ProcessEvents_blocks_iff_total_reaches_threshold (fun _ => []) NewSSHStrategy
    World.init [("8.8.8.8".toList, 3), ("9.9.9.9".toList, 2), ("10.0.0.5".toList, 7)]
    Config.zero [] [] 0 (Or.inl rfl) (by decide)
  refine ⟨?_, by decide⟩
  rw [h.1]
  decide

/-! ## Invariants of the reachable stores -/

theorem TrimSpace_head_not_space (k : Str) (c : Char) (h : strings.TrimSpace k = k)
    (hc : k.head? = some c) : isSpace c = false := by
  cases k with
  | nil => simp at hc
  | cons d r =>
    simp only [List.head?_cons, Option.some.injEq] at hc
    subst hc
    by_contra hcon
    have hcs : isSpace d = true := by simpa using hcon
    have h1 : (strings.TrimSpace (d :: r)).length ≤ ((d :: r).dropWhile isSpace).length := by
      rw [TrimSpace_eq_rdropWhile]
      exact (List.rdropWhile_prefix _ _).length_le
    have h2 : ((d :: r).dropWhile isSpace) = r.dropWhile isSpace := by
      simp [List.dropWhile, hcs]
    have h3 := (List.dropWhile_suffix isSpace (l := r)).length_le
    rw [h, h2] at h1
    simp only [List.length_cons] at h1
    omega

theorem TrimSpace_last_not_space (k : Str) (c : Char) (h : strings.TrimSpace k = k)
    (hc : k.getLast? = some c) : isSpace c = false := by
  have hlen1 : (strings.TrimSpace k).length ≤ (k.dropWhile isSpace).length := by
    rw [TrimSpace_eq_rdropWhile]
    exact (List.rdropWhile_prefix _ _).length_le
  have hsuf : k.dropWhile isSpace <:+ k := List.dropWhile_suffix isSpace
  have hd : k.dropWhile isSpace = k := by
    apply hsuf.sublist.eq_of_length_le
    rw [h] at hlen1
    exact hlen1
  have hr : k.rdropWhile isSpace = k := by
    have := TrimSpace_eq_rdropWhile k
    rw [h, hd] at this
    exact this.symm
  by_contra hcon
  have hcs : isSpace c = true := by simpa using hcon
  obtain ⟨init, hk⟩ : ∃ init, k = init ++ [c] := by
    rcases List.eq_nil_or_concat k with hnil | ⟨l, b, hlb⟩
    · subst hnil; simp at hc
    · subst hlb
      simp at hc
      exact ⟨l, by rw [hc]; simp⟩
  rw [hk, List.rdropWhile_concat_pos _ _ _ hcs] at hr
  have := (List.rdropWhile_prefix isSpace (l := init)).length_le
  rw [hr] at this
  simp at this

/-- C27: in every store reachable from the empty store through `AddBlocked`,
`RemoveBlocked` and `LoadBlockedFromFile`, every entry of the blocked map is
stored under a key equal to its own `IP` field; that address is non-empty,
is left unchanged by trimming, so neither its first nor its last character is
white space; and its `Strikes` is at least 1.  The keys are distinct. -/
theorem reachable_blocked_entries_well_formed (st : Store) (hr : Reachable st) :
    (mapKeys st.blockedIPs).Nodup
      ∧ ∀ k e, mapGet st.blockedIPs k = some e →
          e.IP = k ∧ k ≠ [] ∧ strings.TrimSpace k = k
            ∧ (∀ c, k.head? = some c → isSpace c = false)
            ∧ (∀ c, k.getLast? = some c → isSpace c = false)
            ∧ 1 ≤ e.Strikes := by
  have hwf := BlockedWF_of_Reachable st hr
  refine ⟨hwf.1, ?_⟩
  intro k e hk
  have h1 := hwf.2 _ (mem_of_mapGet _ _ _ hk)
  have h2 := StrikesInv_of_Reachable st hr k e hk
  exact ⟨h1.1, h2.1, h1.2, fun c hc => TrimSpace_head_not_space k c h1.2 hc,
    fun c hc => TrimSpace_last_not_space k c h1.2 hc, h2.2.2⟩

theorem reachable_blocked_entries_well_formed_witness :
    mapGet (LoadBlockedFromFile (RemoveBlocked (AddBlocked Store.empty " 1.2.3.4 ".toList 7)
        "9.9.9.9".toList) (some "5.6.7.8 \n\n1.2.3.4\n".toList) 8).blockedIPs
        "5.6.7.8".toList = some ⟨"5.6.7.8".toList, 8, 1⟩
      ∧ strings.TrimSpace "5.6.7.8".toList = "5.6.7.8".toList
      ∧ 1 ≤ (⟨"5.6.7.8".toList, 8, 1⟩ : BlockedEntry).Strikes :=
  ⟨by decide,
    ((reachable_blocked_entries_well_formed _
        (Reachable.loadBlocked (RemoveBlocked (AddBlocked Store.empty " 1.2.3.4 ".toList 7)
            "9.9.9.9".toList) (some "5.6.7.8 \n\n1.2.3.4\n".toList) 8
          (Reachable.removeBlocked _ _ (Reachable.addBlocked _ _ _ Reachable.empty)))).2
      "5.6.7.8".toList ⟨"5.6.7.8".toList, 8, 1⟩ (by decide)).2.2.1,
    ((reachable_blocked_entries_well_formed _
        (Reachable.loadBlocked (RemoveBlocked (AddBlocked Store.empty " 1.2.3.4 ".toList 7)
            "9.9.9.9".toList) (some "5.6.7.8 \n\n1.2.3.4\n".toList) 8
          (Reachable.removeBlocked _ _ (Reachable.addBlocked _ _ _ Reachable.empty)))).2
      "5.6.7.8".toList ⟨"5.6.7.8".toList, 8, 1⟩ (by decide)).2.2.2.2.2⟩

theorem AddBlocked_strikeCounts_le (st : Store) (ip : Str) (tnow : Int) (a : Str)
    (hrep : mapGetD st.strikeCounts (strings.TrimSpace ip) < maxInt) :
    mapGetD st.strikeCounts a ≤ mapGetD (AddBlocked st ip tnow).strikeCounts a := by
  have hw : ∀ h : Int, h < maxInt →
      wrap64 ((if h < 0 then 0 else h) + 1) = (if h < 0 then 0 else h) + 1 := by
    intro h hh
    exact wrap64_of_int _ (by unfold minInt; split_ifs <;> omega)
      (by unfold maxInt at *; split_ifs <;> omega)
  unfold AddBlocked
  by_cases hne : strings.TrimSpace ip = []
  · simp [hne]
  · cases hb : mapGet st.blockedIPs (strings.TrimSpace ip) with
    | some e =>
      simp only [hne, if_false, hb]
      split_ifs <;> exact le_refl _
    | none =>
      simp only [hne, if_false, hb]
      by_cases hk : strings.TrimSpace ip = a
      · subst hk
        rw [mapGetD_mapSet_self]
        simp only [hw _ hrep]
        split_ifs <;> omega
      · rw [mapGetD_mapSet_ne _ _ _ _ hk]

theorem loadLine_strikeCounts_le (tnow : Int) (st : Store) (raw : Str) (a : Str) :
    mapGetD st.strikeCounts a ≤ mapGetD (loadLine tnow st raw).strikeCounts a := by
  unfold loadLine
  by_cases hne : strings.TrimSpace raw = []
  · simp [hne]
  · simp only [hne, if_false]
    by_cases hk : strings.TrimSpace raw = a
    · subst hk
      rw [mapGetD_mapSet_self]
      split_ifs <;> omega
    · rw [mapGetD_mapSet_ne _ _ _ _ hk]

theorem foldl_loadLine_strikeCounts_le (tnow : Int) (lines : List Str) (st : Store) (a : Str) :
    mapGetD st.strikeCounts a ≤ mapGetD (lines.foldl (loadLine tnow) st).strikeCounts a := by
  induction lines generalizing st with
  | nil => exact le_refl _
  | cons l ls ih =>
    exact le_trans (loadLine_strikeCounts_le tnow st l a) (ih (loadLine tnow st l))

theorem LoadBlockedFromFile_strikeCounts_le (st : Store) (file : Option Str) (tnow : Int)
    (a : Str) :
    mapGetD st.strikeCounts a ≤ mapGetD (LoadBlockedFromFile st file tnow).strikeCounts a := by
  cases file with
  | none => exact le_refl _
  | some data => exact foldl_loadLine_strikeCounts_le tnow _ st a

/-- C29: in every store reachable from the empty store through `AddBlocked`,
`RemoveBlocked` and `LoadBlockedFromFile` the `Strikes` of each blocked entry
equals the strike-history value of its address; no operation lowers the
strike-history value of any address (in any store: `AddBlocked` keeps or
raises it as long as the history of the address it is called with is below the
largest Go `int`, so that its successor is representable, `LoadBlockedFromFile`
keeps or raises it, `RemoveBlocked` leaves the history as it is); so in a
reachable store the test `entry.Strikes <= 0` of the repair branch of
`AddBlocked` is false for every blocked address and `AddBlocked` on a blocked
address returns the store unchanged. -/
theorem reachable_strikes_equal_history_and_history_never_drops (st : Store)
    (hr : Reachable st) :
    (∀ k e, mapGet st.blockedIPs k = some e → e.Strikes = mapGetD st.strikeCounts k)
      ∧ (∀ (s : Store) (ip : Str) (tnow : Int) (a : Str),
          mapGetD s.strikeCounts (strings.TrimSpace ip) < maxInt →
          mapGetD s.strikeCounts a ≤ mapGetD (AddBlocked s ip tnow).strikeCounts a)
      ∧ (∀ (s : Store) (ip : Str), (RemoveBlocked s ip).strikeCounts = s.strikeCounts)
      ∧ (∀ (s : Store) (file : Option Str) (tnow : Int) (a : Str),
          mapGetD s.strikeCounts a ≤ mapGetD (LoadBlockedFromFile s file tnow).strikeCounts a)
      ∧ (∀ ip e tnow, mapGet st.blockedIPs (strings.TrimSpace ip) = some e →
          ¬ e.Strikes ≤ 0 ∧ AddBlocked st ip tnow = st) := by
  have hinv := StrikesInv_of_Reachable st hr
  refine ⟨fun k e hk => (hinv k e hk).2.1, AddBlocked_strikeCounts_le, fun _ _ => rfl,
    LoadBlockedFromFile_strikeCounts_le, ?_⟩
  intro ip e tnow hb
  have h := hinv _ e hb
  have hs : ¬ e.Strikes ≤ 0 := by omega
  refine ⟨hs, ?_⟩
  unfold AddBlocked
  simp [h.1, hb, hs]

theorem reachable_strikes_equal_history_and_history_never_drops_witness :
    mapGet (AddBlocked (RemoveBlocked (AddBlocked Store.empty "1.2.3.4".toList 1)
        "1.2.3.4".toList) "1.2.3.4".toList 2).blockedIPs "1.2.3.4".toList
        = some ⟨"1.2.3.4".toList, 2, 2⟩
      ∧ AddBlocked (AddBlocked (RemoveBlocked (AddBlocked Store.empty "1.2.3.4".toList 1)
          "1.2.3.4".toList) "1.2.3.4".toList 2) "1.2.3.4".toList 3
        = AddBlocked (RemoveBlocked (AddBlocked Store.empty "1.2.3.4".toList 1)
          "1.2.3.4".toList) "1.2.3.4".toList 2 :=
  ⟨by decide,
   ((reachable_strikes_equal_history_and_history_never_drops _
      (Reachable.addBlocked _ _ _ (Reachable.removeBlocked _ _
        (Reachable.addBlocked _ _ _ Reachable.empty)))).2.2.2.2
      "1.2.3.4".toList ⟨"1.2.3.4".toList, 2, 2⟩ 3 (by decide)).2⟩

/-! ## The simulator -/

theorem AddSimulated_buffer (k : SimKind) (w : World) (x : SimAdd) (a : Str) :
    mapGetD (simBuffer k (AddSimulated w x)) a
        = (if countsFor k a x = true then wrap64 (mapGetD (simBuffer k w) a + x.n)
           else mapGetD (simBuffer k w) a)
      ∧ ((mapGet (simBuffer k (AddSimulated w x)) a).isSome = true
          ↔ ((mapGet (simBuffer k w) a).isSome = true ∨ countsFor k a x = true)) := by
  obtain ⟨xk, xip, xn⟩ := x
  by_cases hskip : xn ≤ 0 ∨ xip = []
  · have hc : countsFor k a ⟨xk, xip, xn⟩ = false := by
      rcases hskip with h | h
      · have : ¬ 0 < xn := not_lt.mpr h
        simp [countsFor, this]
      · simp [countsFor, h]
    cases k <;> cases xk <;>
      simp [AddSimulated, AddSimulatedSSH, AddSimulatedFTP, AddSimulatedApache, simBuffer,
        hskip, hc]
  · have hn : 0 < xn := by
      by_contra hh; exact hskip (Or.inl (not_lt.mp hh))
    have hip : xip ≠ [] := fun hh => hskip (Or.inr hh)
    have hn' : ¬ xn ≤ 0 := not_le.mpr hn
    by_cases ha : xip = a
    · subst ha
      cases k <;> cases xk <;>
        simp [AddSimulated, AddSimulatedSSH, AddSimulatedFTP, AddSimulatedApache, simBuffer,
          hn', countsFor, hn, hip, mapGetD_mapSet_self, mapGet_mapSet_self]
    · cases k <;> cases xk <;>
        simp [AddSimulated, AddSimulatedSSH, AddSimulatedFTP, AddSimulatedApache, simBuffer,
          hn', countsFor, hn, hip, ha, mapGetD_mapSet_ne _ _ _ _ ha,
          mapGet_mapSet_ne _ _ _ _ ha]

theorem staged_cons (k : SimKind) (a : Str) (x : SimAdd) (adds : List SimAdd) :
    staged k a (x :: adds)
      = (if countsFor k a x = true then x.n else 0) + staged k a adds := by
  by_cases hc : countsFor k a x = true
  · simp [staged, List.filter_cons, hc]
  · simp [staged, List.filter_cons, hc]

theorem staged_nonneg (k : SimKind) (a : Str) (adds : List SimAdd) : 0 ≤ staged k a adds := by
  induction adds with
  | nil => simp [staged]
  | cons x adds ih =>
    rw [staged_cons]
    by_cases hc : countsFor k a x = true
    · have hn : 0 < x.n := by
        simp only [countsFor, Bool.and_eq_true, decide_eq_true_eq] at hc
        exact hc.1.1.2
      simp only [hc, if_true]; omega
    · simp only [hc]; simp only [Bool.false_eq_true, if_false]; omega

theorem foldl_AddSimulated_buffer (k : SimKind) (adds : List SimAdd) (w : World) (a : Str)
    (hin : wrap64 (mapGetD (simBuffer k w) a) = mapGetD (simBuffer k w) a) :
    mapGetD (simBuffer k (adds.foldl AddSimulated w)) a
        = wrap64 (mapGetD (simBuffer k w) a + staged k a adds)
      ∧ ((mapGet (simBuffer k (adds.foldl AddSimulated w)) a).isSome = true
          ↔ ((mapGet (simBuffer k w) a).isSome = true
              ∨ ∃ x ∈ adds, countsFor k a x = true)) := by
  induction adds generalizing w with
  | nil => simp [staged, hin]
  | cons x adds ih =>
    obtain ⟨s1, s2⟩ := AddSimulated_buffer k w x a
    have hin2 : wrap64 (mapGetD (simBuffer k (AddSimulated w x)) a)
        = mapGetD (simBuffer k (AddSimulated w x)) a := by
      rw [s1]
      by_cases hc : countsFor k a x = true
      · simp only [hc, if_true]; exact wrap64_idem _
      · simp only [hc]; simpa using hin
    obtain ⟨h1, h2⟩ := ih (AddSimulated w x) hin2
    constructor
    · simp only [List.foldl_cons]
      rw [h1, s1, staged_cons]
      by_cases hc : countsFor k a x = true
      · simp only [hc, if_true]
        rw [wrap64_wrap64_add, add_assoc]
      · simp only [hc]; simp
    · simp only [List.foldl_cons]
      rw [h2, s2]
      constructor
      · rintro ((h | h) | ⟨y, hy, hyc⟩)
        · exact Or.inl h
        · exact Or.inr ⟨x, List.mem_cons_self _ _, h⟩
        · exact Or.inr ⟨y, List.mem_cons_of_mem _ hy, hyc⟩
      · rintro (h | ⟨y, hy, hyc⟩)
        · exact Or.inl (Or.inl h)
        · rcases List.mem_cons.mp hy with hh | hh
          · subst hh; exact Or.inl (Or.inr hyc)
          · exact Or.inr ⟨y, hh, hyc⟩

theorem drainSimulated_spec (k : SimKind) (w : World) :
    (drainSimulated k w).1 = simBuffer k w ∧ simBuffer k (drainSimulated k w).2 = [] := by
  cases k <;> exact ⟨rfl, rfl⟩

/-- C22: for each simulator kind `k` and every sequence of add calls made
after a drain of `k`, the next drain of `k` returns a map that gives each
address the sum of `n` over the adds of that kind with `n > 0` and a non-empty
address, as long as that sum is representable as a Go `int` (for every
sequence it is that sum reduced to 64 bits; an address has an entry iff there
is such an add; adds with `n ≤ 0`, an empty address or another kind contribute
nothing), and leaves the buffer empty, so a drain that immediately follows
returns the empty map; a drain does not touch the buffers of the other
kinds. -/
theorem drain_returns_staged_sums_and_empties_buffer (k : SimKind) (w0 : World)
    (adds : List SimAdd) :
    (∀ a, ((adds.filter (fun x => decide (x.kind = k) && decide (0 < x.n) &&
            decide (x.ip ≠ []) && decide (x.ip = a))).map SimAdd.n).sum ≤ maxInt →
        mapGetD (drainSimulated k (adds.foldl AddSimulated (drainSimulated k w0).2)).1 a
          = ((adds.filter (fun x => decide (x.kind = k) && decide (0 < x.n) &&
              decide (x.ip ≠ []) && decide (x.ip = a))).map SimAdd.n).sum)
      ∧ (∀ a, mapGetD (drainSimulated k (adds.foldl AddSimulated (drainSimulated k w0).2)).1 a
          = wrap64 ((adds.filter (fun x => decide (x.kind = k) && decide (0 < x.n) &&
              decide (x.ip ≠ []) && decide (x.ip = a))).map SimAdd.n).sum)
      ∧ (∀ a, (mapGet (drainSimulated k
              (adds.foldl AddSimulated (drainSimulated k w0).2)).1 a).isSome = true
          ↔ ∃ x ∈ adds, x.kind = k ∧ 0 < x.n ∧ x.ip ≠ [] ∧ x.ip = a)
      ∧ simBuffer k (drainSimulated k (adds.foldl AddSimulated (drainSimulated k w0).2)).2 = []
      ∧ (drainSimulated k
          (drainSimulated k (adds.foldl AddSimulated (drainSimulated k w0).2)).2).1 = []
      ∧ (∀ (w : World) (j : SimKind), j ≠ k →
          simBuffer j (drainSimulated k w).2 = simBuffer j w) := by
  have hempty : simBuffer k (drainSimulated k w0).2 = [] := (drainSimulated_spec k w0).2
  have hin : ∀ a, wrap64 (mapGetD (simBuffer k (drainSimulated k w0).2) a)
      = mapGetD (simBuffer k (drainSimulated k w0).2) a := by
    intro a; rw [hempty]; exact (by decide : wrap64 0 = 0)
  have hval : ∀ a,
      mapGetD (drainSimulated k (adds.foldl AddSimulated (drainSimulated k w0).2)).1 a
        = wrap64 (staged k a adds) := by
    intro a
    rw [(drainSimulated_spec k _).1, (foldl_AddSimulated_buffer k adds _ a (hin a)).1, hempty]
    simp only [mapGetD, mapGet, Option.getD_none, zero_add]
  refine ⟨?_, hval, ?_, (drainSimulated_spec k _).2, ?_, ?_⟩
  · intro a hle
    rw [hval a]
    exact wrap64_of_int _ (le_trans (by decide) (staged_nonneg k a adds)) hle
  · intro a
    rw [(drainSimulated_spec k _).1, (foldl_AddSimulated_buffer k adds _ a (hin a)).2, hempty]
    simp [mapGet, countsFor, and_assoc]
  · rw [(drainSimulated_spec k _).1, (drainSimulated_spec k _).2]
  · intro w j hj
    cases k <;> cases j <;> first | exact absurd rfl hj | rfl

theorem drain_returns_staged_sums_and_empties_buffer_witness :
    mapGetD (drainSimulated SimKind.ssh
        ([⟨SimKind.ssh, "1.2.3.4".toList, 2⟩, ⟨SimKind.ftp, "1.2.3.4".toList, 7⟩,
          ⟨SimKind.ssh, [], 1⟩, ⟨SimKind.ssh, "1.2.3.4".toList, 3⟩,
          ⟨SimKind.ssh, "5.6.7.8".toList, -1⟩].foldl AddSimulated
          (drainSimulated SimKind.ssh
            (AddSimulatedSSH World.init "1.2.3.4".toList 40)).2)).1 "1.2.3.4".toList = 5 :=
  ((drain_returns_staged_sums_and_empties_buffer SimKind.ssh
      (AddSimulatedSSH World.init "1.2.3.4".toList 40)
      [⟨SimKind.ssh, "1.2.3.4".toList, 2⟩, ⟨SimKind.ftp, "1.2.3.4".toList, 7⟩,
        ⟨SimKind.ssh, [], 1⟩, ⟨SimKind.ssh, "1.2.3.4".toList, 3⟩,
        ⟨SimKind.ssh, "5.6.7.8".toList, -1⟩]).1 "1.2.3.4".toList (by decide)).trans
    (by decide)

/-! ## The whitelist -/

theorem Split_headD (raw sep : Str) (hsep : sep ≠ []) :
    (strings.Split raw sep).headD [] = upTo sep raw := by
  unfold strings.Split upTo
  cases raw with
  | nil =>
    have : strings.Cut sep [] = none := by simp [strings.Cut, hsep]
    simp [strings.splitFuel, this]
  | cons c r =>
    simp only [List.length_cons, strings.splitFuel]
    cases strings.Cut sep (c :: r) with
    | none => rfl
    | some p => rfl

theorem foldl_whitelistLine (lines : List Str) (m : GoMap Unit) (x : Str) :
    (mapGet (lines.foldl whitelistLine m) x).isSome = true
      ↔ ((mapGet m x).isSome = true
          ∨ (x ≠ [] ∧ ∃ l ∈ lines, strings.TrimSpace (upTo ['#'] l) = x)) := by
  induction lines generalizing m with
  | nil => simp
  | cons l ls ih =>
    simp only [List.foldl_cons]
    rw [ih]
    have hstep : (mapGet (whitelistLine m l) x).isSome = true
        ↔ ((mapGet m x).isSome = true ∨ (x ≠ [] ∧ strings.TrimSpace (upTo ['#'] l) = x)) := by
      unfold whitelistLine
      rw [Split_headD l ['#'] (by simp)]
      by_cases hne : strings.TrimSpace (upTo ['#'] l) = []
      · simp only [hne, if_true]
        constructor
        · exact Or.inl
        · rintro (h | ⟨h1, h2⟩)
          · exact h
          · exact absurd h2.symm h1
      · simp only [hne, if_false]
        rw [mapGet_isSome_mapSet]
        constructor
        · rintro (h | h)
          · exact Or.inl h
          · exact Or.inr ⟨by rw [← h]; exact hne, h⟩
        · rintro (h | ⟨_, h⟩)
          · exact Or.inl h
          · exact Or.inr h
    rw [hstep]
    constructor
    · rintro ((h | ⟨h1, h2⟩) | ⟨h1, y, hy, h2⟩)
      · exact Or.inl h
      · exact Or.inr ⟨h1, l, List.mem_cons_self _ _, h2⟩
      · exact Or.inr ⟨h1, y, List.mem_cons_of_mem _ hy, h2⟩
    · rintro (h | ⟨h1, y, hy, h2⟩)
      · exact Or.inl (Or.inl h)
      · rcases List.mem_cons.mp hy with hh | hh
        · subst hh; exact Or.inl (Or.inr ⟨h1, h2⟩)
        · exact Or.inr ⟨h1, y, hh, h2⟩

/-- C23: for a configured (non-empty) whitelist path and every content of the
file, the set `loadWhitelist` returns contains an address `x` iff `x` is
non-empty and some line of the file (the content split at newlines), cut at its
first `#` and trimmed, equals `x`; and `isWhitelisted(a, set)` holds iff
`trim(a)` is a member of `set`, for every set. -/
theorem loadWhitelist_contains_trimmed_uncommented_lines (path data : Str)
    (hpath : path ≠ []) :
    (∀ x, x ∈ mapKeys (loadWhitelist path (some data))
        ↔ (x ≠ [] ∧ ∃ l ∈ strings.Split data ['\n'], strings.TrimSpace (upTo ['#'] l) = x))
      ∧ (∀ (a : Str) (set : GoMap Unit),
          isWhitelisted a set = true ↔ strings.TrimSpace a ∈ mapKeys set) := by
  constructor
  · intro x
    rw [mem_mapKeys_iff]
    unfold loadWhitelist
    simp only [hpath, if_false]
    rw [foldl_whitelistLine]
    simp [mapGet]
  · intro a set
    rw [mem_mapKeys_iff]
    rfl

theorem loadWhitelist_contains_trimmed_uncommented_lines_witness :
    ("10.1.2.3".toList ∈ mapKeys (loadWhitelist "wl.txt".toList
        (some "# office\n 10.1.2.3 # gateway\n\n8.8.8.8\n".toList))
      ↔ ("10.1.2.3".toList ≠ [] ∧ ∃ l ∈ strings.Split
          "# office\n 10.1.2.3 # gateway\n\n8.8.8.8\n".toList ['\n'],
          strings.TrimSpace (upTo ['#'] l) = "10.1.2.3".toList))
      ∧ mapKeys (loadWhitelist "wl.txt".toList
          (some "# office\n 10.1.2.3 # gateway\n\n8.8.8.8\n".toList))
        = ["10.1.2.3".toList, "8.8.8.8".toList] :=
  ⟨(loadWhitelist_contains_trimmed_uncommented_lines "wl.txt".toList
      "# office\n 10.1.2.3 # gateway\n\n8.8.8.8\n".toList (by decide)).1 "10.1.2.3".toList,
    by decide⟩

/-! ## Failures of the tailer -/

/-- The failures `ReadNewLines` tests for: it returns an error, and leaves the
offset table as it is, whenever opening or stat-ing the file fails, and
whenever the seek fails (a seek is made when the path has an offset and the
size differs from it).  The error of `Read` is not tested: when the read
delivers no bytes the call returns the empty sequence with no error and
records the file size as the offset. -/
theorem ReadNewLines_reports_open_stat_seek_failures (w : World) (path : Str) (f : FileView) :
    (f.openErr = true → ReadNewLines w path f = (.error .openFailed, w))
      ∧ (f.openErr = false → f.statErr = true →
          ReadNewLines w path f = (.error .statFailed, w))
      ∧ (∀ off : Int, f.openErr = false → f.statErr = false →
          mapGet w.lastOffsets path = some off →
          (f.content.length : Int) ≠ (if (f.content.length : Int) < off then 0 else off) →
          f.seekErr = true →
          ReadNewLines w path f = (.error .seekFailed, w))
      ∧ (∀ off : Int, f.openErr = false → f.statErr = false → f.seekErr = false →
          mapGet w.lastOffsets path = some off → 0 ≤ off →
          (f.content.length : Int) ≠ (if (f.content.length : Int) < off then 0 else off) →
          f.readCap = some 0 →
          ReadNewLines w path f
            = (.ok [], { w with lastOffsets := mapSet w.lastOffsets path f.content.length })) := by
  refine ⟨?_, ?_, ?_, ?_⟩
  · intro h
    simp [ReadNewLines, h]
  · intro h1 h2
    simp [ReadNewLines, h1, h2]
  · intro off h1 h2 hoff hne hseek
    simp only [ReadNewLines, h1, h2, hoff, hseek]
    simp [hne]
  · intro off h1 h2 h3 hoff h0 hne hcap
    have hadj : ¬ (if (f.content.length : Int) < off then (0 : Int) else off) < 0 := by
      split_ifs <;> omega
    simp only [ReadNewLines, h1, h2, hoff, h3, hcap]
    simp [hne, hadj]

/-- C25 (failing input): the tailer has recorded offset 0 for the path, the
file now holds `abc` and a newline, and the read of these four bytes fails
(`Read` delivers no bytes together with its error).  `ReadNewLines` does not
report the failure: it returns the empty sequence with no error and records
offset 4, so the four bytes are never returned by a later call either. -/
theorem ReadNewLines_swallows_failed_read :
    (ReadNewLines { World.init with lastOffsets := [("f".toList, 0)] } "f".toList
        (FileView.readFails "abc\n".toList)).1 = .ok []
      ∧ mapGet (ReadNewLines { World.init with lastOffsets := [("f".toList, 0)] } "f".toList
          (FileView.readFails "abc\n".toList)).2.lastOffsets "f".toList = some 4 :=
  ⟨rfl, by decide⟩

/-! ## Which entries the Apache loop blocks -/

theorem AddBlocked_alerts (st : Store) (ip : Str) (tnow : Int) :
    (AddBlocked st ip tnow).alerts = st.alerts := by
  unfold AddBlocked
  by_cases hne : strings.TrimSpace ip = []
  · simp [hne]
  · cases hb : mapGet st.blockedIPs (strings.TrimSpace ip) with
    | some e =>
      simp only [hne, if_false, hb]
      split_ifs <;> rfl
    | none => simp only [hne, if_false, hb]

theorem BlockIP_fw (w : World) (ip : Str) :
    (BlockIP w ip).fw
      = w.fw ++ (if strings.TrimSpace ip ≠ [] then [FwCmd.deny (strings.TrimSpace ip)] else []) := by
  unfold BlockIP
  by_cases h : strings.TrimSpace ip = []
  · simp [h]
  · simp [h]

theorem apacheEvent_fw (g : Str → Str) (cfg : Config) (threshold : Int) (nowStamp : Str)
    (wl : GoMap Unit) (tnow : Int) (w : World) (ev : Str × Int) :
    (apacheEvent g cfg threshold nowStamp wl tnow w ev).fw
      = w.fw ++ (if apacheDue cfg threshold wl ev = true ∧ strings.TrimSpace ev.1 ≠ []
          then [FwCmd.deny (strings.TrimSpace ev.1)] else []) := by
  unfold apacheEvent
  by_cases hd : apacheDue cfg threshold wl ev = true
  · have hd' := hd
    unfold apacheDue at hd'
    simp only [hd', if_true, BlockIP_fw, lookupCountry_fw, hd, true_and]
  · have hd' := hd
    unfold apacheDue at hd'
    simp only [hd', if_false, lookupCountry_fw, hd, false_and, List.append_nil,
      Bool.false_eq_true]

theorem apacheEvent_isSome (g : Str → Str) (cfg : Config) (threshold : Int) (nowStamp : Str)
    (wl : GoMap Unit) (tnow : Int) (w : World) (ev : Str × Int) (k : Str) :
    (mapGet (apacheEvent g cfg threshold nowStamp wl tnow w ev).store.blockedIPs k).isSome = true
      ↔ ((mapGet w.store.blockedIPs k).isSome = true
          ∨ (apacheDue cfg threshold wl ev = true ∧ strings.TrimSpace ev.1 = k ∧ k ≠ [])) := by
  unfold apacheEvent
  by_cases hd : apacheDue cfg threshold wl ev = true
  · have hd' := hd
    unfold apacheDue at hd'
    simp only [hd', if_true]
    rw [AddBlocked_isSome]
    simp [BlockIP_store, AddLog, AddAlert, hd]
  · have hd' := hd
    unfold apacheDue at hd'
    simp only [hd', if_false, Bool.false_eq_true]
    simp [AddAlert, hd]

theorem apacheEvent_alerts (g : Str → Str) (cfg : Config) (threshold : Int) (nowStamp : Str)
    (wl : GoMap Unit) (tnow : Int) (w : World) (ev : Str × Int) :
    ∃ a : Alert, (apacheEvent g cfg threshold nowStamp wl tnow w ev).store.alerts
        = ringPush maxAlertsSize w.store.alerts a
      ∧ a.key = ("apache".toList, ev.1,
          classifySeverity "apache".toList ev.2 ev.2 threshold) := by
  refine ⟨{ Timestamp := nowStamp, Service := "apache".toList, IP := ev.1,
            Country := (lookupCountry g w ev.1).1,
            Severity := classifySeverity "apache".toList ev.2 ev.2 threshold,
            Message := fmtInt ev.2 ++ " Apache 4xx/5xx errors from ".toList ++ ev.1 ++
              " this cycle".toList }, ?_, rfl⟩
  unfold apacheEvent
  by_cases hd : apacheDue cfg threshold wl ev = true
  · have hd' := hd
    unfold apacheDue at hd'
    simp only [hd', if_true]
    rw [AddBlocked_alerts, BlockIP_store]
    simp only [AddLog, AddAlert, lookupCountry_store]
  · have hd' := hd
    unfold apacheDue at hd'
    simp only [hd', if_false, Bool.false_eq_true]
    simp only [AddAlert, lookupCountry_store]

theorem apacheEvent_noflag (g : Str → Str) (cfg : Config) (threshold : Int) (nowStamp : Str)
    (wl : GoMap Unit) (tnow : Int) (w : World) (ev : Str × Int)
    (hflag : cfg.ApacheBlockOnThreshold = false) :
    (apacheEvent g cfg threshold nowStamp wl tnow w ev).store.blockedIPs = w.store.blockedIPs
      ∧ (apacheEvent g cfg threshold nowStamp wl tnow w ev).store.strikeCounts
        = w.store.strikeCounts
      ∧ (apacheEvent g cfg threshold nowStamp wl tnow w ev).fw = w.fw := by
  unfold apacheEvent
  simp [hflag, AddAlert, lookupCountry_fw]

theorem apacheEvents_blocks (g : Str → Str) (cfg : Config) (threshold : Int) (nowStamp : Str)
    (wl : GoMap Unit) (tnow : Int) (events : GoMap Int) (w : World) :
    (events.foldl (apacheEvent g cfg threshold nowStamp wl tnow) w).fw
        = w.fw ++ (events.filter (fun ev =>
            apacheDue cfg threshold wl ev && decide (strings.TrimSpace ev.1 ≠ []))).map
              (fun ev => FwCmd.deny (strings.TrimSpace ev.1))
      ∧ (∀ k, (mapGet (events.foldl (apacheEvent g cfg threshold nowStamp wl tnow)
            w).store.blockedIPs k).isSome = true
          ↔ ((mapGet w.store.blockedIPs k).isSome = true
              ∨ ∃ ev ∈ events, apacheDue cfg threshold wl ev = true
                  ∧ strings.TrimSpace ev.1 = k ∧ k ≠ []))
      ∧ (∃ as : List Alert,
          (events.foldl (apacheEvent g cfg threshold nowStamp wl tnow) w).store.alerts
              = as.foldl (ringPush maxAlertsSize) w.store.alerts
            ∧ as.map Alert.key = events.map (fun ev => ("apache".toList, ev.1,
                classifySeverity "apache".toList ev.2 ev.2 threshold)))
      ∧ (cfg.ApacheBlockOnThreshold = false →
          (events.foldl (apacheEvent g cfg threshold nowStamp wl tnow) w).store.blockedIPs
              = w.store.blockedIPs
            ∧ (events.foldl (apacheEvent g cfg threshold nowStamp wl tnow) w).store.strikeCounts
              = w.store.strikeCounts
            ∧ (events.foldl (apacheEvent g cfg threshold nowStamp wl tnow) w).fw = w.fw) := by
  induction events generalizing w with
  | nil => exact ⟨by simp, by simp, ⟨[], rfl, rfl⟩, fun _ => ⟨rfl, rfl, rfl⟩⟩
  | cons ev rest ih =>
    obtain ⟨ih1, ih2, ⟨as, ih3, ih3'⟩, ih4⟩ := ih (apacheEvent g cfg threshold nowStamp wl tnow w ev)
    obtain ⟨a, ha, hkey⟩ := apacheEvent_alerts g cfg threshold nowStamp wl tnow w ev
    refine ⟨?_, ?_, ⟨a :: as, ?_, ?_⟩, ?_⟩
    · simp only [List.foldl_cons]
      rw [ih1, apacheEvent_fw]
      by_cases hb : apacheDue cfg threshold wl ev = true
      · by_cases hne : strings.TrimSpace ev.1 = []
        · simp [List.filter_cons, hb, hne]
        · simp [List.filter_cons, hb, hne]
      · simp [List.filter_cons, hb]
    · intro k
      simp only [List.foldl_cons]
      rw [ih2 k, apacheEvent_isSome]
      constructor
      · rintro ((h | h) | ⟨e, he, h⟩)
        · exact Or.inl h
        · exact Or.inr ⟨ev, List.mem_cons_self _ _, h⟩
        · exact Or.inr ⟨e, List.mem_cons_of_mem _ he, h⟩
      · rintro (h | ⟨e, he, h⟩)
        · exact Or.inl (Or.inl h)
        · rcases List.mem_cons.mp he with hh | hh
          · subst hh; exact Or.inl (Or.inr h)
          · exact Or.inr ⟨e, hh, h⟩
    · simp only [List.foldl_cons]
      rw [ih3, ha]
    · simp only [List.map_cons, hkey, ih3']
    · intro hflag
      obtain ⟨n1, n2, n3⟩ := apacheEvent_noflag g cfg threshold nowStamp wl tnow w ev hflag
      obtain ⟨m1, m2, m3⟩ := ih4 hflag
      simp only [List.foldl_cons]
      exact ⟨m1.trans n1, m2.trans n2, m3.trans n3⟩

theorem IncApacheBy_fw (n : Int) (w : World) : (IncApacheBy n w).fw = w.fw := by
  unfold IncApacheBy; split_ifs <;> rfl

theorem ApacheStrategy_ProcessEvents_eq (g : Str → Str) (w : World) (events : GoMap Int)
    (cfg : Config) (nowStamp : Str) (wl : GoMap Unit) (tnow : Int)
    (hnn : ∀ p ∈ events, 0 ≤ p.2) (hsum : sumCounts events ≠ 0)
    (hb : sumCounts events ≤ maxInt) :
    ApacheStrategy.ProcessEvents g w events cfg nowStamp wl tnow
      = events.foldl (apacheEvent g cfg
          (effectiveThreshold cfg.ApacheErrorThreshold cfg.MaxFailures 10) nowStamp wl tnow)
          { IncApacheBy (sumCounts events) w with
            store := AddLog (IncApacheBy (sumCounts events) w).store
              ("[APACHE] Errors detected this cycle: ".toList ++ fmtInt (sumCounts events) ++
                " (ips=".toList ++ fmtNat events.length ++ ")".toList) } := by
  unfold ApacheStrategy.ProcessEvents
  have hs : events.foldl (fun a p => wrap64 (a + p.2)) 0 = sumCounts events :=
    apacheTotal_of_bound events hnn hb
  have he : ¬ events.length = 0 := by
    intro h
    have : events = [] := List.length_eq_zero.mp h
    subst this
    exact hsum rfl
  simp only [he, if_false, hs, hsum]

/-- C21: for every event map as the Apache strategy receives it (no negative
count, since the parser and the simulator only produce counts of at least 1,
and a sum of counts that is representable as a Go `int`) whose counts do not
sum to zero, `ApacheStrategy.ProcessEvents` blocks exactly the entries
`(a, c)` for which `apache_block_on_threshold` is true, `a` is not
loopback/private, `a` is not whitelisted and `c` is at or above the effective
Apache threshold (`apacheDue`, spelled out in (3)).  The calls
`Firewall.block(a)` and `AddBlocked(a)` sit together in the block branch and
are observed by their effects: (1) the firewall commands issued are the `deny`
commands of exactly those entries (both calls do nothing for an address that
trims to empty); (2) an address is blocked after the call iff it was before or
is the trimmed address of such an entry.  (4) With the flag false the blocked
map, the strike history and the firewall trace are unchanged, while (5) one
alert per entry is appended, with the severity of its count, and (6) the
counter grows by the sum of the counts (as long as the counter, which starts
at 0, stays representable as a Go `int`), the SSH and FTP counters staying as
they are.  (7) S5: five errors from `9.9.9.9` with threshold 2 and the flag
false give counter 5, one alert of severity HIGH and an empty blocked set. -/
theorem apache_ProcessEvents_blocks_iff_flag_and_count (g : Str → Str) (w : World)
    (events : GoMap Int) (cfg : Config) (nowStamp : Str) (wl : GoMap Unit) (tnow : Int)
    (hnn : ∀ p ∈ events, 0 ≤ p.2) (hsum : sumCounts events ≠ 0)
    (hb : sumCounts events ≤ maxInt) :
    (ApacheStrategy.ProcessEvents g w events cfg nowStamp wl tnow).fw
        = w.fw ++ (events.filter (fun ev =>
            apacheDue cfg (effectiveThreshold cfg.ApacheErrorThreshold cfg.MaxFailures 10) wl ev
              && decide (strings.TrimSpace ev.1 ≠ []))).map
              (fun ev => FwCmd.deny (strings.TrimSpace ev.1))
      ∧ (∀ k, (mapGet (ApacheStrategy.ProcessEvents g w events cfg nowStamp wl
              tnow).store.blockedIPs k).isSome = true
          ↔ ((mapGet w.store.blockedIPs k).isSome = true
              ∨ ∃ ev ∈ events,
                  apacheDue cfg (effectiveThreshold cfg.ApacheErrorThreshold cfg.MaxFailures 10)
                    wl ev = true
                  ∧ strings.TrimSpace ev.1 = k ∧ k ≠ []))
      ∧ (∀ a c, apacheDue cfg (effectiveThreshold cfg.ApacheErrorThreshold cfg.MaxFailures 10)
            wl (a, c) = true
          ↔ (cfg.ApacheBlockOnThreshold = true ∧ isLoopback a = false
              ∧ isWhitelisted a wl = false
              ∧ c ≥ effectiveThreshold cfg.ApacheErrorThreshold cfg.MaxFailures 10))
      ∧ (cfg.ApacheBlockOnThreshold = false →
          (ApacheStrategy.ProcessEvents g w events cfg nowStamp wl tnow).store.blockedIPs
              = w.store.blockedIPs
            ∧ (ApacheStrategy.ProcessEvents g w events cfg nowStamp wl tnow).store.strikeCounts
              = w.store.strikeCounts
            ∧ (ApacheStrategy.ProcessEvents g w events cfg nowStamp wl tnow).fw = w.fw)
      ∧ (∃ as : List Alert,
          (ApacheStrategy.ProcessEvents g w events cfg nowStamp wl tnow).store.alerts
              = as.foldl (ringPush maxAlertsSize) w.store.alerts
            ∧ as.map Alert.key = events.map (fun ev => ("apache".toList, ev.1,
                classifySeverity "apache".toList ev.2 ev.2
                  (effectiveThreshold cfg.ApacheErrorThreshold cfg.MaxFailures 10))))
      ∧ ((0 ≤ w.apacheCount → w.apacheCount + sumCounts events ≤ maxInt →
            (ApacheStrategy.ProcessEvents g w events cfg nowStamp wl tnow).apacheCount
              = w.apacheCount + sumCounts events)
          ∧ (ApacheStrategy.ProcessEvents g w events cfg nowStamp wl tnow).sshCount = w.sshCount
          ∧ (ApacheStrategy.ProcessEvents g w events cfg nowStamp wl tnow).ftpCount
            = w.ftpCount)
      ∧ ((ApacheStrategy.ProcessEvents (fun _ => []) World.init [("9.9.9.9".toList, 5)]
              { Config.zero with ApacheErrorThreshold := 2 } [] [] 0).apacheCount = 5
          ∧ (ApacheStrategy.ProcessEvents (fun _ => []) World.init [("9.9.9.9".toList, 5)]
              { Config.zero with ApacheErrorThreshold := 2 } [] [] 0).store.alerts.map
              Alert.key = [("apache".toList, "9.9.9.9".toList, "HIGH".toList)]
          ∧ ListBlocked (ApacheStrategy.ProcessEvents (fun _ => []) World.init
              [("9.9.9.9".toList, 5)] { Config.zero with ApacheErrorThreshold := 2 }
              [] [] 0).store = []) := by
  obtain ⟨h1, h2, h3, h4⟩ := apacheEvents_blocks g cfg
    (effectiveThreshold cfg.ApacheErrorThreshold cfg.MaxFailures 10) nowStamp wl tnow events
    { IncApacheBy (sumCounts events) w with
      store := AddLog (IncApacheBy (sumCounts events) w).store
        ("[APACHE] Errors detected this cycle: ".toList ++ fmtInt (sumCounts events) ++
          " (ips=".toList ++ fmtNat events.length ++ ")".toList) }
  obtain ⟨_, c2, c3⟩ := apache_ProcessEvents_frame g w events cfg nowStamp wl tnow
  have c1 := fun hc hb2 =>
    (apache_ProcessEvents_counts g w events cfg nowStamp wl tnow hnn hc hb2).1
  rw [ApacheStrategy_ProcessEvents_eq g w events cfg nowStamp wl tnow hnn hsum hb] at *
  refine ⟨?_, ?_, ?_, ?_, ?_, ⟨c1, c2, c3⟩, by decide, by decide, by decide⟩
  · rw [h1]; simp only [IncApacheBy_fw]
  · intro k
    rw [h2 k]
    simp only [AddLog, IncApacheBy_store]
  · intro a c
    simp [apacheDue, and_assoc]
  · intro hflag
    obtain ⟨m1, m2, m3⟩ := h4 hflag
    rw [m1, m2, m3]
    simp [AddLog, IncApacheBy_store, IncApacheBy_fw]
  · obtain ⟨as, ha, hk⟩ := h3
    refine ⟨as, ?_, hk⟩
    rw [ha]
    simp only [AddLog, IncApacheBy_store]

theorem apache_ProcessEvents_blocks_iff_flag_and_count_witness :
    (ApacheStrategy.ProcessEvents (fun _ => []) World.init
        [("8.8.8.8".toList, 3), ("9.9.9.9".toList, 1), ("10.0.0.5".toList, 7)]
        { Config.zero with ApacheErrorThreshold := 2, ApacheBlockOnThreshold := true }
        [] [] 0).fw = [FwCmd.deny "8.8.8.8".toList]
      ∧ sumCounts [("8.8.8.8".toList, (3 : Int)), ("9.9.9.9".toList, 1),
          ("10.0.0.5".toList, 7)] ≠ 0 := by
  have h := apache_ProcessEvents_blocks_iff_flag_and_count (fun _ => []) World.init
    [("8.8.8.8".toList, 3), ("9.9.9.9".toList, 1), ("10.0.0.5".toList, 7)]
    { Config.zero with ApacheErrorThreshold := 2, ApacheBlockOnThreshold := true }
    [] [] 0 (by decide) (by decide) (by decide)
  refine ⟨?_, by decide⟩
  rw [h.1]
  decide

/-! ## The running totals of a login strategy -/

theorem gain_cons (a : Str) (ev : Str × Int) (rest : GoMap Int) :
    gain a (ev :: rest) = (if ev.1 = a ∧ 0 < ev.2 then ev.2 else 0) + gain a rest := by
  by_cases ha : ev.1 = a
  · by_cases h0 : 0 < ev.2
    · simp [gain, List.filter_cons, ha, h0]
    · simp [gain, List.filter_cons, ha, h0]
  · simp [gain, List.filter_cons, ha]

theorem loginEvents_totals (g : Str → Str) (sc : loginServiceConfig) (threshold : Int)
    (nowStamp : Str) (wl : GoMap Unit) (tnow : Int) (events : GoMap Int)
    (acc : GoMap Int × World) (a : Str)
    (hin : wrap64 (mapGetD acc.1 a) = mapGetD acc.1 a) :
    mapGetD (events.foldl (loginEvent g sc threshold nowStamp wl tnow) acc).1 a
      = wrap64 (mapGetD acc.1 a + gain a events) := by
  induction events generalizing acc with
  | nil => simp [gain, hin]
  | cons ev rest ih =>
    simp only [List.foldl_cons]
    have hstep := loginEvent_totals g sc threshold nowStamp wl tnow acc ev
    by_cases h0 : ev.2 ≤ 0
    · have h0' : ¬ 0 < ev.2 := not_lt.mpr h0
      have e : (loginEvent g sc threshold nowStamp wl tnow acc ev).1 = acc.1 := by
        rw [hstep]; simp [h0]
      rw [ih _ (by rw [e]; exact hin), e, gain_cons]
      simp [h0']
    · have h0' : 0 < ev.2 := not_le.mp h0
      have e : (loginEvent g sc threshold nowStamp wl tnow acc ev).1
          = mapSet acc.1 ev.1 (wrap64 (mapGetD acc.1 ev.1 + ev.2)) := by
        rw [hstep]; simp [h0]
      by_cases ha : ev.1 = a
      · subst ha
        rw [ih _ (by rw [e, mapGetD_mapSet_self]; exact wrap64_idem _), e,
          mapGetD_mapSet_self, gain_cons, wrap64_wrap64_add]
        simp [h0', add_assoc]
      · rw [ih _ (by rw [e, mapGetD_mapSet_ne _ _ _ _ ha]; exact hin), e,
          mapGetD_mapSet_ne _ _ _ _ ha, gain_cons]
        simp [ha]

theorem gain_nonneg (a : Str) (events : GoMap Int) : 0 ≤ gain a events := by
  unfold gain
  apply List.sum_nonneg
  intro x hx
  simp only [List.mem_map, List.mem_filter, Bool.and_eq_true, decide_eq_true_eq] at hx
  obtain ⟨p, ⟨_, _, hp⟩, rfl⟩ := hx
  omega

theorem login_ProcessEvents_totals (g : Str → Str) (s : LoginServiceStrategy) (w : World)
    (events : GoMap Int) (cfg : Config) (nowStamp : Str) (wl : GoMap Unit) (tnow : Int) :
    (LoginServiceStrategy.ProcessEvents g s w events cfg nowStamp wl tnow).1.cfg = s.cfg
      ∧ ∀ a, wrap64 (mapGetD s.totals a) = mapGetD s.totals a →
          mapGetD (LoginServiceStrategy.ProcessEvents g s w events cfg nowStamp wl
            tnow).1.totals a = wrap64 (mapGetD s.totals a + gain a events) := by
  unfold LoginServiceStrategy.ProcessEvents
  by_cases he : events.length = 0
  · have : events = [] := List.length_eq_zero.mp he
    subst this
    refine ⟨by simp, fun a hin => ?_⟩
    simp [gain, hin]
  · simp only [he, if_false]
    refine ⟨?_, fun a hin =>
      loginEvents_totals g s.cfg _ nowStamp wl tnow events (s.totals, w) a hin⟩
    first | rfl | trivial

theorem loginRun_totals (g : Str → Str) (calls : List LoginCall) (s : LoginServiceStrategy)
    (a : Str) :
    (loginRun g s calls).cfg = s.cfg
      ∧ (wrap64 (mapGetD s.totals a) = mapGetD s.totals a →
          mapGetD (loginRun g s calls).totals a
            = wrap64 (mapGetD s.totals a + (calls.map (fun c => gain a c.events)).sum)) := by
  induction calls generalizing s with
  | nil => exact ⟨rfl, fun hin => by simp [loginRun, hin]⟩
  | cons c cs ih =>
    obtain ⟨h1, h2⟩ := login_ProcessEvents_totals g s c.w c.events c.cfg c.nowStamp c.whitelist
      c.tnow
    obtain ⟨i1, i2⟩ := ih (LoginServiceStrategy.ProcessEvents g s c.w c.events c.cfg c.nowStamp
      c.whitelist c.tnow).1
    simp only [loginRun, List.map_cons, List.sum_cons]
    refine ⟨i1.trans h1, fun hin => ?_⟩
    rw [i2 (by rw [h2 a hin]; exact wrap64_idem _), h2 a hin, wrap64_wrap64_add, add_assoc]

theorem sum_gain_nonneg (a : Str) (calls : List LoginCall) :
    0 ≤ (calls.map (fun c => gain a c.events)).sum := by
  apply List.sum_nonneg
  intro x hx
  simp only [List.mem_map] at hx
  obtain ⟨c, _, rfl⟩ := hx
  exact gain_nonneg a c.events

theorem loginRun_totals_of_bound (g : Str → Str) (calls : List LoginCall)
    (s : LoginServiceStrategy) (a : Str) (hlo : minInt ≤ mapGetD s.totals a)
    (hhi : mapGetD s.totals a + (calls.map (fun c => gain a c.events)).sum ≤ maxInt) :
    mapGetD (loginRun g s calls).totals a
      = mapGetD s.totals a + (calls.map (fun c => gain a c.events)).sum := by
  have hnn := sum_gain_nonneg a calls
  rw [(loginRun_totals g calls s a).2 (wrap64_of_int _ hlo (by omega))]
  exact wrap64_of_int _ (by omega) hhi

/-- C28: for every sequence of `ProcessEvents` calls on one login strategy
instance (SSH or FTP), whatever the state of the store and the firewall at each
call, (1) the running total of an address after the calls is its total before
them plus the sum of its positive new counts over all the calls, as long as
that sum is representable as a Go `int` (for every sequence it is that sum
reduced to 64 bits), so for a fresh instance it is the sum of the counts;
(2) no call lowers a total, whatever was blocked or unblocked in between;
(3) hence, in any later call whose event map (with distinct keys, as in a Go
map) holds the address with a new count > 0, if the address is not exempt, its
total before the call has reached the threshold of that call and the total
with the new count is still representable, the call issues the firewall `deny`
command for it again and the address is blocked after the call
(`Firewall.block` and `AddBlocked` are called in the same branch; the address
is taken to trim to a non-empty text, otherwise both calls do nothing). -/
theorem login_totals_accumulate_and_retrigger_block (g : Str → Str)
    (s : LoginServiceStrategy) (calls : List LoginCall) (c : LoginCall) (a : Str) (n : Int)
    (hs : s.cfg.incCounter = IncSSHBy ∨ s.cfg.incCounter = IncFTPBy)
    (hnd : (mapKeys c.events).Nodup)
    (hmem : (a, n) ∈ c.events) (hn : 0 < n)
    (hex : isLoopback a = false ∧ isWhitelisted a c.whitelist = false)
    (hne : strings.TrimSpace a ≠ []) :
    (∀ b, minInt ≤ mapGetD s.totals b →
        mapGetD s.totals b + (calls.map (fun x => gain b x.events)).sum ≤ maxInt →
        mapGetD (loginRun g s calls).totals b
          = mapGetD s.totals b + (calls.map (fun x => gain b x.events)).sum)
      ∧ (∀ b, minInt ≤ mapGetD s.totals b → mapGetD s.totals b ≤ maxInt →
          mapGetD (loginRun g s calls).totals b
            = wrap64 (mapGetD s.totals b + (calls.map (fun x => gain b x.events)).sum))
      ∧ (∀ b, (calls.map (fun x => gain b x.events)).sum ≤ maxInt →
          mapGetD (loginRun g NewSSHStrategy calls).totals b
            = (calls.map (fun x => gain b x.events)).sum)
      ∧ (∀ b, (calls.map (fun x => gain b x.events)).sum ≤ maxInt →
          mapGetD (loginRun g NewFTPStrategy calls).totals b
            = (calls.map (fun x => gain b x.events)).sum)
      ∧ (∀ b, minInt ≤ mapGetD s.totals b →
          mapGetD s.totals b + (calls.map (fun x => gain b x.events)).sum ≤ maxInt →
          mapGetD s.totals b ≤ mapGetD (loginRun g s calls).totals b)
      ∧ (mapGetD (loginRun g s calls).totals a
            ≥ effectiveThreshold ((loginRun g s calls).cfg.getSpecific c.cfg) c.cfg.MaxFailures
                (loginRun g s calls).cfg.defaultThresh →
          minInt ≤ mapGetD (loginRun g s calls).totals a →
          mapGetD (loginRun g s calls).totals a + n ≤ maxInt →
          FwCmd.deny (strings.TrimSpace a)
              ∈ ((LoginServiceStrategy.ProcessEvents g (loginRun g s calls) c.w c.events c.cfg
                  c.nowStamp c.whitelist c.tnow).2.fw.drop c.w.fw.length)
            ∧ (mapGet (LoginServiceStrategy.ProcessEvents g (loginRun g s calls) c.w c.events
                c.cfg c.nowStamp c.whitelist c.tnow).2.store.blockedIPs
                (strings.TrimSpace a)).isSome = true) := by
  have hcfg : (loginRun g s calls).cfg = s.cfg := (loginRun_totals g calls s a).1
  refine ⟨fun b h1 h2 => loginRun_totals_of_bound g calls s b h1 h2,
    fun b h1 h2 => (loginRun_totals g calls s b).2 (wrap64_of_int _ h1 h2), ?_, ?_, ?_, ?_⟩
  · intro b hb
    have h := loginRun_totals_of_bound g calls NewSSHStrategy b (show minInt ≤ 0 by decide)
      (by simpa [NewSSHStrategy, mapGetD, mapGet] using hb)
    rw [h]
    simp [NewSSHStrategy, mapGetD, mapGet]
  · intro b hb
    have h := loginRun_totals_of_bound g calls NewFTPStrategy b (show minInt ≤ 0 by decide)
      (by simpa [NewFTPStrategy, mapGetD, mapGet] using hb)
    rw [h]
    simp [NewFTPStrategy, mapGetD, mapGet]
  · intro b h1 h2
    rw [loginRun_totals_of_bound g calls s b h1 h2]
    have := sum_gain_nonneg b calls
    omega
  · intro hth hlo hhi
    have hst : ∀ n w, ((loginRun g s calls).cfg.incCounter n w).store = w.store := by
      intro n w
      rw [hcfg]
      rcases hs with h | h <;> rw [h]
      · exact IncSSHBy_store n w
      · exact IncFTPBy_store n w
    have hfw : ∀ n w, ((loginRun g s calls).cfg.incCounter n w).fw = w.fw := by
      intro n w
      rw [hcfg]
      rcases hs with h | h <;> rw [h]
      · exact IncSSHBy_fw n w
      · exact IncFTPBy_fw n w
    have hne0 : ¬ c.events.length = 0 := by
      intro h0
      have : c.events = [] := List.length_eq_zero.mp h0
      rw [this] at hmem
      cases hmem
    have hdue : blockDue (loginRun g s calls).totals
        (effectiveThreshold ((loginRun g s calls).cfg.getSpecific c.cfg) c.cfg.MaxFailures
          (loginRun g s calls).cfg.defaultThresh) c.whitelist (a, n) = true := by
      have hw : wrap64 (mapGetD (loginRun g s calls).totals a + n)
          = mapGetD (loginRun g s calls).totals a + n :=
        wrap64_of_int _ (by omega) hhi
      have h3 : effectiveThreshold ((loginRun g s calls).cfg.getSpecific c.cfg) c.cfg.MaxFailures
          (loginRun g s calls).cfg.defaultThresh
            ≤ wrap64 (mapGetD (loginRun g s calls).totals a + n) := by
        rw [hw]; omega
      simp [blockDue, hn, hex.1, hex.2, h3]
    obtain ⟨b1, b2⟩ := loginEvents_blocks g (loginRun g s calls).cfg
      (effectiveThreshold ((loginRun g s calls).cfg.getSpecific c.cfg) c.cfg.MaxFailures
        (loginRun g s calls).cfg.defaultThresh) c.nowStamp c.whitelist c.tnow c.events
      ((loginRun g s calls).totals, c.w) hst hfw hnd
    unfold LoginServiceStrategy.ProcessEvents
    simp only [hne0, if_false]
    constructor
    · rw [b1, List.drop_left]
      apply List.mem_map.mpr
      refine ⟨(a, n), ?_, rfl⟩
      apply List.mem_filter.mpr
      exact ⟨hmem, by simp [hdue, hne]⟩
    · exact (b2 _).mpr (Or.inr ⟨(a, n), hmem, hdue, rfl, hne⟩)

theorem login_totals_accumulate_and_retrigger_block_witness :
    mapGetD (loginRun (fun _ => []) NewSSHStrategy
        [⟨World.init, [("8.8.8.8".toList, 2)], Config.zero, [], [], 0⟩,
         ⟨World.init, [("8.8.8.8".toList, 1), ("9.9.9.9".toList, 1)], Config.zero, [], [],
           1⟩]).totals "8.8.8.8".toList = 3
      ∧ FwCmd.deny "8.8.8.8".toList
          ∈ (LoginServiceStrategy.ProcessEvents (fun _ => [])
              (loginRun (fun _ => []) NewSSHStrategy
                [⟨World.init, [("8.8.8.8".toList, 2)], Config.zero, [], [], 0⟩,
                 ⟨World.init, [("8.8.8.8".toList, 1), ("9.9.9.9".toList, 1)], Config.zero, [],
                   [], 1⟩])
              World.init [("8.8.8.8".toList, 1)] Config.zero [] [] 2).2.fw := by
  have h := login_totals_accumulate_and_retrigger_block (fun _ => []) NewSSHStrategy
    [⟨World.init, [("8.8.8.8".toList, 2)], Config.zero, [], [], 0⟩,
     ⟨World.init, [("8.8.8.8".toList, 1), ("9.9.9.9".toList, 1)], Config.zero, [], [], 1⟩]
    ⟨World.init, [("8.8.8.8".toList, 1)], Config.zero, [], [], 2⟩ "8.8.8.8".toList 1
    (Or.inl rfl) (by decide) (by decide) (by decide) (by decide) (by decide)
  refine ⟨(h.1 _ (by decide) (by decide)).trans (by decide), ?_⟩
  have h5 := (h.2.2.2.2.2 (by decide) (by decide) (by decide)).1
  simpa using h5

/-! ## The severity of the alert of a blocking iteration -/

theorem ringPush_getLast {α : Type} (cap : Nat) (buf : List α) (x : α) (hcap : 0 < cap) :
    (ringPush cap buf x).getLast? = some x := by
  unfold ringPush
  by_cases h : (buf ++ [x]).length > cap
  · simp only [h, if_true]
    have hlen : (buf ++ [x]).length - cap < (buf ++ [x]).length := by omega
    rw [List.getLast?_drop]
    simp only [List.length_append, List.length_singleton] at h hlen ⊢
    have : ¬ (buf.length + 1 ≤ buf.length + 1 - cap) := by omega
    simp [this]
  · simp only [h, if_false]
    simp

theorem classifySeverity_HIGH_of_new (service : Str) (n total threshold : Int)
    (hn : 0 < n) (ht : total ≥ threshold) :
    classifySeverity service n total threshold = "HIGH".toList := by
  unfold classifySeverity
  by_cases h : threshold ≤ 0
  · have : n ≥ 1 := by omega
    simp [h, this]
  · simp [h, ht]

theorem classifySeverity_HIGH_of_count (service : Str) (c threshold : Int)
    (h1 : 1 ≤ threshold) (hc : c ≥ threshold) :
    classifySeverity service c c threshold = "HIGH".toList := by
  unfold classifySeverity
  have h : ¬ threshold ≤ 0 := by omega
  simp [h, hc]

theorem effectiveThreshold_pos (specific global fallback : Int) (h : 1 ≤ fallback) :
    1 ≤ effectiveThreshold specific global fallback := by
  unfold effectiveThreshold
  split_ifs <;> omega

theorem loginEvent_changed (g : Str → Str) (sc : loginServiceConfig) (threshold : Int)
    (nowStamp : Str) (wl : GoMap Unit) (tnow : Int) (acc : GoMap Int × World) (ev : Str × Int)
    (hst : ∀ n w, (sc.incCounter n w).store = w.store)
    (hfw : ∀ n w, (sc.incCounter n w).fw = w.fw)
    (hch : (loginEvent g sc threshold nowStamp wl tnow acc ev).2.fw ≠ acc.2.fw
      ∨ (loginEvent g sc threshold nowStamp wl tnow acc ev).2.store.blockedIPs
          ≠ acc.2.store.blockedIPs) :
    blockDue acc.1 threshold wl ev = true := by
  by_contra hdue
  unfold blockDue at hdue
  unfold loginEvent at hch
  by_cases h0 : ev.2 ≤ 0
  · simp [h0] at hch
  · by_cases hex : (isLoopback ev.1 || isWhitelisted ev.1 wl) = true
    · simp [h0, hex, AddLog, AddAlert, hst, hfw, lookupCountry_fw] at hch
    · by_cases hth : wrap64 (mapGetD acc.1 ev.1 + ev.2) ≥ threshold
      · have h0' : 0 < ev.2 := not_le.mp h0
        have hth' : threshold ≤ wrap64 (mapGetD acc.1 ev.1 + ev.2) := hth
        simp [h0', hex, hth'] at hdue
      · simp [h0, hex, hth, AddLog, AddAlert, hst, hfw, lookupCountry_fw] at hch

theorem loginEvent_block_alert (g : Str → Str) (sc : loginServiceConfig) (threshold : Int)
    (nowStamp : Str) (wl : GoMap Unit) (tnow : Int) (acc : GoMap Int × World) (ev : Str × Int)
    (hdue : blockDue acc.1 threshold wl ev = true) :
    ∃ a : Alert, (loginEvent g sc threshold nowStamp wl tnow acc ev).2.store.alerts.getLast?
        = some a ∧ a.key = (sc.name, ev.1, "HIGH".toList) := by
  unfold blockDue at hdue
  simp only [Bool.and_eq_true, decide_eq_true_eq, Bool.not_eq_true', Bool.or_eq_false_iff]
    at hdue
  obtain ⟨⟨h0', hl, hw⟩, hth'⟩ := hdue
  have h0 : ¬ ev.2 ≤ 0 := not_le.mpr h0'
  have hth : wrap64 (mapGetD acc.1 ev.1 + ev.2) ≥ threshold := hth'
  have hex : ¬ (isLoopback ev.1 || isWhitelisted ev.1 wl) = true := by simp [hl, hw]
  have hsev := classifySeverity_HIGH_of_new sc.name ev.2 (wrap64 (mapGetD acc.1 ev.1 + ev.2)) threshold
    h0' hth
  refine ⟨{ Timestamp := nowStamp, Service := sc.name, IP := ev.1,
            Country := (lookupCountry g
              { sc.incCounter ev.2 acc.2 with
                store := AddLog (sc.incCounter ev.2 acc.2).store
                  (logPrefix sc.name ++ " ".toList ++ fmtInt ev.2 ++
                    " new failed logins from ".toList ++ ev.1 ++ " (total=".toList ++
                    fmtInt (wrap64 (mapGetD acc.1 ev.1 + ev.2)) ++ ")".toList) } ev.1).1,
            Severity := classifySeverity sc.name ev.2 (wrap64 (mapGetD acc.1 ev.1 + ev.2)) threshold,
            Message := fmtInt ev.2 ++ " new ".toList ++ strings.ToUpper sc.name ++
              " failed logins from ".toList ++ ev.1 ++ " (total=".toList ++
              fmtInt (wrap64 (mapGetD acc.1 ev.1 + ev.2)) ++ ")".toList }, ?_, ?_⟩
  · unfold loginEvent
    simp only [h0, hex, hth, if_true, if_false, Bool.false_eq_true]
    rw [AddBlocked_alerts, BlockIP_store]
    simp only [AddLog, AddAlert]
    exact ringPush_getLast _ _ _ (by decide)
  · simp only [Alert.key, hsev]

theorem apacheEvent_changed (g : Str → Str) (cfg : Config) (threshold : Int) (nowStamp : Str)
    (wl : GoMap Unit) (tnow : Int) (w : World) (ev : Str × Int)
    (hch : (apacheEvent g cfg threshold nowStamp wl tnow w ev).fw ≠ w.fw
      ∨ (apacheEvent g cfg threshold nowStamp wl tnow w ev).store.blockedIPs
          ≠ w.store.blockedIPs) :
    apacheDue cfg threshold wl ev = true := by
  by_contra hdue
  have hd' := hdue
  unfold apacheDue at hd'
  unfold apacheEvent at hch
  simp only [hd', if_false, Bool.false_eq_true] at hch
  simp [AddAlert, lookupCountry_fw] at hch

theorem apacheEvent_block_alert (g : Str → Str) (cfg : Config) (threshold : Int)
    (nowStamp : Str) (wl : GoMap Unit) (tnow : Int) (w : World) (ev : Str × Int)
    (h1 : 1 ≤ threshold) (hdue : apacheDue cfg threshold wl ev = true) :
    ∃ a : Alert, (apacheEvent g cfg threshold nowStamp wl tnow w ev).store.alerts.getLast?
        = some a ∧ a.key = ("apache".toList, ev.1, "HIGH".toList) := by
  obtain ⟨a, ha, hkey⟩ := apacheEvent_alerts g cfg threshold nowStamp wl tnow w ev
  have hc : ev.2 ≥ threshold := by
    unfold apacheDue at hdue
    simp only [Bool.and_eq_true, decide_eq_true_eq] at hdue
    exact hdue.2
  refine ⟨a, ?_, ?_⟩
  · rw [ha]; exact ringPush_getLast _ _ _ (by decide)
  · rw [hkey, classifySeverity_HIGH_of_count _ _ _ h1 hc]

/-- C30: for every configuration, event map and whitelist, whenever an
iteration of the loop of `LoginServiceStrategy.ProcessEvents` (SSH or FTP) or
of `ApacheStrategy.ProcessEvents` blocks the address of its entry, the alert
that iteration appends is for that address and has severity HIGH.  The call is
split at an arbitrary entry `ev` of the event map, `events = pre ++ ev :: post`:
(1, 5) the call runs through the state after `pre`, the iteration of `ev` and
then `post` (the Apache call when the total of the counts it computes, a Go
`int` sum, is not zero: otherwise it returns at once); (2, 6) if the iteration issues a firewall command or changes the
blocked map, its block condition held; (3, 7) when the block condition holds,
the newest alert after the iteration carries the service, the address of `ev`
and severity HIGH.  The block test and the classification use the same
threshold, which (4, 8) is at least 1 for the SSH, FTP and Apache strategies. -/
theorem blocking_iteration_appends_HIGH_alert (g : Str → Str) (s : LoginServiceStrategy)
    (w : World) (events pre post : GoMap Int) (ev : Str × Int) (cfg : Config)
    (nowStamp : Str) (wl : GoMap Unit) (tnow : Int)
    (hs : s.cfg.incCounter = IncSSHBy ∨ s.cfg.incCounter = IncFTPBy)
    (hev : events = pre ++ ev :: post) :
    (LoginServiceStrategy.ProcessEvents g s w events cfg nowStamp wl tnow).2
        = (post.foldl (loginEvent g s.cfg (loginThreshold s cfg) nowStamp wl tnow)
            (loginEvent g s.cfg (loginThreshold s cfg) nowStamp wl tnow
              (loginLoopAfter g s w cfg nowStamp wl tnow pre) ev)).2
      ∧ (((loginEvent g s.cfg (loginThreshold s cfg) nowStamp wl tnow
              (loginLoopAfter g s w cfg nowStamp wl tnow pre) ev).2.fw
            ≠ (loginLoopAfter g s w cfg nowStamp wl tnow pre).2.fw
          ∨ (loginEvent g s.cfg (loginThreshold s cfg) nowStamp wl tnow
              (loginLoopAfter g s w cfg nowStamp wl tnow pre) ev).2.store.blockedIPs
            ≠ (loginLoopAfter g s w cfg nowStamp wl tnow pre).2.store.blockedIPs) →
          blockDue (loginLoopAfter g s w cfg nowStamp wl tnow pre).1 (loginThreshold s cfg)
            wl ev = true)
      ∧ (blockDue (loginLoopAfter g s w cfg nowStamp wl tnow pre).1 (loginThreshold s cfg)
            wl ev = true →
          ∃ a : Alert, (loginEvent g s.cfg (loginThreshold s cfg) nowStamp wl tnow
              (loginLoopAfter g s w cfg nowStamp wl tnow pre) ev).2.store.alerts.getLast?
              = some a ∧ a.key = (s.cfg.name, ev.1, "HIGH".toList))
      ∧ (1 ≤ loginThreshold NewSSHStrategy cfg ∧ 1 ≤ loginThreshold NewFTPStrategy cfg)
      ∧ (events.foldl (fun a p => wrap64 (a + p.2)) 0 ≠ 0 →
          ApacheStrategy.ProcessEvents g w events cfg nowStamp wl tnow
            = post.foldl (apacheEvent g cfg (apacheThreshold cfg) nowStamp wl tnow)
                (apacheEvent g cfg (apacheThreshold cfg) nowStamp wl tnow
                  (apacheLoopAfter g w events cfg nowStamp wl tnow pre) ev))
      ∧ (((apacheEvent g cfg (apacheThreshold cfg) nowStamp wl tnow
              (apacheLoopAfter g w events cfg nowStamp wl tnow pre) ev).fw
            ≠ (apacheLoopAfter g w events cfg nowStamp wl tnow pre).fw
          ∨ (apacheEvent g cfg (apacheThreshold cfg) nowStamp wl tnow
              (apacheLoopAfter g w events cfg nowStamp wl tnow pre) ev).store.blockedIPs
            ≠ (apacheLoopAfter g w events cfg nowStamp wl tnow pre).store.blockedIPs) →
          apacheDue cfg (apacheThreshold cfg) wl ev = true)
      ∧ (apacheDue cfg (apacheThreshold cfg) wl ev = true →
          ∃ a : Alert, (apacheEvent g cfg (apacheThreshold cfg) nowStamp wl tnow
              (apacheLoopAfter g w events cfg nowStamp wl tnow pre) ev).store.alerts.getLast?
              = some a ∧ a.key = ("apache".toList, ev.1, "HIGH".toList))
      ∧ 1 ≤ apacheThreshold cfg := by
  have hst : ∀ n w, (s.cfg.incCounter n w).store = w.store := by
    intro n w
    rcases hs with h | h <;> rw [h]
    · exact IncSSHBy_store n w
    · exact IncFTPBy_store n w
  have hfw : ∀ n w, (s.cfg.incCounter n w).fw = w.fw := by
    intro n w
    rcases hs with h | h <;> rw [h]
    · exact IncSSHBy_fw n w
    · exact IncFTPBy_fw n w
  have hne : ¬ events.length = 0 := by
    rw [hev]; simp
  have hA : 1 ≤ apacheThreshold cfg := effectiveThreshold_pos _ _ _ (by decide)
  refine ⟨?_, ?_, ?_, ⟨?_, ?_⟩, ?_, ?_, ?_, hA⟩
  · unfold LoginServiceStrategy.ProcessEvents
    simp only [hne, if_false]
    rw [hev, List.foldl_append, List.foldl_cons]
    rfl
  · exact loginEvent_changed g s.cfg _ nowStamp wl tnow _ ev hst hfw
  · exact loginEvent_block_alert g s.cfg _ nowStamp wl tnow _ ev
  · exact effectiveThreshold_pos _ _ _ (by decide)
  · exact effectiveThreshold_pos _ _ _ (by decide)
  · intro hs1
    unfold ApacheStrategy.ProcessEvents
    simp only [hne, if_false, hs1]
    conv_lhs => rw [hev, List.foldl_append, List.foldl_cons]
    unfold apacheLoopAfter apacheThreshold
    rw [hev]
  · exact apacheEvent_changed g cfg _ nowStamp wl tnow _ ev
  · exact apacheEvent_block_alert g cfg _ nowStamp wl tnow _ ev hA

theorem blocking_iteration_appends_HIGH_alert_witness :
    (∃ a : Alert, (loginEvent (fun _ => []) NewSSHStrategy.cfg
          (loginThreshold NewSSHStrategy Config.zero) [] [] 0
          (loginLoopAfter (fun _ => []) NewSSHStrategy World.init Config.zero [] [] 0
            [("9.9.9.9".toList, 1)]) ("8.8.8.8".toList, 3)).2.store.alerts.getLast? = some a
        ∧ a.key = ("ssh".toList, "8.8.8.8".toList, "HIGH".toList))
      ∧ ((LoginServiceStrategy.ProcessEvents (fun _ => []) NewSSHStrategy World.init
          [("9.9.9.9".toList, 1), ("8.8.8.8".toList, 3)] Config.zero [] [] 0).2.store.alerts.map
          Alert.key
        = [("ssh".toList, "9.9.9.9".toList, "LOW".toList),
           ("ssh".toList, "8.8.8.8".toList, "HIGH".toList)]) :=
  ⟨(blocking_iteration_appends_HIGH_alert (fun _ => []) NewSSHStrategy World.init
      [("9.9.9.9".toList, 1), ("8.8.8.8".toList, 3)] [("9.9.9.9".toList, 1)] []
      ("8.8.8.8".toList, 3) Config.zero [] [] 0 (Or.inl rfl) rfl).2.2.1 (by decide),
    by decide⟩

/-! ## The shared SSH/FTP log -/

theorem ReadNewLines_frame (w : World) (path : Str) (f : FileView) :
    (ReadNewLines w path f).2.simSSHFails = w.simSSHFails
      ∧ (ReadNewLines w path f).2.simFTPFails = w.simFTPFails
      ∧ (ReadNewLines w path f).2.simApacheErr = w.simApacheErr
      ∧ (ReadNewLines w path f).2.store = w.store
      ∧ (ReadNewLines w path f).2.fw = w.fw := by
  unfold ReadNewLines
  cases mapGet w.lastOffsets path with
  | none => split_ifs <;> exact ⟨rfl, rfl, rfl, rfl, rfl⟩
  | some off => simp only; split_ifs <;> exact ⟨rfl, rfl, rfl, rfl, rfl⟩

theorem mapGetD_of_not_mem (d : GoMap Int) (a : Str) (h : a ∉ mapKeys d) : mapGetD d a = 0 := by
  have hs : (mapGet d a).isSome = false := by
    cases hh : (mapGet d a).isSome
    · rfl
    · exact absurd ((mem_mapKeys_iff d a).mpr hh) h
  unfold mapGetD
  cases hg : mapGet d a with
  | none => rfl
  | some v => rw [hg] at hs; cases hs

theorem mergeCounts_cons (m : GoMap Int) (q : Str × Int) (rest : GoMap Int) :
    mergeCounts m (q :: rest)
      = mergeCounts (mapSet m q.1 (wrap64 (mapGetD m q.1 + q.2))) rest := rfl

theorem mergeCounts_get_wrap (d : GoMap Int) (m : GoMap Int) (a : Str)
    (hnd : (mapKeys d).Nodup) :
    mapGetD (mergeCounts m d) a
      = if a ∈ mapKeys d then wrap64 (mapGetD m a + mapGetD d a) else mapGetD m a := by
  induction d generalizing m with
  | nil => simp [mergeCounts, mapKeys]
  | cons p rest ih =>
    obtain ⟨k, v⟩ := p
    have hkeys : mapKeys ((k, v) :: rest) = k :: mapKeys rest := rfl
    rw [hkeys, List.nodup_cons] at hnd
    rw [mergeCounts_cons, ih _ hnd.2, hkeys]
    by_cases hk : k = a
    · subst hk
      have h1 : mapGetD ((k, v) :: rest) k = v := by simp [mapGetD, mapGet]
      simp only [hnd.1, if_false, List.mem_cons, true_or, if_true, mapGetD_mapSet_self, h1]
    · have hk2 : ¬ a = k := fun h => hk h.symm
      have h1 : mapGetD ((k, v) :: rest) a = mapGetD rest a := by simp [mapGetD, mapGet, hk]
      simp only [List.mem_cons, hk2, false_or, mapGetD_mapSet_ne _ _ _ _ hk, h1]

theorem mergeCounts_get (d : GoMap Int) (m : GoMap Int) (a : Str) (hnd : (mapKeys d).Nodup)
    (hlo : minInt ≤ mapGetD m a + mapGetD d a) (hhi : mapGetD m a + mapGetD d a ≤ maxInt) :
    mapGetD (mergeCounts m d) a = mapGetD m a + mapGetD d a := by
  rw [mergeCounts_get_wrap d m a hnd]
  by_cases h : a ∈ mapKeys d
  · simp only [h, if_true]; exact wrap64_of_int _ hlo hhi
  · simp only [h, if_false]; rw [mapGetD_of_not_mem d a h]; simp

theorem readSSHAndFTP_shared (w : World) (cfg : Config) (fSSH fFTP : FileView)
    (hpath : cfg.SSHLogPath = cfg.FTPLogPath) :
    readSSHAndFTP w cfg fSSH fFTP
      = match parseSSHFailuresFromLines (linesOf (ReadNewLines w cfg.SSHLogPath fSSH).1),
            parseFTPFailuresFromLines (linesOf (ReadNewLines w cfg.SSHLogPath fSSH).1) with
        | some s, some f =>
          (some (mergeCounts s (ReadNewLines w cfg.SSHLogPath fSSH).2.simSSHFails,
                 mergeCounts f (ReadNewLines w cfg.SSHLogPath fSSH).2.simFTPFails),
            { (ReadNewLines w cfg.SSHLogPath fSSH).2 with simSSHFails := [], simFTPFails := [] })
        | _, _ => (none, (ReadNewLines w cfg.SSHLogPath fSSH).2) := by
  unfold readSSHAndFTP
  rw [if_pos hpath]
  generalize ReadNewLines w cfg.SSHLogPath fSSH = R
  obtain ⟨res, W⟩ := R
  cases res with
  | error e =>
    simp only [linesOf]
    cases parseSSHFailuresFromLines [] with
    | none => rfl
    | some s =>
      cases parseFTPFailuresFromLines [] with
      | none => rfl
      | some f => rfl
  | ok ls =>
    simp only [linesOf]
    cases parseSSHFailuresFromLines ls with
    | none => rfl
    | some s =>
      cases parseFTPFailuresFromLines ls with
      | none => rfl
      | some f => rfl

/-- C24 (amended): when `ssh_log_path` equals `ftp_log_path`, `readSSHAndFTP`
makes one tailer read of that path (the offset table after the call is the one
that single `ReadNewLines` leaves, and the view of the FTP file is not looked
at) and hands its line sequence `L` (empty on an error) to both parsers; its
results are `parseSSHFailuresFromLines(L)` and `parseFTPFailuresFromLines(L)`,
each merged with the drained simulator map of its kind, which adds the two
counts of every address (as Go `int`s: the sum of the integers whenever that
is representable); both simulator buffers are emptied.  When the read returns
the lines `l1`, `l2` and the empty rest after the last newline, `l1` contains
`sshd` and `Failed password` but not both `vsftpd` and `authentication
failure`, `l2` contains `vsftpd` and `authentication failure` but not both
`sshd` and `Failed password`, `extractIP` finds the non-empty addresses `A` in
`l1` and `B` in `l2`, and nothing is staged in the simulator, the SSH map is
`A ↦ 1` and the FTP map is `B ↦ 1`. -/
theorem shared_log_read_once_feeds_both_parsers (w : World) (cfg : Config)
    (fSSH fFTP : FileView) (hpath : cfg.SSHLogPath = cfg.FTPLogPath) :
    (readSSHAndFTP w cfg fSSH fFTP).1
        = (parseSSHFailuresFromLines (linesOf (ReadNewLines w cfg.SSHLogPath fSSH).1)).bind
            (fun s => (parseFTPFailuresFromLines
                (linesOf (ReadNewLines w cfg.SSHLogPath fSSH).1)).map
              (fun f => (mergeCounts s w.simSSHFails, mergeCounts f w.simFTPFails)))
      ∧ (readSSHAndFTP w cfg fSSH fFTP).2.lastOffsets
          = (ReadNewLines w cfg.SSHLogPath fSSH).2.lastOffsets
      ∧ (∀ fOther : FileView, readSSHAndFTP w cfg fSSH fOther = readSSHAndFTP w cfg fSSH fFTP)
      ∧ ((readSSHAndFTP w cfg fSSH fFTP).1.isSome = true →
          (readSSHAndFTP w cfg fSSH fFTP).2.simSSHFails = []
            ∧ (readSSHAndFTP w cfg fSSH fFTP).2.simFTPFails = [])
      ∧ (∀ (m d : GoMap Int) (a : Str), (mapKeys d).Nodup →
          mapGetD (mergeCounts m d) a
              = (if a ∈ mapKeys d then wrap64 (mapGetD m a + mapGetD d a) else mapGetD m a)
            ∧ (minInt ≤ mapGetD m a + mapGetD d a → mapGetD m a + mapGetD d a ≤ maxInt →
                mapGetD (mergeCounts m d) a = mapGetD m a + mapGetD d a))
      ∧ (∀ l1 l2 A B : Str,
          (ReadNewLines w cfg.SSHLogPath fSSH).1 = .ok [l1, l2, []] →
          strings.Contains (strings.TrimSpace l1) "sshd".toList = true →
          strings.Contains (strings.TrimSpace l1) "Failed password".toList = true →
          (strings.Contains (strings.TrimSpace l1) "vsftpd".toList
            && strings.Contains (strings.TrimSpace l1) "authentication failure".toList)
              = false →
          extractIP (strings.TrimSpace l1) = some A → A ≠ [] →
          strings.Contains (strings.TrimSpace l2) "vsftpd".toList = true →
          strings.Contains (strings.TrimSpace l2) "authentication failure".toList = true →
          (strings.Contains (strings.TrimSpace l2) "sshd".toList
            && strings.Contains (strings.TrimSpace l2) "Failed password".toList) = false →
          extractIP (strings.TrimSpace l2) = some B → B ≠ [] →
          w.simSSHFails = [] → w.simFTPFails = [] →
          (readSSHAndFTP w cfg fSSH fFTP).1 = some ([(A, 1)], [(B, 1)])) := by
  obtain ⟨f1, f2, _, _, _⟩ := ReadNewLines_frame w cfg.SSHLogPath fSSH
  have hmain : (readSSHAndFTP w cfg fSSH fFTP).1
      = (parseSSHFailuresFromLines (linesOf (ReadNewLines w cfg.SSHLogPath fSSH).1)).bind
          (fun s => (parseFTPFailuresFromLines
              (linesOf (ReadNewLines w cfg.SSHLogPath fSSH).1)).map
            (fun f => (mergeCounts s w.simSSHFails, mergeCounts f w.simFTPFails))) := by
    rw [readSSHAndFTP_shared w cfg fSSH fFTP hpath, f1, f2]
    cases parseSSHFailuresFromLines (linesOf (ReadNewLines w cfg.SSHLogPath fSSH).1) with
    | none => rfl
    | some s =>
      cases parseFTPFailuresFromLines (linesOf (ReadNewLines w cfg.SSHLogPath fSSH).1) with
      | none => rfl
      | some f => rfl
  refine ⟨hmain, ?_, ?_, ?_,
    fun m d a hnd => ⟨mergeCounts_get_wrap d m a hnd, mergeCounts_get d m a hnd⟩, ?_⟩
  · rw [readSSHAndFTP_shared w cfg fSSH fFTP hpath]
    cases parseSSHFailuresFromLines (linesOf (ReadNewLines w cfg.SSHLogPath fSSH).1) with
    | none => rfl
    | some s =>
      cases parseFTPFailuresFromLines (linesOf (ReadNewLines w cfg.SSHLogPath fSSH).1) with
      | none => rfl
      | some f => rfl
  · intro fOther
    rw [readSSHAndFTP_shared w cfg fSSH fFTP hpath, readSSHAndFTP_shared w cfg fSSH fOther hpath]
  · rw [readSSHAndFTP_shared w cfg fSSH fFTP hpath]
    cases parseSSHFailuresFromLines (linesOf (ReadNewLines w cfg.SSHLogPath fSSH).1) with
    | none => intro h; cases h
    | some s =>
      cases parseFTPFailuresFromLines (linesOf (ReadNewLines w cfg.SSHLogPath fSSH).1) with
      | none => intro h; cases h
      | some f => intro _; exact ⟨rfl, rfl⟩
  · intro l1 l2 A B hread c1 c2 n1 x1 hA d1 d2 n2 x2 hB hsim1 hsim2
    rw [hmain, hread, hsim1, hsim2]
    have hsE : sshVerdict [] = .skip := by decide
    have hfE : ftpVerdict [] = .skip := by decide
    have hs1 : sshVerdict l1 = .count A := by
      unfold sshVerdict
      simp only [c1, c2, Bool.and_self, if_true, x1, hA, if_false]
    have hf1 : ftpVerdict l1 = .skip := by
      unfold ftpVerdict
      simp only [n1, Bool.false_eq_true, if_false]
    have hs2 : sshVerdict l2 = .skip := by
      unfold sshVerdict
      simp only [n2, Bool.false_eq_true, if_false]
    have hf2 : ftpVerdict l2 = .count B := by
      unfold ftpVerdict
      simp only [d1, d2, Bool.and_self, if_true, x2, hB, if_false]
    have hS : parseSSHFailuresFromLines [l1, l2, []] = some [(A, 1)] := by
      simp only [parseSSHFailuresFromLines, List.foldlM_cons, List.foldlM_nil,
        sshLine_eq_verdict, hs1, hs2, hsE, applyVerdict]
      rfl
    have hF : parseFTPFailuresFromLines [l1, l2, []] = some [(B, 1)] := by
      simp only [parseFTPFailuresFromLines, List.foldlM_cons, List.foldlM_nil,
        ftpLine_eq_verdict, hf1, hf2, hfE, applyVerdict]
      rfl
    simp only [linesOf, hS, hF]
    rfl

theorem shared_log_read_once_feeds_both_parsers_witness :
    (readSSHAndFTP { World.init with lastOffsets := [("auth.log".toList, 0)] }
        { Config.zero with SSHLogPath := "auth.log".toList, FTPLogPath := "auth.log".toList }
        (FileView.ok ("sshd[7]: Failed password for root rhost=203.0.113.7\n" ++
          "vsftpd: authentication failure; rhost=198.51.100.9\n").toList)
        (FileView.ok [])).1
      = some ([("203.0.113.7".toList, 1)], [("198.51.100.9".toList, 1)]) :=
  (shared_log_read_once_feeds_both_parsers
      { World.init with lastOffsets := [("auth.log".toList, 0)] }
      { Config.zero with SSHLogPath := "auth.log".toList, FTPLogPath := "auth.log".toList }
      (FileView.ok ("sshd[7]: Failed password for root rhost=203.0.113.7\n" ++
          "vsftpd: authentication failure; rhost=198.51.100.9\n").toList)
      (FileView.ok []) rfl).2.2.2.2.2
    "sshd[7]: Failed password for root rhost=203.0.113.7".toList
    "vsftpd: authentication failure; rhost=198.51.100.9".toList
    "203.0.113.7".toList "198.51.100.9".toList
    rfl (by decide) (by decide) (by decide) (by decide) (by decide)
    (by decide) (by decide) (by decide) (by decide) (by decide) rfl rfl

/-- C24 (counterexample): the shared log holds the two new lines
`sshd[7]: Failed password for vsftpd authentication failure rhost=203.0.113.7`
and `vsftpd: authentication failure; rhost=198.51.100.9`.  The first is an
`sshd … Failed password … rhost=A` line, the second a
`vsftpd … authentication failure … rhost=B` line; the first also holds the
texts `vsftpd` and `authentication failure` (in the login name, which the
peer chooses), so the FTP parser counts it too: the SSH map is `A ↦ 1` and the
FTP map is `A ↦ 1, B ↦ 1`, not `B ↦ 1`. -/
theorem shared_log_sshd_line_counted_as_ftp_failure :
    (strings.Contains
          "sshd[7]: Failed password for vsftpd authentication failure rhost=203.0.113.7".toList
          "sshd".toList = true
        ∧ strings.Contains
          "sshd[7]: Failed password for vsftpd authentication failure rhost=203.0.113.7".toList
          "Failed password".toList = true
        ∧ extractIP
          "sshd[7]: Failed password for vsftpd authentication failure rhost=203.0.113.7".toList
          = some "203.0.113.7".toList)
      ∧ (readSSHAndFTP { World.init with lastOffsets := [("auth.log".toList, 0)] }
          { Config.zero with SSHLogPath := "auth.log".toList, FTPLogPath := "auth.log".toList }
          (FileView.ok
            ("sshd[7]: Failed password for vsftpd authentication failure rhost=203.0.113.7\n"
              ++ "vsftpd: authentication failure; rhost=198.51.100.9\n").toList)
          (FileView.ok [])).1
        = some ([("203.0.113.7".toList, 1)],
            [("203.0.113.7".toList, 1), ("198.51.100.9".toList, 1)])
      ∧ ([("203.0.113.7".toList, (1 : Int)), ("198.51.100.9".toList, 1)]
          ≠ [("198.51.100.9".toList, 1)]) := by
  refine ⟨by decide, ?_, by decide⟩
  set_option maxRecDepth 20000 in decide

/-! ## The lock discipline -/

/-- C26 (amended): (1) no operation of the store or of the counters invokes
the firewall or calls the network, so the store lock is never held across
either; (2) every operation other than `LoadBlockedFromFile` and
`SaveBlockedToFile` does no file input/output while it holds `storeMu`, and
these two do: the first reads the file and the second writes it between
locking `storeMu` and releasing it; (3) every operation has released
`storeMu` and `countersMu` when it returns; (4) the counter operations lock
`countersMu` only, never `storeMu`, and the store operations lock `storeMu`
only: the counters are guarded by a lock of their own. -/
theorem store_lock_held_across_file_access_only_in_load_and_save (op : Op) :
    whileHeld .storeMu Effect.isOutside false op.effects = false
      ∧ (whileHeld .storeMu Effect.isFile false op.effects = true
          ↔ (op = .LoadBlockedFromFile ∨ op = .SaveBlockedToFile))
      ∧ (heldAfter .storeMu false op.effects = false
          ∧ heldAfter .countersMu false op.effects = false)
      ∧ (op.onCounters = true →
          ∀ m ∈ locksTaken op.effects, m = Mutex.countersMu)
      ∧ (op.onCounters = false → locksTaken op.effects = [Mutex.storeMu]) := by
  cases op with
  | IncSSHBy n =>
    by_cases h : n ≤ 0 <;>
      simp [Op.effects, h, whileHeld, heldAfter, locksTaken, Op.onCounters]
  | IncFTPBy n =>
    by_cases h : n ≤ 0 <;>
      simp [Op.effects, h, whileHeld, heldAfter, locksTaken, Op.onCounters]
  | IncApacheBy n =>
    by_cases h : n ≤ 0 <;>
      simp [Op.effects, h, whileHeld, heldAfter, locksTaken, Op.onCounters]
  | _ => simp [Op.effects, whileHeld, heldAfter, locksTaken, Op.onCounters, Effect.isFile,
      Effect.isOutside]

theorem store_lock_held_across_file_access_only_in_load_and_save_witness :
    whileHeld .storeMu Effect.isOutside false Op.SaveBlockedToFile.effects = false
      ∧ heldAfter .storeMu false Op.SaveBlockedToFile.effects = false
      ∧ locksTaken (Op.IncSSHBy 3).effects = [Mutex.countersMu] :=
  ⟨(store_lock_held_across_file_access_only_in_load_and_save Op.SaveBlockedToFile).1,
    (store_lock_held_across_file_access_only_in_load_and_save Op.SaveBlockedToFile).2.2.1.1,
    by decide⟩

/-- C26 (counterexample): `LoadBlockedFromFile` reads the file and
`SaveBlockedToFile` writes it while `storeMu` is held, and the counter
operations lock `countersMu`, not the store lock. -/
theorem store_lock_is_held_across_file_read_and_write :
    whileHeld .storeMu Effect.isFile false Op.LoadBlockedFromFile.effects = true
      ∧ whileHeld .storeMu Effect.isFile false Op.SaveBlockedToFile.effects = true
      ∧ locksTaken (Op.IncApacheBy 1).effects = [Mutex.countersMu]
      ∧ locksTaken Op.GetSSHCount.effects = [Mutex.countersMu]
      ∧ Mutex.storeMu ∉ locksTaken Op.GetSSHCount.effects := by
  decide

/-! ## The counts of the event maps -/

theorem mapGetD_nonneg_of_PosCounts (m : GoMap Int) (k : Str) (h : PosCounts m) :
    0 ≤ mapGetD m k := by
  unfold mapGetD
  cases hg : mapGet m k with
  | none => simp
  | some v =>
    have := (h.2 _ (mem_of_mapGet m k v hg)).2
    simp only [Option.getD_some]
    omega

theorem PosCounts_mapSet_add (m : GoMap Int) (k : Str) (n : Int) (h : PosCounts m)
    (hk : k ≠ []) (hn : 0 < n) : PosCounts (mapSet m k (mapGetD m k + n)) := by
  refine ⟨nodup_mapSet m k _ h.1, ?_⟩
  intro p hp
  rcases mem_mapSet m k _ p hp with heq | hmem
  · subst heq
    have := mapGetD_nonneg_of_PosCounts m k h
    exact ⟨hk, by simp only; omega⟩
  · exact h.2 p hmem

theorem PosCounts_mapSet_wrap (m : GoMap Int) (k : Str) (n : Int) (h : PosCounts m)
    (hk : k ≠ []) (hn : 0 < n) (hb : mapGetD m k + n ≤ maxInt) :
    PosCounts (mapSet m k (wrap64 (mapGetD m k + n))) := by
  have h0 := mapGetD_nonneg_of_PosCounts m k h
  rw [wrap64_of_int _ (by unfold minInt; omega) hb]
  exact PosCounts_mapSet_add m k n h hk hn

theorem mapGetD_le_sumCounts (m : GoMap Int) (k : Str) (h : ∀ p ∈ m, 0 ≤ p.2) :
    mapGetD m k ≤ sumCounts m := by
  induction m with
  | nil => simp [mapGetD, mapGet, sumCounts]
  | cons p rest ih =>
    obtain ⟨k2, v⟩ := p
    have hv : 0 ≤ v := h (k2, v) (List.mem_cons_self _ _)
    have hrest := ih (fun q hq => h q (List.mem_cons_of_mem _ hq))
    have hr0 : 0 ≤ sumCounts rest :=
      sumCounts_nonneg rest (fun q hq => h q (List.mem_cons_of_mem _ hq))
    rw [sumCounts_cons]
    by_cases hk : k2 = k
    · have : mapGetD ((k2, v) :: rest) k = v := by simp [mapGetD, mapGet, hk]
      rw [this]; simp only; omega
    · have : mapGetD ((k2, v) :: rest) k = mapGetD rest k := by simp [mapGetD, mapGet, hk]
      rw [this]; simp only; omega

theorem PosCounts_nil : PosCounts [] := by
  refine ⟨by simp [mapKeys], ?_⟩
  intro p hp
  cases hp

theorem PosCounts_mergeCounts (d m : GoMap Int) (hm : PosCounts m) (hd : PosCounts d)
    (hb : ∀ p ∈ d, mapGetD m p.1 + p.2 ≤ maxInt) : PosCounts (mergeCounts m d) := by
  induction d generalizing m with
  | nil => exact hm
  | cons q rest ih =>
    have hq := hd.2 q (List.mem_cons_self _ _)
    have hkeys : mapKeys (q :: rest) = q.1 :: mapKeys rest := rfl
    have hnd := hd.1
    rw [hkeys, List.nodup_cons] at hnd
    rw [mergeCounts_cons]
    refine ih _ (PosCounts_mapSet_wrap m q.1 q.2 hm hq.1 (by omega)
      (hb q (List.mem_cons_self _ _))) ⟨hnd.2, fun p hp => hd.2 p (List.mem_cons_of_mem _ hp)⟩ ?_
    intro p hp
    have hne : q.1 ≠ p.1 := by
      intro heq
      apply hnd.1
      rw [heq]
      exact List.mem_map_of_mem Prod.fst hp
    rw [mapGetD_mapSet_ne _ _ _ _ hne]
    exact hb p (List.mem_cons_of_mem _ hp)

theorem PosCounts_mergeCounts_of_lines (d m : GoMap Int) (N L : Int) (hm : PosCounts m)
    (hd : PosCounts d) (hs : sumCounts m ≤ L) (hL : L ≤ N)
    (hb : ∀ p ∈ d, p.2 + N ≤ maxInt) : PosCounts (mergeCounts m d) := by
  apply PosCounts_mergeCounts d m hm hd
  intro p hp
  have h1 := mapGetD_le_sumCounts m p.1 (fun q hq => by have := (hm.2 q hq).2; omega)
  have h2 := hb p hp
  omega

theorem foldlM_verdict_PosCounts (v : Str → Verdict)
    (hv : ∀ l a, v l = .count a → a ≠ []) (lines : List Str) (m0 m : GoMap Int)
    (h0 : PosCounts m0)
    (h : lines.foldlM (fun m raw => applyVerdict m (v raw)) m0 = some m) :
    PosCounts m ∧ sumCounts m ≤ sumCounts m0 + lines.length := by
  induction lines generalizing m0 with
  | nil =>
    have : m0 = m := by simpa using h
    subst this
    exact ⟨h0, by simp⟩
  | cons l ls ih =>
    cases hvl : v l with
    | abort =>
      have : (l :: ls).foldlM (fun m raw => applyVerdict m (v raw)) m0 = none :=
        foldlM_verdict_abort v (l :: ls) m0 ⟨l, List.mem_cons_self _ _, hvl⟩
      rw [this] at h
      cases h
    | skip =>
      have step : (l :: ls).foldlM (fun m raw => applyVerdict m (v raw)) m0
          = ls.foldlM (fun m raw => applyVerdict m (v raw)) m0 := by
        rw [List.foldlM_cons]; simp only [hvl]; rfl
      rw [step] at h
      obtain ⟨i1, i2⟩ := ih m0 h0 h
      refine ⟨i1, ?_⟩
      simp only [List.length_cons, Nat.cast_add, Nat.cast_one]
      omega
    | count ip =>
      have step : (l :: ls).foldlM (fun m raw => applyVerdict m (v raw)) m0
          = ls.foldlM (fun m raw => applyVerdict m (v raw)) (bump m0 ip) := by
        rw [List.foldlM_cons]; simp only [hvl]; rfl
      rw [step] at h
      have hb : PosCounts (bump m0 ip) :=
        PosCounts_mapSet_add m0 ip 1 h0 (hv l ip hvl) (by decide)
      obtain ⟨i1, i2⟩ := ih (bump m0 ip) hb h
      refine ⟨i1, ?_⟩
      rw [sumCounts_bump] at i2
      simp only [List.length_cons, Nat.cast_add, Nat.cast_one]
      omega

theorem foldlM_verdict_isSome (v : Str → Verdict) (lines : List Str) (m0 : GoMap Int)
    (h : ∀ l ∈ lines, v l ≠ .abort) :
    ∃ m, lines.foldlM (fun m raw => applyVerdict m (v raw)) m0 = some m := by
  obtain ⟨m, hm, _⟩ := foldlM_verdict_some v lines m0 h
  exact ⟨m, hm⟩

theorem sshVerdict_count_ne (raw a : Str) (h : sshVerdict raw = .count a) : a ≠ [] := by
  unfold sshVerdict at h
  simp only at h
  split_ifs at h with hc
  cases he : extractIP (strings.TrimSpace raw) with
  | none => rw [he] at h; cases h
  | some ip =>
    rw [he] at h
    simp only at h
    split_ifs at h with hip
    cases h
    exact hip

theorem ftpVerdict_count_ne (raw a : Str) (h : ftpVerdict raw = .count a) : a ≠ [] := by
  unfold ftpVerdict at h
  simp only at h
  split_ifs at h with hc
  cases he : extractIP (strings.TrimSpace raw) with
  | none => rw [he] at h; cases h
  | some ip =>
    rw [he] at h
    simp only at h
    split_ifs at h with hip
    cases h
    exact hip

theorem apacheVerdict_count_ne (raw a : Str) (h : apacheVerdict raw = .count a) : a ≠ [] := by
  unfold apacheVerdict firstToken at h
  simp only at h
  split_ifs at h with hc
  · cases hF : strings.Fields (strings.TrimSpace raw) with
    | nil => rw [hF] at h; cases h
    | cons f fs =>
      rw [hF] at h
      simp only [List.head?_cons] at h
      split_ifs at h with hd
      · cases he : extractIP (strings.TrimSpace raw) with
        | none => rw [he] at h; cases h
        | some ip =>
          rw [he] at h
          simp only at h
          split_ifs at h with hip
          · injection h with h1
            rw [← h1]; decide
          · injection h with h1
            rw [← h1]; exact hip
      · injection h with h1
        rw [← h1]
        exact (Fields_fields (strings.TrimSpace raw) f (by rw [hF]; exact List.mem_cons_self _ _)).1

theorem parser_loops_as_verdict_folds :
    sshLine = (fun m raw => applyVerdict m (sshVerdict raw))
      ∧ ftpLine = (fun m raw => applyVerdict m (ftpVerdict raw))
      ∧ apacheLine = (fun m raw => applyVerdict m (apacheVerdict raw)) :=
  ⟨by funext m raw; exact sshLine_eq_verdict m raw,
   by funext m raw; exact ftpLine_eq_verdict m raw,
   by funext m raw; exact apacheLine_eq_verdict m raw⟩

theorem parsers_read_then_fold (w : World) (path : Str) (f : FileView) :
    parseSSHFailures w path f
        = (parseSSHFailuresFromLines (linesOf (ReadNewLines w path f).1),
            (ReadNewLines w path f).2)
      ∧ parseFTPFailures w path f
        = (parseFTPFailuresFromLines (linesOf (ReadNewLines w path f).1),
            (ReadNewLines w path f).2)
      ∧ parseApacheErrors w path f
        = ((linesOf (ReadNewLines w path f).1).foldlM apacheLine [],
            (ReadNewLines w path f).2) := by
  unfold parseSSHFailures parseFTPFailures parseApacheErrors
  generalize ReadNewLines w path f = R
  obtain ⟨res, W⟩ := R
  cases res with
  | error e => exact ⟨rfl, rfl, rfl⟩
  | ok ls =>
    cases ls with
    | nil => exact ⟨rfl, rfl, rfl⟩
    | cons l rest => exact ⟨rfl, rfl, rfl⟩

theorem SimOK_AddSimulated (w : World) (x : SimAdd) (h : SimOK w)
    (hb : mapGetD (simBuffer x.kind w) x.ip + x.n ≤ maxInt) : SimOK (AddSimulated w x) := by
  obtain ⟨xk, xip, xn⟩ := x
  obtain ⟨h1, h2, h3⟩ := h
  by_cases hskip : xn ≤ 0 ∨ xip = []
  · cases xk <;>
      simp only [AddSimulated, AddSimulatedSSH, AddSimulatedFTP, AddSimulatedApache, hskip,
        if_true] <;> exact ⟨h1, h2, h3⟩
  · have hn : 0 < xn := by
      by_contra hh; exact hskip (Or.inl (not_lt.mp hh))
    have hip : xip ≠ [] := fun hh => hskip (Or.inr hh)
    cases xk <;>
      simp only [AddSimulated, AddSimulatedSSH, AddSimulatedFTP, AddSimulatedApache, hskip,
        if_false]
    · exact ⟨PosCounts_mapSet_wrap _ _ _ h1 hip hn hb, h2, h3⟩
    · exact ⟨h1, PosCounts_mapSet_wrap _ _ _ h2 hip hn hb, h3⟩
    · exact ⟨h1, h2, PosCounts_mapSet_wrap _ _ _ h3 hip hn hb⟩

theorem SimOK_drainSimulated (k : SimKind) (w : World) (h : SimOK w) :
    PosCounts (drainSimulated k w).1 ∧ SimOK (drainSimulated k w).2 := by
  obtain ⟨h1, h2, h3⟩ := h
  cases k
  · exact ⟨h1, PosCounts_nil, h2, h3⟩
  · exact ⟨h2, h1, PosCounts_nil, h3⟩
  · exact ⟨h3, h1, h2, PosCounts_nil⟩

theorem readSSHAndFTP_split (w : World) (cfg : Config) (fSSH fFTP : FileView)
    (hne : ¬ cfg.SSHLogPath = cfg.FTPLogPath) :
    readSSHAndFTP w cfg fSSH fFTP
      = match parseSSHFailuresFromLines (linesOf (ReadNewLines w cfg.SSHLogPath fSSH).1),
            parseFTPFailuresFromLines (linesOf
              (ReadNewLines (ReadNewLines w cfg.SSHLogPath fSSH).2 cfg.FTPLogPath fFTP).1) with
        | some s, some f =>
          (some (mergeCounts s
                  (ReadNewLines (ReadNewLines w cfg.SSHLogPath fSSH).2 cfg.FTPLogPath
                    fFTP).2.simSSHFails,
                 mergeCounts f
                  (ReadNewLines (ReadNewLines w cfg.SSHLogPath fSSH).2 cfg.FTPLogPath
                    fFTP).2.simFTPFails),
            { (ReadNewLines (ReadNewLines w cfg.SSHLogPath fSSH).2 cfg.FTPLogPath fFTP).2 with
              simSSHFails := [], simFTPFails := [] })
        | _, _ =>
          (none, (ReadNewLines (ReadNewLines w cfg.SSHLogPath fSSH).2 cfg.FTPLogPath fFTP).2) := by
  unfold readSSHAndFTP
  rw [if_neg hne]
  rw [(parsers_read_then_fold w cfg.SSHLogPath fSSH).1]
  simp only
  rw [(parsers_read_then_fold (ReadNewLines w cfg.SSHLogPath fSSH).2 cfg.FTPLogPath fFTP).2.1]
  simp only
  cases parseSSHFailuresFromLines (linesOf (ReadNewLines w cfg.SSHLogPath fSSH).1) with
  | none => rfl
  | some s =>
    cases parseFTPFailuresFromLines (linesOf
        (ReadNewLines (ReadNewLines w cfg.SSHLogPath fSSH).2 cfg.FTPLogPath fFTP).1) with
    | none => rfl
    | some f => rfl

theorem parse_PosCounts (lines : List Str) :
    (∀ m, parseSSHFailuresFromLines lines = some m →
        PosCounts m ∧ sumCounts m ≤ lines.length)
      ∧ (∀ m, parseFTPFailuresFromLines lines = some m →
        PosCounts m ∧ sumCounts m ≤ lines.length)
      ∧ (∀ m, lines.foldlM apacheLine [] = some m →
        PosCounts m ∧ sumCounts m ≤ lines.length) := by
  obtain ⟨e1, e2, e3⟩ := parser_loops_as_verdict_folds
  have hz : sumCounts ([] : GoMap Int) = 0 := rfl
  refine ⟨?_, ?_, ?_⟩
  · intro m hm
    rw [parseSSHFailuresFromLines, e1] at hm
    have := foldlM_verdict_PosCounts sshVerdict sshVerdict_count_ne lines [] m PosCounts_nil hm
    rw [hz] at this
    exact ⟨this.1, by omega⟩
  · intro m hm
    rw [parseFTPFailuresFromLines, e2] at hm
    have := foldlM_verdict_PosCounts ftpVerdict ftpVerdict_count_ne lines [] m PosCounts_nil hm
    rw [hz] at this
    exact ⟨this.1, by omega⟩
  · intro m hm
    rw [e3] at hm
    have := foldlM_verdict_PosCounts apacheVerdict apacheVerdict_count_ne lines [] m
      PosCounts_nil hm
    rw [hz] at this
    exact ⟨this.1, by omega⟩

theorem readSSHAndFTP_PosCounts (w : World) (cfg : Config) (fSSH fFTP : FileView)
    (s f : GoMap Int) (N : Int) (hw : SimOK w)
    (hN1 : ((linesOf (ReadNewLines w cfg.SSHLogPath fSSH).1).length : Int) ≤ N)
    (hN2 : ((linesOf (ReadNewLines (ReadNewLines w cfg.SSHLogPath fSSH).2 cfg.FTPLogPath
      fFTP).1).length : Int) ≤ N)
    (hbS : ∀ p ∈ w.simSSHFails, p.2 + N ≤ maxInt)
    (hbF : ∀ p ∈ w.simFTPFails, p.2 + N ≤ maxInt)
    (h : (readSSHAndFTP w cfg fSSH fFTP).1 = some (s, f)) :
    PosCounts s ∧ PosCounts f := by
  obtain ⟨a1, a2, _, _, _⟩ := ReadNewLines_frame w cfg.SSHLogPath fSSH
  by_cases hp : cfg.SSHLogPath = cfg.FTPLogPath
  · rw [readSSHAndFTP_shared w cfg fSSH fFTP hp, a1, a2] at h
    cases hS : parseSSHFailuresFromLines (linesOf (ReadNewLines w cfg.SSHLogPath fSSH).1) with
    | none => rw [hS] at h; cases h
    | some ps =>
      cases hF : parseFTPFailuresFromLines (linesOf (ReadNewLines w cfg.SSHLogPath fSSH).1) with
      | none => rw [hS, hF] at h; cases h
      | some pf =>
        rw [hS, hF] at h
        simp only [Option.some.injEq, Prod.mk.injEq] at h
        rw [← h.1, ← h.2]
        exact ⟨PosCounts_mergeCounts_of_lines _ _ N _ ((parse_PosCounts _).1 ps hS).1 hw.1
            ((parse_PosCounts _).1 ps hS).2 hN1 hbS,
          PosCounts_mergeCounts_of_lines _ _ N _ ((parse_PosCounts _).2.1 pf hF).1 hw.2.1
            ((parse_PosCounts _).2.1 pf hF).2 hN1 hbF⟩
  · obtain ⟨b1, b2, _, _, _⟩ := ReadNewLines_frame (ReadNewLines w cfg.SSHLogPath fSSH).2
      cfg.FTPLogPath fFTP
    rw [readSSHAndFTP_split w cfg fSSH fFTP hp, b1, b2, a1, a2] at h
    cases hS : parseSSHFailuresFromLines (linesOf (ReadNewLines w cfg.SSHLogPath fSSH).1) with
    | none => rw [hS] at h; cases h
    | some ps =>
      cases hF : parseFTPFailuresFromLines (linesOf
          (ReadNewLines (ReadNewLines w cfg.SSHLogPath fSSH).2 cfg.FTPLogPath fFTP).1) with
      | none => rw [hS, hF] at h; cases h
      | some pf =>
        rw [hS, hF] at h
        simp only [Option.some.injEq, Prod.mk.injEq] at h
        rw [← h.1, ← h.2]
        exact ⟨PosCounts_mergeCounts_of_lines _ _ N _ ((parse_PosCounts _).1 ps hS).1 hw.1
            ((parse_PosCounts _).1 ps hS).2 hN1 hbS,
          PosCounts_mergeCounts_of_lines _ _ N _ ((parse_PosCounts _).2.1 pf hF).1 hw.2.1
            ((parse_PosCounts _).2.1 pf hF).2 hN2 hbF⟩

theorem readApache_PosCounts (w : World) (cfg : Config) (f : FileView) (m : GoMap Int)
    (N : Int) (hw : SimOK w)
    (hN : ((linesOf (ReadNewLines w cfg.ApacheAccessLogPath f).1).length : Int) ≤ N)
    (hb : ∀ p ∈ w.simApacheErr, p.2 + N ≤ maxInt)
    (h : (readApache w cfg f).1 = some m) : PosCounts m := by
  obtain ⟨_, _, a3, _, _⟩ := ReadNewLines_frame w cfg.ApacheAccessLogPath f
  unfold readApache at h
  rw [(parsers_read_then_fold w cfg.ApacheAccessLogPath f).2.2] at h
  cases hA : (linesOf (ReadNewLines w cfg.ApacheAccessLogPath f).1).foldlM apacheLine [] with
  | none => rw [hA] at h; cases h
  | some pa =>
    rw [hA] at h
    simp only [drainSimulatedApache, a3, Option.some.injEq] at h
    rw [← h]
    exact PosCounts_mergeCounts_of_lines _ _ N _ ((parse_PosCounts _).2.2 pa hA).1 hw.2.2
      ((parse_PosCounts _).2.2 pa hA).2 hN hb

/-- C31: for every sequence of lines, every map produced by
`parseSSHFailuresFromLines`, by `parseFTPFailuresFromLines` or by the loop of
the Apache parser has distinct keys, every key a non-empty string and every
count at least 1, and its counts sum to at most the number of input lines
(1–3); `parseApacheErrors` runs that loop on the lines the tailer returns (4);
a map is produced whenever address extraction aborts on no line (5–7).  The
simulator buffers hold only non-empty addresses with counts > 0: this holds at
process start and is kept by every drain and by every add whose sum with the
count already staged for its address is representable as a Go `int` (8).  So
the event maps that `readSSHAndFTP` and `readApache` hand to the strategies,
the parser maps merged with the drained buffers, have only non-empty keys and
counts of at least 1, never a zero or negative count, as long as every staged
count plus the number `N` of lines a read returns is representable (9, 10). -/
theorem event_maps_hold_only_positive_counts (lines : List Str) :
    (∀ m, parseSSHFailuresFromLines lines = some m →
        (mapKeys m).Nodup ∧ (∀ p ∈ m, p.1 ≠ [] ∧ 1 ≤ p.2) ∧ sumCounts m ≤ lines.length)
      ∧ (∀ m, parseFTPFailuresFromLines lines = some m →
        (mapKeys m).Nodup ∧ (∀ p ∈ m, p.1 ≠ [] ∧ 1 ≤ p.2) ∧ sumCounts m ≤ lines.length)
      ∧ (∀ m, lines.foldlM apacheLine [] = some m →
        (mapKeys m).Nodup ∧ (∀ p ∈ m, p.1 ≠ [] ∧ 1 ≤ p.2) ∧ sumCounts m ≤ lines.length)
      ∧ (∀ (w : World) (path : Str) (f : FileView),
          (parseApacheErrors w path f).1
            = (linesOf (ReadNewLines w path f).1).foldlM apacheLine [])
      ∧ ((∀ l ∈ lines, sshVerdict l ≠ .abort) → ∃ m, parseSSHFailuresFromLines lines = some m)
      ∧ ((∀ l ∈ lines, ftpVerdict l ≠ .abort) → ∃ m, parseFTPFailuresFromLines lines = some m)
      ∧ ((∀ l ∈ lines, apacheVerdict l ≠ .abort) → ∃ m, lines.foldlM apacheLine [] = some m)
      ∧ (SimOK World.init
          ∧ (∀ (w : World) (x : SimAdd), SimOK w →
              mapGetD (simBuffer x.kind w) x.ip + x.n ≤ maxInt → SimOK (AddSimulated w x))
          ∧ (∀ (k : SimKind) (w : World), SimOK w →
              (∀ p ∈ (drainSimulated k w).1, p.1 ≠ [] ∧ 0 < p.2)
                ∧ SimOK (drainSimulated k w).2))
      ∧ (∀ (w : World) (cfg : Config) (fSSH fFTP : FileView) (s f : GoMap Int) (N : Int),
          SimOK w →
          ((linesOf (ReadNewLines w cfg.SSHLogPath fSSH).1).length : Int) ≤ N →
          ((linesOf (ReadNewLines (ReadNewLines w cfg.SSHLogPath fSSH).2 cfg.FTPLogPath
            fFTP).1).length : Int) ≤ N →
          (∀ p ∈ w.simSSHFails, p.2 + N ≤ maxInt) →
          (∀ p ∈ w.simFTPFails, p.2 + N ≤ maxInt) →
          (readSSHAndFTP w cfg fSSH fFTP).1 = some (s, f) →
          (∀ p ∈ s, p.1 ≠ [] ∧ 1 ≤ p.2) ∧ (∀ p ∈ f, p.1 ≠ [] ∧ 1 ≤ p.2))
      ∧ (∀ (w : World) (cfg : Config) (fA : FileView) (m : GoMap Int) (N : Int), SimOK w →
          ((linesOf (ReadNewLines w cfg.ApacheAccessLogPath fA).1).length : Int) ≤ N →
          (∀ p ∈ w.simApacheErr, p.2 + N ≤ maxInt) →
          (readApache w cfg fA).1 = some m → ∀ p ∈ m, p.1 ≠ [] ∧ 1 ≤ p.2) := by
  obtain ⟨p1, p2, p3⟩ := parse_PosCounts lines
  obtain ⟨e1, e2, e3⟩ := parser_loops_as_verdict_folds
  refine ⟨?_, ?_, ?_, ?_, ?_, ?_, ?_, ⟨?_, SimOK_AddSimulated, ?_⟩, ?_, ?_⟩
  · intro m hm
    exact ⟨(p1 m hm).1.1, (p1 m hm).1.2, (p1 m hm).2⟩
  · intro m hm
    exact ⟨(p2 m hm).1.1, (p2 m hm).1.2, (p2 m hm).2⟩
  · intro m hm
    exact ⟨(p3 m hm).1.1, (p3 m hm).1.2, (p3 m hm).2⟩
  · intro w path f
    rw [(parsers_read_then_fold w path f).2.2]
  · intro h
    rw [parseSSHFailuresFromLines, e1]
    exact foldlM_verdict_isSome sshVerdict lines [] h
  · intro h
    rw [parseFTPFailuresFromLines, e2]
    exact foldlM_verdict_isSome ftpVerdict lines [] h
  · intro h
    rw [e3]
    exact foldlM_verdict_isSome apacheVerdict lines [] h
  · exact ⟨PosCounts_nil, PosCounts_nil, PosCounts_nil⟩
  · intro k w hw
    obtain ⟨d1, d2⟩ := SimOK_drainSimulated k w hw
    refine ⟨?_, d2⟩
    intro p hp
    have := d1.2 p hp
    exact ⟨this.1, by omega⟩
  · intro w cfg fSSH fFTP s f N hw hN1 hN2 hbS hbF h
    obtain ⟨r1, r2⟩ := readSSHAndFTP_PosCounts w cfg fSSH fFTP s f N hw hN1 hN2 hbS hbF h
    exact ⟨r1.2, r2.2⟩
  · intro w cfg fA m N hw hN hb h
    exact (readApache_PosCounts w cfg fA m N hw hN hb h).2

theorem event_maps_hold_only_positive_counts_witness :
    parseSSHFailuresFromLines
        ["sshd: Failed password for root rhost=1.2.3.4".toList, "cron: job".toList,
         "sshd: Failed password for admin rhost=1.2.3.4".toList]
        = some [("1.2.3.4".toList, 2)]
      ∧ sumCounts [("1.2.3.4".toList, (2 : Int))]
          ≤ (["sshd: Failed password for root rhost=1.2.3.4".toList, "cron: job".toList,
              "sshd: Failed password for admin rhost=1.2.3.4".toList].length : Int) :=
  ⟨by decide,
    ((event_maps_hold_only_positive_counts
        ["sshd: Failed password for root rhost=1.2.3.4".toList, "cron: job".toList,
         "sshd: Failed password for admin rhost=1.2.3.4".toList]).1
      [("1.2.3.4".toList, 2)] (by decide)).2.2⟩

end SecureMonitor
